import Mathlib

/-!
# Quiz session grading (`src/web/app.js`)

A shallow embedding of the session logic of the quiz front end: the methods
`_submitExam`, `loadCurrentQuestion`, `viewAnswer`, `prevQuestion`,
`nextQuestion`, `jumpToQuestion`, `selectOption`, `selectMultipleOption`,
`_saveCurrentAnswer`, `autoSaveAnswer` and `loadAnswerSheet` of the Vue
application, together with the JavaScript library operations they rely on
(`Array.prototype.sort` with the default comparator, `String.prototype.trim`,
`JSON.stringify` on arrays of strings and `Math.round`).

JavaScript strings are sequences of UTF-16 code units; they are modelled as
lists of natural numbers (each intended to be below `65536`).  Arrays are
modelled by their contents.  An in-place update of an array that is reachable
from the component state is modelled by updating the state.  Counts and
indices are integers.  The score is a double: it is modelled by the rational
it denotes, and each arithmetic operation on it rounds the exact result to the
nearest double (`toDouble`).
-/

namespace TGHelper

/-! ## JavaScript strings -/

/-- A JavaScript string: its sequence of UTF-16 code units. -/
abbrev JsStr := List Nat

/-- UTF-16 code units of one Unicode scalar value. -/
def utf16Char (c : Nat) : List Nat :=
  if c < 65536 then [c]
  else [55296 + (c - 65536) / 1024, 56320 + (c - 65536) % 1024]

/-- The JavaScript string written by a source literal. -/
def utf16 (s : String) : JsStr :=
  s.data.flatMap (fun c => utf16Char c.toNat)

/-- Comparison `a <= b` of two strings by code units, as used by the default
comparator of `Array.prototype.sort` (a proper prefix comes first). -/
def strLe : JsStr → JsStr → Bool
  | [], _ => true
  | _ :: _, [] => false
  | a :: as, b :: bs => if a < b then true else if b < a then false else strLe as bs

/-- The order relation of `strLe`. -/
def StrLe (a b : JsStr) : Prop := strLe a b = true

instance : DecidableRel StrLe := fun a b => inferInstanceAs (Decidable (strLe a b = true))

/-- Contents of an array of strings after `arr.sort()` (default comparator).
Strings that compare equal are identical, so the result does not depend on
the sorting algorithm of the engine. -/
def jsSort (xs : List JsStr) : List JsStr := List.insertionSort StrLe xs

/-- Code units removed by `String.prototype.trim`: the ECMAScript `WhiteSpace`
and `LineTerminator` productions. -/
def isWhiteSpace (u : Nat) : Bool :=
  u == 9 || u == 10 || u == 11 || u == 12 || u == 13 || u == 32 || u == 160 ||
  u == 5760 || (8192 ≤ u && u ≤ 8202) || u == 8232 || u == 8233 || u == 8239 ||
  u == 8287 || u == 12288 || u == 65279

/-- The method `String.prototype.trim`. -/
def trim (s : JsStr) : JsStr :=
  ((s.dropWhile isWhiteSpace).reverse.dropWhile isWhiteSpace).reverse

/-! ## `JSON.stringify` on an array of strings -/

/-- Lower-case hexadecimal digit. -/
def hexDigit (d : Nat) : Nat := if d < 10 then 48 + d else 87 + d

/-- The escape `\uXXXX` of a code unit. -/
def unicodeEscape (u : Nat) : List Nat :=
  [92, 117, hexDigit (u / 4096 % 16), hexDigit (u / 256 % 16), hexDigit (u / 16 % 16),
    hexDigit (u % 16)]

/-- Leading (high) surrogate. -/
def isLeadSurrogate (u : Nat) : Bool := 55296 ≤ u && u ≤ 56319

/-- Trailing (low) surrogate. -/
def isTrailSurrogate (u : Nat) : Bool := 56320 ≤ u && u ≤ 57343

/-- Output of `QuoteJSONString` for one code point that is a single code unit
(a unit outside a surrogate pair): the short escapes, `\uXXXX` for control
characters and lone surrogates, and the unit itself otherwise. -/
def quoteUnit (u : Nat) : List Nat :=
  if u = 8 then [92, 98]
  else if u = 9 then [92, 116]
  else if u = 10 then [92, 110]
  else if u = 12 then [92, 102]
  else if u = 13 then [92, 114]
  else if u = 34 then [92, 34]
  else if u = 92 then [92, 92]
  else if u < 32 || isLeadSurrogate u || isTrailSurrogate u then unicodeEscape u
  else [u]

/-- The characters between the quotes in `QuoteJSONString`: the string is read
by code points, so a leading surrogate followed by a trailing one is copied
as a pair. -/
def quoteBody : JsStr → List Nat
  | [] => []
  | [u] => quoteUnit u
  | u :: v :: rest =>
    if isLeadSurrogate u && isTrailSurrogate v then u :: v :: quoteBody rest
    else quoteUnit u ++ quoteBody (v :: rest)

/-- The abstract operation `QuoteJSONString`. -/
def quoteJSONString (s : JsStr) : List Nat := 34 :: (quoteBody s ++ [34])

/-- The elements after the first one, each preceded by a comma, and the
closing bracket. -/
def stringifyTail : List JsStr → List Nat
  | [] => [93]
  | x :: xs => 44 :: (quoteJSONString x ++ stringifyTail xs)

/-- The text `JSON.stringify(arr)` for an array of strings. -/
def jsonStringify : List JsStr → List Nat
  | [] => [91, 93]
  | x :: xs => 91 :: (quoteJSONString x ++ stringifyTail xs)

/-! ## Numbers

A JavaScript Number is an IEEE 754 binary64 value.  A finite one is held as
the rational it denotes; every arithmetic operation yields the exact result
rounded to the nearest double. -/

/-- The integer nearest to `x`, a tie going to the even neighbour (the
rounding mode of JavaScript arithmetic, `roundTiesToEven`). -/
def roundTiesToEven (x : ℚ) : ℤ :=
  if x - ⌊x⌋ < 1 / 2 then ⌊x⌋
  else if 1 / 2 < x - ⌊x⌋ then ⌊x⌋ + 1
  else if ⌊x⌋ % 2 = 0 then ⌊x⌋ else ⌊x⌋ + 1

/-- The binary exponent `e` of the doubles around `x`: `2^e <= |x| < 2^(e+1)`
for a normal number, and `-1022`, the least exponent, below that range. -/
def doubleExponent (x : ℚ) : ℤ := max (Int.log 2 |x|) (-1022)

/-- The double nearest to the exact value `x`: doubles with exponent `e` are
the multiples of `2^(e - 52)` (53 significant bits), and `x` goes to the
nearest of them, a tie to the one with an even significand.  Overflow to
`Infinity` (magnitudes from `2^1024`) is left out: the numbers of this program
are bounded by 1000. -/
def toDouble (x : ℚ) : ℚ :=
  (roundTiesToEven (x / 2 ^ (doubleExponent x - 52)) : ℚ) * 2 ^ (doubleExponent x - 52)

/-- The method `Math.round`: the integer nearest to the double `x`, a tie
going up, that is `floor(x + 1/2)` taken exactly. -/
def mathRound (x : ℚ) : ℤ := ⌊x + 1 / 2⌋

/-! ## Data model -/

/-- A question of the extracted list (`this.localQuestions[i]`).  The fields
`options`, `correct_answer` and `analysis` may be missing from the object. -/
structure Question where
  type : JsStr
  content : JsStr
  options : Option (List JsStr)
  correct_answer : Option (List JsStr)
  analysis : Option JsStr
  deriving DecidableEq, Repr

/-- A record pushed on `wrong_questions`. -/
structure WrongQuestion where
  id : Nat
  type : JsStr
  content : JsStr
  options : List JsStr
  user_answer : List JsStr
  correct_answer : Option (List JsStr)
  analysis : JsStr
  deriving DecidableEq, Repr

/-- The object assigned to `this.result`; `score` is the value of the double. -/
structure Result where
  success : Bool
  score : ℚ
  correct_count : Nat
  total_questions : Nat
  wrong_questions : List WrongQuestion
  deriving DecidableEq

/-- Values of `this.step`. -/
inductive Step where
  | load | extract | answer | result
  deriving DecidableEq, Repr

/-- Values of `this.error`.  The text after the prefix of a failure message is
the message of the exception, which depends on the engine. -/
inductive ErrorMsg where
  /-- The empty string. -/
  | empty
  /-- The message `题目索引无效`. -/
  | invalidIndex
  /-- A message starting with `提交失败: `. -/
  | submitFailed
  /-- A message starting with `查看答案失败: `. -/
  | viewFailed
  /-- A message starting with `加载题目失败: `. -/
  | loadFailed
  deriving DecidableEq, Repr

/-- The array object bound to `this.userAnswer`: either an array that no entry
of `localAnswers` holds, given by its contents, or the very array held at
`localAnswers[k]` (after `this.userAnswer = this.localAnswers[k]`), whose
contents are read from, and written to, that entry. -/
inductive AnswerRef where
  | own (contents : List JsStr)
  | stored (k : Int)
  deriving DecidableEq, Repr

/-- The value bound to `this.correctAnswer`: an array of its own, or the
`correct_answer` of the question object `localQuestions[j]` (the same array,
or `undefined` when the question has none). -/
inductive CorrectRef where
  | own (contents : List JsStr)
  | ofQuestion (j : Nat)
  deriving DecidableEq, Repr

/-- An entry of the answer sheet. -/
structure SheetEntry where
  index : Nat
  type : JsStr
  is_answered : Bool
  is_viewed : Bool
  displayNumber : Nat
  deriving DecidableEq, Repr

/-- A group of the answer sheet: the questions of one type. -/
structure SheetGroup where
  type : JsStr
  questions : List SheetEntry
  deriving DecidableEq, Repr

/-- The fields `show` (here `shown`) and `questions` of `this.answerSheet`. -/
structure AnswerSheet where
  shown : Bool
  questions : List SheetGroup
  deriving DecidableEq, Repr

/-- The component state of a quiz session.  The objects `localAnswers` and
`localViewedAnswers` are sparse maps from index to value.  `currentQuestion`
is `null` or the question object `localQuestions[j]`, kept as the index `j`.
The records of `result` are kept by value, as they are when `_submitExam`
returns. -/
structure State where
  step : Step
  error : ErrorMsg
  currentIndex : Int
  result : Option Result
  localQuestions : List Question
  localAnswers : Int → Option (List JsStr)
  localViewedAnswers : Int → Option Bool
  totalQuestions : Int
  currentQuestion : Option Nat
  userAnswer : AnswerRef
  correctAnswer : CorrectRef
  isAnswerViewed : Bool
  studyMode : Bool
  autoShowAnswer : Bool
  notification : Option (JsStr × JsStr)
  answerSheet : AnswerSheet

/-- The sparse map `m` with the entry of key `k` replaced by `v` (`none`: no
entry). -/
def setKey {α : Type} (m : Int → Option α) (k : Int) (v : Option α) : Int → Option α :=
  fun j => if j = k then v else m j

/-! ## Reading back the output of `QuoteJSONString`

These functions are used only to show that `JSON.stringify` is injective on
arrays of strings. -/

/-- Value of a lower-case hexadecimal digit. -/
def unhexDigit (h : Nat) : Nat := if h < 58 then h - 48 else h - 87

/-- The code unit written by an escape, given the text after the backslash. -/
def decodeEscape : List Nat → Option (Nat × List Nat)
  | [] => none
  | e :: r =>
    if e = 98 then some (8, r)
    else if e = 116 then some (9, r)
    else if e = 110 then some (10, r)
    else if e = 102 then some (12, r)
    else if e = 114 then some (13, r)
    else if e = 34 then some (34, r)
    else if e = 92 then some (92, r)
    else if e = 117 then
      match r with
      | a :: b :: c :: d :: r' =>
        some (unhexDigit a * 4096 + unhexDigit b * 256 + unhexDigit c * 16 + unhexDigit d, r')
      | _ => none
    else none

/-- The first code unit written in a quoted string, and the rest of the text;
`none` at the closing quote. -/
def decodeToken : List Nat → Option (Nat × List Nat)
  | [] => none
  | u :: r => if u = 34 then none else if u = 92 then decodeEscape r else some (u, r)

/-- The text `out` is a sequence of tokens, one per code unit of `s`, each of
which reads back as that unit. -/
inductive Encodes : JsStr → List Nat → Prop
  | nil : Encodes [] []
  | cons (u : Nat) (tk : List Nat) (s : JsStr) (out : List Nat) :
      (∀ r, decodeToken (tk ++ r) = some (u, r)) → Encodes s out → Encodes (u :: s) (tk ++ out)

/-! ## Question types -/

/-- The type name `单选题`. -/
def singleChoice : JsStr := utf16 "单选题"
/-- The type name `判断题`. -/
def trueFalse : JsStr := utf16 "判断题"
/-- The type name `多选题`. -/
def multipleChoice : JsStr := utf16 "多选题"
/-- The type name `选择题`. -/
def choice : JsStr := utf16 "选择题"
/-- The type name `填空题`. -/
def fillBlank : JsStr := utf16 "填空题"
/-- The type name `简答题`. -/
def shortAnswer : JsStr := utf16 "简答题"
/-- The type name `释义题`. -/
def definition : JsStr := utf16 "释义题"

/-- The array `['单选题', '判断题', '多选题', '选择题']`. -/
def selectionTypes : List JsStr := [singleChoice, trueFalse, multipleChoice, choice]

/-- The array `['填空题', '简答题', '释义题']`. -/
def textTypes : List JsStr := [fillBlank, shortAnswer, definition]

/-! ## Grading -/

/-- The comparison of the selection branch once both arrays are sorted:
`JSON.stringify(a) === JSON.stringify(b)`. -/
def sameJson (a b : List JsStr) : Bool := jsonStringify a == jsonStringify b

/-- The inner loop of the text branch, `for (j = 0; j < user_answer.length; j++)`,
giving `is_all_correct`.  It runs only when both arrays have the same
length, so the second array never ends first. -/
def allTrimmedEqual : List JsStr → List JsStr → Bool
  | [], _ => true
  | _ :: _, [] => false
  | u :: us, c :: cs => if trim u != trim c then false else allTrimmedEqual us cs

/-- The text branch: `is_correct` stays `false` unless the lengths agree. -/
def textCorrect (user_answer correct_answer : List JsStr) : Bool :=
  if user_answer.length = correct_answer.length then allTrimmedEqual user_answer correct_answer
  else false

/-- What one iteration of the loop of `_submitExam` leaves behind. -/
structure Graded where
  /-- The question object after the iteration. -/
  question : Question
  /-- The entry `localAnswers[i]` after the iteration. -/
  stored : Option (List JsStr)
  /-- The contents of the array bound to `user_answer` after the comparison. -/
  user_answer : List JsStr
  /-- The value of `is_correct`; `none` when the iteration throws a `TypeError`
  (a method or property of a missing `correct_answer`). -/
  verdict : Option Bool
  deriving DecidableEq

/-- The grading step of `_submitExam` for one question, given the entry
`localAnswers[i]`.  `user_answer.sort()` and `correct_answer.sort()` sort the
arrays themselves: the stored answer (when there is one) and the question's
`correct_answer` are left sorted. -/
def gradeQuestion (question : Question) (stored : Option (List JsStr)) : Graded :=
  let user_answer := stored.getD []
  if selectionTypes.contains question.type then
    let sorted := jsSort user_answer
    let stored' := stored.map (fun _ => sorted)
    match question.correct_answer with
    | none => ⟨question, stored', sorted, none⟩
    | some correct_answer =>
      ⟨{ question with correct_answer := some (jsSort correct_answer) }, stored', sorted,
        some (sameJson sorted (jsSort correct_answer))⟩
  else if textTypes.contains question.type then
    match question.correct_answer with
    | none => ⟨question, stored, user_answer, none⟩
    | some correct_answer =>
      ⟨question, stored, user_answer, some (textCorrect user_answer correct_answer)⟩
  else ⟨question, stored, user_answer, some false⟩

/-- The record pushed on `wrong_questions` for index `i`. -/
def wrongRecord (i : Nat) (g : Graded) : WrongQuestion :=
  { id := i + 1
    type := g.question.type
    content := g.question.content
    options := g.question.options.getD []
    user_answer := g.user_answer
    correct_answer := g.question.correct_answer
    analysis := g.question.analysis.getD [] }

/-- State of the loop of `_submitExam` when it ends. -/
structure Loop where
  /-- The question list, with the arrays sorted so far. -/
  questions : List Question
  /-- The map `localAnswers`, with the arrays sorted so far. -/
  answers : Int → Option (List JsStr)
  /-- The pair `correct_count`, `wrong_questions`; `none` when an iteration
  threw. -/
  outcome : Option (Nat × List WrongQuestion)

/-- The loop `for (let i = 0; i < total_questions; i++)` of `_submitExam`, from
index `i` on, over the questions not yet visited. -/
def submitLoop : List Question → Nat → (Int → Option (List JsStr)) → Nat →
    List WrongQuestion → Loop
  | [], _, answers, correct_count, wrong_questions =>
    ⟨[], answers, some (correct_count, wrong_questions)⟩
  | question :: rest, i, answers, correct_count, wrong_questions =>
    let g := gradeQuestion question (answers i)
    let answers' := setKey answers i g.stored
    match g.verdict with
    | none => ⟨g.question :: rest, answers', none⟩
    | some is_correct =>
      let r :=
        if is_correct then submitLoop rest (i + 1) answers' (correct_count + 1) wrong_questions
        else submitLoop rest (i + 1) answers' correct_count (wrong_questions ++ [wrongRecord i g])
      ⟨g.question :: r.questions, r.answers, r.outcome⟩

/-- The score `Math.round((correct_count / total_questions) * 100 * 10) / 10`,
or `0` without questions, in double arithmetic: the quotient, the two
products and the final quotient are each rounded to the nearest double.  The
two counts are array lengths, below `2^32`, hence doubles themselves. -/
def computeScore (correct_count total_questions : Nat) : ℚ :=
  if total_questions > 0 then
    toDouble ((mathRound (toDouble (toDouble
      (toDouble ((correct_count : ℚ) / (total_questions : ℚ)) * 100) * 10)) : ℚ) / 10)
  else 0

/-- The method `_submitExam`.  When an iteration throws, the `catch` block
sets the error message; `result` and `step` keep their values and the arrays
sorted before the exception stay sorted. -/
def _submitExam (s : State) : State :=
  let total_questions := s.localQuestions.length
  let l := submitLoop s.localQuestions 0 s.localAnswers 0 []
  match l.outcome with
  | none =>
    { s with error := ErrorMsg.submitFailed, localQuestions := l.questions,
             localAnswers := l.answers }
  | some (correct_count, wrong_questions) =>
    { s with
      error := ErrorMsg.empty
      localQuestions := l.questions
      localAnswers := l.answers
      result := some
        { success := true
          score := computeScore correct_count total_questions
          correct_count := correct_count
          total_questions := total_questions
          wrong_questions := wrong_questions }
      step := Step.result }

/-! ## Navigation and answering -/

/-- The contents of the array that `r` refers to.  A reference to an entry
that `localAnswers` does not hold stands for an empty array of its own. -/
def answerRefValue (answers : Int → Option (List JsStr)) (r : AnswerRef) : List JsStr :=
  match r with
  | AnswerRef.own l => l
  | AnswerRef.stored k => (answers k).getD []

/-- The contents of the array bound to `this.userAnswer`. -/
def userAnswerValue (s : State) : List JsStr := answerRefValue s.localAnswers s.userAnswer

/-- The value of `this.correctAnswer`; `none` is `undefined`. -/
def correctAnswerValue (s : State) : Option (List JsStr) :=
  match s.correctAnswer with
  | CorrectRef.own l => some l
  | CorrectRef.ofQuestion j => s.localQuestions[j]?.bind (fun q => q.correct_answer)

/-- An update in place of the array bound to `this.userAnswer`, its new
contents being `l`: when that array is the one held at `localAnswers[k]`, the
entry changes with it. -/
def setUserAnswer (s : State) (l : List JsStr) : State :=
  match s.userAnswer with
  | AnswerRef.own _ => { s with userAnswer := AnswerRef.own l }
  | AnswerRef.stored k =>
    match s.localAnswers k with
    | some _ => { s with localAnswers := setKey s.localAnswers k (some l) }
    | none => { s with userAnswer := AnswerRef.own l }

/-- The test `this.currentIndex >= 0 && this.currentIndex < this.localQuestions.length`. -/
def indexValid (s : State) : Prop :=
  0 ≤ s.currentIndex ∧ s.currentIndex < (s.localQuestions.length : Int)

instance (s : State) : Decidable (indexValid s) :=
  inferInstanceAs (Decidable (_ ∧ _))

/-- The method `viewAnswer`.  Reading `correct_answer` of a `null`
`currentQuestion` throws after the two flags are set; the `catch` block then
sets the error message.  The timer that hides the notification is not
modelled. -/
def viewAnswer (s : State) : State :=
  if indexValid s then
    match s.currentQuestion with
    | none =>
      { s with
        error := ErrorMsg.viewFailed
        isAnswerViewed := true
        localViewedAnswers := setKey s.localViewedAnswers s.currentIndex (some true) }
    | some j =>
      { s with
        error := ErrorMsg.empty
        isAnswerViewed := true
        localViewedAnswers := setKey s.localViewedAnswers s.currentIndex (some true)
        correctAnswer := CorrectRef.ofQuestion j
        notification := some (utf16 "答案已显示", utf16 "info") }
  else { s with error := ErrorMsg.invalidIndex }

/-- The array bound to `this.userAnswer` by `loadCurrentQuestion` for a
question of type `type`: the stored array (an empty one when there is none),
replaced by `['']` when it is empty and the type is one of the text types, or
one of `单选题` and `判断题`. -/
def loadedUserAnswer (answers : Int → Option (List JsStr)) (index : Int) (type : JsStr) :
    AnswerRef :=
  let userAnswer :=
    match answers index with
    | some _ => AnswerRef.stored index
    | none => AnswerRef.own []
  let userAnswer :=
    if textTypes.contains type ∧ (answerRefValue answers userAnswer).length = 0 then
      AnswerRef.own [[]]
    else userAnswer
  if [singleChoice, trueFalse].contains type ∧ (answerRefValue answers userAnswer).length = 0 then
    AnswerRef.own [[]]
  else userAnswer

/-- The method `loadCurrentQuestion`.  Nothing in the `try` block throws. -/
def loadCurrentQuestion (s : State) : State :=
  if indexValid s then
    match s.localQuestions[s.currentIndex.toNat]? with
    | none => { s with error := ErrorMsg.empty }
    | some question =>
      let isAnswerViewed := (s.localViewedAnswers s.currentIndex).getD false
      let loaded : State :=
        { s with
          error := ErrorMsg.empty
          currentQuestion := some s.currentIndex.toNat
          userAnswer := loadedUserAnswer s.localAnswers s.currentIndex question.type
          isAnswerViewed := isAnswerViewed
          correctAnswer :=
            if isAnswerViewed then CorrectRef.ofQuestion s.currentIndex.toNat
            else CorrectRef.own [] }
      if loaded.studyMode ∧ ¬ isAnswerViewed then viewAnswer loaded else loaded
  else { s with error := ErrorMsg.invalidIndex }

/-- The method `prevQuestion`. -/
def prevQuestion (s : State) : State :=
  if s.currentIndex > 0 then loadCurrentQuestion { s with currentIndex := s.currentIndex - 1 }
  else s

/-- The method `nextQuestion`. -/
def nextQuestion (s : State) : State :=
  if s.currentIndex < s.totalQuestions - 1 then
    loadCurrentQuestion { s with currentIndex := s.currentIndex + 1 }
  else s

/-- The method `jumpToQuestion`. -/
def jumpToQuestion (index : Int) (s : State) : State :=
  loadCurrentQuestion
    { s with answerSheet := { s.answerSheet with shown := false }, currentIndex := index }

/-- The method `_saveCurrentAnswer`: `localAnswers[currentIndex]` receives a
copy of `userAnswer`, so the array bound to `userAnswer` is no longer the one
held at that entry. -/
def _saveCurrentAnswer (s : State) : State :=
  let copy := userAnswerValue s
  { s with
    localAnswers := setKey s.localAnswers s.currentIndex (some copy)
    userAnswer :=
      if s.userAnswer = AnswerRef.stored s.currentIndex then AnswerRef.own copy
      else s.userAnswer }

/-- The method `autoSaveAnswer`. -/
def autoSaveAnswer (s : State) : State :=
  if ¬ s.studyMode then _saveCurrentAnswer s else s

/-- The contents of an array after the assignment `arr[0] = value`. -/
def assignFirst (arr : List JsStr) (value : JsStr) : List JsStr :=
  match arr with
  | [] => [value]
  | _ :: rest => value :: rest

/-- The method `selectOption` (its second parameter is not used). -/
def selectOption (value : JsStr) (s : State) : State :=
  if ¬ s.isAnswerViewed ∧ ¬ s.studyMode then
    let s := setUserAnswer s (assignFirst (userAnswerValue s) value)
    let s := _saveCurrentAnswer s
    if s.autoShowAnswer ∧ ¬ s.isAnswerViewed then viewAnswer s else s
  else s

/-- The contents of an array after the toggle of `selectMultipleOption`:
`push(value)` when `indexOf(value)` is `-1`, `splice(index, 1)` at the first
occurrence otherwise. -/
def toggleValue (arr : List JsStr) (value : JsStr) : List JsStr :=
  if arr.contains value then arr.erase value else arr ++ [value]

/-- The method `selectMultipleOption` (its second parameter is not used). -/
def selectMultipleOption (value : JsStr) (s : State) : State :=
  if ¬ s.isAnswerViewed ∧ ¬ s.studyMode then
    let s := setUserAnswer s (toggleValue (userAnswerValue s) value)
    let s := _saveCurrentAnswer s
    if s.autoShowAnswer ∧ ¬ s.isAnswerViewed then viewAnswer s else s
  else s

/-! ## The answer sheet -/

/-- The array `answerSheet.typeOrder`, which no method assigns. -/
def typeOrder : List JsStr :=
  [singleChoice, multipleChoice, trueFalse, fillBlank, shortAnswer, definition]

/-- An element of the local array `questions` of `loadAnswerSheet`. -/
structure QuestionSummary where
  index : Nat
  type : JsStr
  is_answered : Bool
  is_viewed : Bool
  deriving DecidableEq, Repr

/-- The first loop of `loadAnswerSheet`, from index `i` on, over the
questions not yet visited. -/
def summariesFrom (answers : Int → Option (List JsStr)) (viewed : Int → Option Bool) :
    Nat → List Question → List QuestionSummary
  | _, [] => []
  | i, question :: rest =>
    { index := i
      type := question.type
      is_answered := decide (((answers i).getD []).length > 0)
      is_viewed := (viewed i).getD false } :: summariesFrom answers viewed (i + 1) rest

/-- The call `typeQuestions.map(q => ({...q, displayNumber: currentNumber++}))`. -/
def numberEntries : List QuestionSummary → Nat → List SheetEntry
  | [], _ => []
  | q :: rest, currentNumber =>
    { index := q.index, type := q.type, is_answered := q.is_answered, is_viewed := q.is_viewed,
      displayNumber := currentNumber } :: numberEntries rest (currentNumber + 1)

/-- The loop `typeOrder.forEach` of `loadAnswerSheet`, `currentNumber` being
the next display number. -/
def buildGroups (questions : List QuestionSummary) : List JsStr → Nat → List SheetGroup
  | [], _ => []
  | type :: rest, currentNumber =>
    let typeQuestions := questions.filter (fun q => q.type == type)
    if typeQuestions.length > 0 then
      { type := type, questions := numberEntries typeQuestions currentNumber } ::
        buildGroups questions rest (currentNumber + typeQuestions.length)
    else buildGroups questions rest currentNumber

/-- The method `loadAnswerSheet`. -/
def loadAnswerSheet (s : State) : State :=
  let questions := summariesFrom s.localAnswers s.localViewedAnswers 0 s.localQuestions
  { s with answerSheet := { s.answerSheet with questions := buildGroups questions typeOrder 1 } }

/-! ## Sequences of operations -/

/-- The operations on a session. -/
inductive Op where
  | viewAnswer
  | prevQuestion
  | nextQuestion
  | jumpToQuestion (k : Int)
  | loadCurrentQuestion
  | selectOption (value : JsStr)
  | selectMultipleOption (value : JsStr)
  | autoSaveAnswer
  | submitExam
  deriving DecidableEq, Repr

/-- The state after one operation. -/
def Op.apply : Op → State → State
  | Op.viewAnswer, s => TGHelper.viewAnswer s
  | Op.prevQuestion, s => TGHelper.prevQuestion s
  | Op.nextQuestion, s => TGHelper.nextQuestion s
  | Op.jumpToQuestion k, s => TGHelper.jumpToQuestion k s
  | Op.loadCurrentQuestion, s => TGHelper.loadCurrentQuestion s
  | Op.selectOption v, s => TGHelper.selectOption v s
  | Op.selectMultipleOption v, s => TGHelper.selectMultipleOption v s
  | Op.autoSaveAnswer, s => TGHelper.autoSaveAnswer s
  | Op.submitExam, s => _submitExam s

/-- The state after a sequence of operations, the first one first. -/
def runOps : List Op → State → State
  | [], s => s
  | op :: rest, s => runOps rest (op.apply s)

/-! ## The statistics `totalCorrect` and `totalWrong` -/

/-- The test `user_answer.length > 0 && user_answer.some(ans => ans.trim() !== '')`
of the two computed properties. -/
def isAnswered (user_answer : List JsStr) : Bool :=
  decide (user_answer.length > 0) && user_answer.any (fun ans => trim ans != [])

/-- The comparison inside `if (is_answered)` of `totalCorrect` and `totalWrong`,
for one question, given the entry `localAnswers[i]`.  As in `_submitExam`, the
two calls of `sort` leave the stored answer and the question's
`correct_answer` sorted, and a missing `correct_answer` makes the iteration
throw (verdict `none`). -/
def statGrade (question : Question) (stored : Option (List JsStr)) : Graded :=
  let user_answer := stored.getD []
  if [singleChoice, trueFalse, multipleChoice, choice].contains question.type then
    let sorted := jsSort user_answer
    match question.correct_answer with
    | none => ⟨question, stored.map (fun _ => sorted), sorted, none⟩
    | some correct_answer =>
      ⟨{ question with correct_answer := some (jsSort correct_answer) },
        stored.map (fun _ => sorted), sorted,
        some (jsonStringify sorted == jsonStringify (jsSort correct_answer))⟩
  else if [fillBlank, shortAnswer, definition].contains question.type then
    match question.correct_answer with
    | none => ⟨question, stored, user_answer, none⟩
    | some correct_answer =>
      ⟨question, stored, user_answer,
        some (if user_answer.length = correct_answer.length then
          allTrimmedEqual user_answer correct_answer else false)⟩
  else ⟨question, stored, user_answer, some false⟩

/-- State of the loop of a statistic when it ends. -/
structure StatLoop where
  /-- The question list, with the arrays sorted so far. -/
  questions : List Question
  /-- The map `localAnswers`, with the arrays sorted so far. -/
  answers : Int → Option (List JsStr)
  /-- The counter; `none` when an iteration threw. -/
  count : Option Nat

/-- The loop of `totalCorrect` (`wanted = true`: the counter grows when
`is_correct`) and of `totalWrong` (`wanted = false`: it grows when
`!is_correct`), from index `i` on, over the questions not yet visited.  The two
computed properties differ in that last test only. -/
def statLoop (wanted : Bool) : List Question → Nat → (Int → Option (List JsStr)) → Nat →
    StatLoop
  | [], _, answers, count => ⟨[], answers, some count⟩
  | question :: rest, i, answers, count =>
    if isAnswered ((answers i).getD []) then
      let g := statGrade question (answers i)
      match g.verdict with
      | none => ⟨g.question :: rest, setKey answers i g.stored, none⟩
      | some is_correct =>
        let r := statLoop wanted rest (i + 1) (setKey answers i g.stored)
          (if is_correct == wanted then count + 1 else count)
        ⟨g.question :: r.questions, r.answers, r.count⟩
    else
      let r := statLoop wanted rest (i + 1) answers count
      ⟨question :: r.questions, r.answers, r.count⟩

/-- The computed property `totalCorrect`: its value (`count`) and the arrays
it leaves sorted. -/
def totalCorrect (s : State) : StatLoop := statLoop true s.localQuestions 0 s.localAnswers 0

/-- The computed property `totalWrong`: its value (`count`) and the arrays it
leaves sorted. -/
def totalWrong (s : State) : StatLoop := statLoop false s.localQuestions 0 s.localAnswers 0

/-! ## Notions used to state the properties -/

/-- An answer is attempted, in the words of the specification: it is not
empty and at least one of its elements is not empty after trimming. -/
def AttemptedSpec (userAnswer : List JsStr) : Prop :=
  userAnswer ≠ [] ∧ ∃ x ∈ userAnswer, trim x ≠ []

instance (userAnswer : List JsStr) : Decidable (AttemptedSpec userAnswer) :=
  inferInstanceAs (Decidable (_ ∧ _))

/-- Index `k` of the session is attempted. -/
def attemptedAt (s : State) (k : Nat) : Bool :=
  decide (AttemptedSpec ((s.localAnswers k).getD []))

/-- Every question whose type is graded by one of the two comparison branches
carries a `correct_answer` array, so that no iteration of the loop throws. -/
def NoMissingAnswer (qs : List Question) : Prop :=
  ∀ q ∈ qs, (q.type ∈ selectionTypes ∨ q.type ∈ textTypes) → q.correct_answer.isSome = true

instance (qs : List Question) : Decidable (NoMissingAnswer qs) :=
  inferInstanceAs (Decidable (∀ q ∈ qs, _ → _))

/-- The outcome of the grading step for the question at index `k`, the stored
answers being `answers`; `none` outside the list. -/
def gradeAt (qs : List Question) (answers : Int → Option (List JsStr)) (k : Nat) :
    Option Graded :=
  qs[k]?.map (fun q => gradeQuestion q (answers k))

/-- The question at index `k` is graded correct. -/
def correctAt (qs : List Question) (answers : Int → Option (List JsStr)) (k : Nat) : Bool :=
  match gradeAt qs answers k with
  | some g => g.verdict == some true
  | none => false

/-- The wrong-question record of index `k`. -/
def recordAt (qs : List Question) (answers : Int → Option (List JsStr)) (k : Nat) :
    Option WrongQuestion :=
  (gradeAt qs answers k).map (wrongRecord k)

/-- Index `k` of the session is graded correct by `_submitExam`. -/
def gradedCorrect (s : State) (k : Nat) : Bool := correctAt s.localQuestions s.localAnswers k

/-! ## Sample questions and sessions -/

/-- A question of the given type with the given correct answer. -/
def sampleQuestion (type : JsStr) (correct_answer : List JsStr) : Question :=
  { type := type, content := utf16 "Q", options := none,
    correct_answer := some correct_answer, analysis := none }

/-- A session in the answering step with the given questions and stored
answers, nothing viewed. -/
def sampleSession (qs : List Question) (answers : List (List JsStr)) : State :=
  { step := Step.answer, error := ErrorMsg.empty, currentIndex := 0, result := none,
    localQuestions := qs,
    localAnswers := fun k => if 0 ≤ k then answers[k.toNat]? else none,
    localViewedAnswers := fun _ => none,
    totalQuestions := qs.length, currentQuestion := none, userAnswer := AnswerRef.own [],
    correctAnswer := CorrectRef.own [], isAnswerViewed := false, studyMode := false,
    autoShowAnswer := false, notification := none,
    answerSheet := { shown := false, questions := [] } }

/-- The session of the two scenarios: Q0 of type 单选题 with correct answer
`["B"]`, Q1 of type 填空题 with correct answer `["Paris","France"]`. -/
def scenarioQuestions : List Question :=
  [{ type := singleChoice, content := utf16 "Q0", options := some [utf16 "A", utf16 "B"],
     correct_answer := some [utf16 "B"], analysis := none },
   { type := fillBlank, content := utf16 "Q1", options := none,
     correct_answer := some [utf16 "Paris", utf16 "France"], analysis := none }]

/-- Scenario one: stored answers Q0 = `["B"]`, Q1 = `["paris ","France"]`. -/
def scenarioOne : State :=
  sampleSession scenarioQuestions [[utf16 "B"], [utf16 "paris ", utf16 "France"]]

/-- Scenario two: stored answer Q0 = `["A"]`, Q1 not answered. -/
def scenarioTwo : State := sampleSession scenarioQuestions [[utf16 "A"]]

/-- A session with one 多选题 question, correct answer `["B","A"]`, and the
stored answer `["C","A"]` (the options in the order they were ticked). -/
def unsortedSession : State :=
  sampleSession [sampleQuestion multipleChoice [utf16 "B", utf16 "A"]] [[utf16 "C", utf16 "A"]]

/-- The session right after a successful extraction of `qs`: the maps are
empty, `currentIndex` is 0 and `loadCurrentQuestion` has run. -/
def freshSession (qs : List Question) : State := loadCurrentQuestion (sampleSession qs [])

/-- A session of three questions of types 单选题, 填空题, 单选题. -/
def threeQuestions : List Question :=
  [sampleQuestion singleChoice [utf16 "A"], sampleQuestion fillBlank [utf16 "x"],
   sampleQuestion singleChoice [utf16 "B"]]

/-- A session with one 单选题 question that has no `correct_answer` field,
nothing answered. -/
def missingAnswerSession : State :=
  sampleSession
    [{ type := singleChoice, content := utf16 "Q", options := some [utf16 "A", utf16 "B"],
       correct_answer := none, analysis := none }] []

/-- A session of 2000 questions of type 单选题 with correct answer `["A"]`,
all answered `["A"]` except the last one, answered `["B"]`. -/
def largeSession : State :=
  { sampleSession (List.replicate 2000 (sampleQuestion singleChoice [utf16 "A"])) [] with
    localAnswers := fun k => if k = 1999 then some [utf16 "B"] else some [utf16 "A"] }

/-- A session of 80 single-choice questions with correct answer `["A"]`: the
first 23 are answered `["A"]`, the others `["B"]`. -/
def tieSession : State :=
  { sampleSession (List.replicate 80 (sampleQuestion singleChoice [utf16 "A"])) [] with
    localAnswers := fun k => if k < 23 then some [utf16 "A"] else some [utf16 "B"] }

/-! ## The string order and the sort -/

theorem strLe_total (a b : JsStr) : strLe a b = true ∨ strLe b a = true := by
  induction a generalizing b with
  | nil => simp [strLe]
  | cons x xs ih =>
    cases b with
    | nil => simp [strLe]
    | cons y ys =>
      simp only [strLe]
      rcases Nat.lt_trichotomy x y with h | h | h
      · simp [h]
      · subst h; simpa using ih ys
      · simp [h, Nat.lt_asymm h]

theorem strLe_antisymm (a b : JsStr) (h1 : strLe a b = true) (h2 : strLe b a = true) :
    a = b := by
  induction a generalizing b with
  | nil => cases b with
    | nil => rfl
    | cons y ys => simp [strLe] at h2
  | cons x xs ih =>
    cases b with
    | nil => simp [strLe] at h1
    | cons y ys =>
      simp only [strLe] at h1 h2
      rcases Nat.lt_trichotomy x y with h | h | h
      · simp [h, Nat.lt_asymm h] at h2
      · subst h
        simp only [Nat.lt_irrefl, if_false] at h1 h2
        rw [ih ys h1 h2]
      · simp [h, Nat.lt_asymm h] at h1

theorem strLe_trans (a b c : JsStr) (h1 : strLe a b = true) (h2 : strLe b c = true) :
    strLe a c = true := by
  induction a generalizing b c with
  | nil => simp [strLe]
  | cons x xs ih =>
    cases b with
    | nil => simp [strLe] at h1
    | cons y ys =>
      cases c with
      | nil => simp [strLe] at h2
      | cons z zs =>
        simp only [strLe] at h1 h2 ⊢
        by_cases hxy : x < y
        · by_cases hyz : y < z
          · simp [Nat.lt_trans hxy hyz]
          · by_cases hzy : z < y
            · simp [hyz, hzy] at h2
            · have : y = z := by omega
              subst this; simp [hxy]
        · by_cases hyx : y < x
          · simp [hxy, hyx] at h1
          · have hxy' : x = y := by omega
            subst hxy'
            simp only [Nat.lt_irrefl, if_false] at h1
            by_cases hxz : x < z
            · simp [hxz]
            · by_cases hzx : z < x
              · simp [hxz, hzx] at h2
              · simp only [hxz, hzx, if_false] at h2 ⊢
                exact ih ys zs h1 h2

theorem jsSort_perm (xs : List JsStr) : (jsSort xs).Perm xs :=
  List.perm_insertionSort StrLe xs

theorem jsSort_sorted (xs : List JsStr) : List.Sorted StrLe (jsSort xs) := by
  haveI : IsTotal JsStr StrLe := ⟨strLe_total⟩
  haveI : IsTrans JsStr StrLe := ⟨strLe_trans⟩
  exact List.sorted_insertionSort StrLe xs

theorem jsSort_eq_iff_perm (a b : List JsStr) : jsSort a = jsSort b ↔ a.Perm b := by
  haveI : IsAntisymm JsStr StrLe := ⟨strLe_antisymm⟩
  constructor
  · intro h
    exact ((jsSort_perm a).symm.trans (h ▸ List.Perm.refl _)).trans (jsSort_perm b)
  · intro h
    exact List.eq_of_perm_of_sorted (((jsSort_perm a).trans h).trans (jsSort_perm b).symm)
      (jsSort_sorted a) (jsSort_sorted b)

theorem jsSort_idem (xs : List JsStr) : jsSort (jsSort xs) = jsSort xs :=
  (jsSort_eq_iff_perm _ _).2 (jsSort_perm xs)

/-! ## `JSON.stringify` is injective -/

theorem unhexDigit_hexDigit (d : Nat) (h : d < 16) : unhexDigit (hexDigit d) = d := by
  unfold unhexDigit hexDigit
  split_ifs <;> omega

theorem decodeToken_unicodeEscape (u : Nat) (h : u < 65536) (r : List Nat) :
    decodeToken (unicodeEscape u ++ r) = some (u, r) := by
  have h3 := unhexDigit_hexDigit (u / 4096 % 16) (Nat.mod_lt _ (by decide))
  have h2 := unhexDigit_hexDigit (u / 256 % 16) (Nat.mod_lt _ (by decide))
  have h1 := unhexDigit_hexDigit (u / 16 % 16) (Nat.mod_lt _ (by decide))
  have h0 := unhexDigit_hexDigit (u % 16) (Nat.mod_lt _ (by decide))
  simp only [unicodeEscape, decodeToken, decodeEscape, List.cons_append, List.nil_append]
  simp only [h3, h2, h1, h0]
  simp
  omega

theorem decodeToken_quoteUnit (u : Nat) (r : List Nat) :
    decodeToken (quoteUnit u ++ r) = some (u, r) := by
  unfold quoteUnit
  split_ifs with c8 c9 c10 c12 c13 c34 c92 cesc
  · subst c8; simp [decodeToken, decodeEscape]
  · subst c9; simp [decodeToken, decodeEscape]
  · subst c10; simp [decodeToken, decodeEscape]
  · subst c12; simp [decodeToken, decodeEscape]
  · subst c13; simp [decodeToken, decodeEscape]
  · subst c34; simp [decodeToken, decodeEscape]
  · subst c92; simp [decodeToken, decodeEscape]
  · apply decodeToken_unicodeEscape
    simp only [isLeadSurrogate, isTrailSurrogate, Bool.or_eq_true, Bool.and_eq_true,
      decide_eq_true_eq] at cesc
    omega
  · simp [decodeToken, c34, c92]

theorem decodeToken_surrogate (u : Nat) (h : isLeadSurrogate u = true ∨ isTrailSurrogate u = true)
    (r : List Nat) : decodeToken ([u] ++ r) = some (u, r) := by
  simp only [isLeadSurrogate, isTrailSurrogate, Bool.and_eq_true, decide_eq_true_eq] at h
  have h34 : u ≠ 34 := by omega
  have h92 : u ≠ 92 := by omega
  simp [decodeToken, h34, h92]

theorem encodes_quoteBody (s : JsStr) : Encodes s (quoteBody s) := by
  induction s using quoteBody.induct with
  | case1 => exact Encodes.nil
  | case2 u =>
    have := Encodes.cons u (quoteUnit u) [] [] (decodeToken_quoteUnit u) Encodes.nil
    simpa [quoteBody] using this
  | case3 u v rest hp ih =>
    simp only [quoteBody, hp, if_true]
    simp only [Bool.and_eq_true] at hp
    exact Encodes.cons u [u] _ _ (decodeToken_surrogate u (Or.inl hp.1))
      (Encodes.cons v [v] _ _ (decodeToken_surrogate v (Or.inr hp.2)) ih)
  | case4 u v rest hp ih =>
    simp only [quoteBody, hp]
    exact Encodes.cons u (quoteUnit u) _ _ (decodeToken_quoteUnit u) ih

theorem encodes_inj {s t : JsStr} {o1 o2 : List Nat} (h1 : Encodes s o1) (h2 : Encodes t o2)
    (r1 r2 : List Nat) (h : o1 ++ 34 :: r1 = o2 ++ 34 :: r2) : s = t ∧ r1 = r2 := by
  induction h1 generalizing t o2 with
  | nil =>
    cases h2 with
    | nil => simpa using h
    | cons v tk t' out hv ht =>
      have := hv (out ++ 34 :: r2)
      rw [← List.append_assoc, ← h] at this
      simp [decodeToken] at this
  | cons u tk s' out hu hs ih =>
    cases h2 with
    | nil =>
      have := hu (out ++ 34 :: r1)
      rw [← List.append_assoc, h] at this
      simp [decodeToken] at this
    | cons v tk' t' out' hv ht =>
      have e1 := hu (out ++ 34 :: r1)
      have e2 := hv (out' ++ 34 :: r2)
      rw [← List.append_assoc, h, List.append_assoc, e2] at e1
      simp only [Option.some.injEq, Prod.mk.injEq] at e1
      obtain ⟨huv, hout⟩ := e1
      obtain ⟨hst, hr⟩ := ih ht hout.symm
      exact ⟨by rw [huv, hst], hr⟩

theorem quoteJSONString_inj (x y : JsStr) (r1 r2 : List Nat)
    (h : quoteJSONString x ++ r1 = quoteJSONString y ++ r2) : x = y ∧ r1 = r2 := by
  simp only [quoteJSONString, List.cons_append, List.append_assoc, List.cons.injEq, true_and,
    List.nil_append] at h
  exact encodes_inj (encodes_quoteBody x) (encodes_quoteBody y) r1 r2 h

theorem stringifyTail_inj (xs ys : List JsStr) (h : stringifyTail xs = stringifyTail ys) :
    xs = ys := by
  induction xs generalizing ys with
  | nil => cases ys with
    | nil => rfl
    | cons y ys => simp [stringifyTail] at h
  | cons x xs ih =>
    cases ys with
    | nil => simp [stringifyTail] at h
    | cons y ys =>
      simp only [stringifyTail, List.cons.injEq, true_and] at h
      obtain ⟨hxy, ht⟩ := quoteJSONString_inj x y _ _ h
      rw [hxy, ih ys ht]

theorem jsonStringify_inj (xs ys : List JsStr) (h : jsonStringify xs = jsonStringify ys) :
    xs = ys := by
  cases xs with
  | nil => cases ys with
    | nil => rfl
    | cons y ys => simp [jsonStringify, quoteJSONString] at h
  | cons x xs =>
    cases ys with
    | nil => simp [jsonStringify, quoteJSONString] at h
    | cons y ys =>
      simp only [jsonStringify, List.cons.injEq, true_and] at h
      obtain ⟨hxy, ht⟩ := quoteJSONString_inj x y _ _ h
      rw [hxy, stringifyTail_inj xs ys ht]

theorem sameJson_iff (a b : List JsStr) : sameJson a b = true ↔ a = b := by
  unfold sameJson
  rw [beq_iff_eq]
  exact ⟨jsonStringify_inj a b, fun h => by rw [h]⟩

/-! ## The grading step -/

theorem selection_verdict_iff (a b : List JsStr) :
    sameJson (jsSort a) (jsSort b) = true ↔ a.Perm b := by
  rw [sameJson_iff, jsSort_eq_iff_perm]

theorem allTrimmedEqual_iff (ua ca : List JsStr) (hlen : ua.length = ca.length) :
    allTrimmedEqual ua ca = true ↔
      ∀ i (h1 : i < ua.length) (h2 : i < ca.length), trim ua[i] = trim ca[i] := by
  induction ua generalizing ca with
  | nil => simp [allTrimmedEqual]
  | cons u us ih =>
    cases ca with
    | nil => simp at hlen
    | cons c cs =>
      simp only [List.length_cons, Nat.add_right_cancel_iff] at hlen
      simp only [allTrimmedEqual]
      constructor
      · intro h i h1 h2
        by_cases hne : trim u = trim c
        · simp only [hne, bne_self_eq_false, Bool.false_eq_true, if_false] at h
          cases i with
          | zero => simpa using hne
          | succ j =>
            simp only [List.getElem_cons_succ]
            exact (ih cs hlen).1 h j (by simpa using h1) (by simpa using h2)
        · simp [hne] at h
      · intro h
        have h0 : trim u = trim c := by simpa using h 0 (by simp) (by simp)
        simp only [h0, bne_self_eq_false, Bool.false_eq_true, if_false]
        refine (ih cs hlen).2 ?_
        intro i h1 h2
        simpa using h (i + 1) (by simpa using h1) (by simpa using h2)

theorem textCorrect_iff (ua ca : List JsStr) :
    textCorrect ua ca = true ↔
      (ua.length = ca.length ∧
        ∀ i (h1 : i < ua.length) (h2 : i < ca.length), trim ua[i] = trim ca[i]) := by
  unfold textCorrect
  by_cases hlen : ua.length = ca.length
  · simp only [hlen, if_true, true_and]
    have := allTrimmedEqual_iff ua ca hlen
    rw [this]
    constructor
    · intro h i h1 h2; exact h i (hlen ▸ h1) h2
    · intro h i h1 h2; exact h i h2 h2
  · simp [hlen]

theorem mem_selectionTypes_not_textTypes (t : JsStr) (h : t ∈ selectionTypes) :
    ¬ t ∈ textTypes := by
  intro h2
  simp only [selectionTypes, textTypes, List.mem_cons, List.mem_singleton, List.not_mem_nil,
    or_false] at h h2
  rcases h with h | h | h | h <;> subst h <;> revert h2 <;> decide

theorem gradeQuestion_selection (q : Question) (stored : Option (List JsStr))
    (ca : List JsStr) (ht : q.type ∈ selectionTypes) (hc : q.correct_answer = some ca) :
    gradeQuestion q stored =
      ⟨{ q with correct_answer := some (jsSort ca) }, stored.map (fun _ => jsSort (stored.getD [])),
        jsSort (stored.getD []), some (sameJson (jsSort (stored.getD [])) (jsSort ca))⟩ := by
  simp [gradeQuestion, ht, hc]

theorem gradeQuestion_selection_missing (q : Question) (stored : Option (List JsStr))
    (ht : q.type ∈ selectionTypes) (hc : q.correct_answer = none) :
    gradeQuestion q stored =
      ⟨q, stored.map (fun _ => jsSort (stored.getD [])), jsSort (stored.getD []), none⟩ := by
  simp [gradeQuestion, ht, hc]

theorem gradeQuestion_text (q : Question) (stored : Option (List JsStr))
    (ca : List JsStr) (ht : q.type ∈ textTypes) (hc : q.correct_answer = some ca) :
    gradeQuestion q stored =
      ⟨q, stored, stored.getD [], some (textCorrect (stored.getD []) ca)⟩ := by
  have hns : ¬ q.type ∈ selectionTypes := fun h => mem_selectionTypes_not_textTypes _ h ht
  simp [gradeQuestion, ht, hns, hc]

theorem gradeQuestion_text_missing (q : Question) (stored : Option (List JsStr))
    (ht : q.type ∈ textTypes) (hc : q.correct_answer = none) :
    gradeQuestion q stored = ⟨q, stored, stored.getD [], none⟩ := by
  have hns : ¬ q.type ∈ selectionTypes := fun h => mem_selectionTypes_not_textTypes _ h ht
  simp [gradeQuestion, ht, hns, hc]

theorem gradeQuestion_other (q : Question) (stored : Option (List JsStr))
    (hs : ¬ q.type ∈ selectionTypes) (ht : ¬ q.type ∈ textTypes) :
    gradeQuestion q stored = ⟨q, stored, stored.getD [], some false⟩ := by
  simp [gradeQuestion, ht, hs]

/-! ## Comparison rules (C1, C2, C10) -/

/-- C1 (as amended): for a question of type 单选题, 多选题 or 判断题 that has a
`correct_answer`, the grading step of `_submitExam` does not throw and marks
the question correct if and only if the multiset of the elements of the
stored answer (empty when absent), taken as they are, without trimming,
equals the multiset of the elements of `correct_answer`. -/
theorem C1_selection_correct_iff_same_multiset (q : Question) (stored : Option (List JsStr))
    (correctAnswer : List JsStr)
    (ht : q.type = singleChoice ∨ q.type = multipleChoice ∨ q.type = trueFalse)
    (hc : q.correct_answer = some correctAnswer) :
    ∃ b, (gradeQuestion q stored).verdict = some b ∧
      (b = true ↔
        (Multiset.ofList (stored.getD []) : Multiset JsStr) = Multiset.ofList correctAnswer) := by
  have hsel : q.type ∈ selectionTypes := by
    rcases ht with h | h | h <;> rw [h] <;> decide
  rw [gradeQuestion_selection q stored correctAnswer hsel hc]
  refine ⟨_, rfl, ?_⟩
  rw [selection_verdict_iff, Multiset.coe_eq_coe]

/-- Witness of C1: a 多选题 question with correct answer `["A","C"]` and stored
answer `["C","A"]` is marked correct. -/
theorem C1_selection_correct_iff_same_multiset_witness :
    (gradeQuestion (sampleQuestion multipleChoice [utf16 "A", utf16 "C"])
      (some [utf16 "C", utf16 "A"])).verdict = some true := by
  obtain ⟨b, hb, hiff⟩ :=
    C1_selection_correct_iff_same_multiset (sampleQuestion multipleChoice [utf16 "A", utf16 "C"])
      (some [utf16 "C", utf16 "A"]) [utf16 "A", utf16 "C"] (Or.inr (Or.inl rfl)) rfl
  rw [hb, hiff.2 (Multiset.coe_eq_coe.2 (List.Perm.swap _ _ _))]

/-- C1 as stated fails: for a 单选题 question with correct answer `["A"]` and
stored answer `["A "]` the trimmed multisets agree, yet the question is marked
not correct. -/
theorem C1_trimmed_multiset_counterexample :
    ¬ ((gradeQuestion (sampleQuestion singleChoice [utf16 "A"]) (some [utf16 "A "])).verdict
          = some true ↔
        (Multiset.ofList ([utf16 "A "].map trim) : Multiset JsStr)
          = Multiset.ofList ([utf16 "A"].map trim)) := by
  have h1 : (gradeQuestion (sampleQuestion singleChoice [utf16 "A"])
      (some [utf16 "A "])).verdict = some false := by decide
  have h2 : [utf16 "A "].map trim = [utf16 "A"].map trim := by decide
  rw [h1, h2]
  simp

/-- C2: for a question of type 填空题, 简答题 or 释义题 that has a `correct_answer`,
the grading step of `_submitExam` never throws, and marks the question
correct if and only if the stored answer (empty when absent) and
`correct_answer` have the same length and agree at every position after
trimming; in particular a length mismatch gives not-correct. -/
theorem C2_text_correct_iff_positionwise (q : Question) (stored : Option (List JsStr))
    (correctAnswer : List JsStr)
    (ht : q.type = fillBlank ∨ q.type = shortAnswer ∨ q.type = definition)
    (hc : q.correct_answer = some correctAnswer) :
    ∃ b, (gradeQuestion q stored).verdict = some b ∧
      (b = true ↔
        ((stored.getD []).length = correctAnswer.length ∧
          ∀ i (h1 : i < (stored.getD []).length) (h2 : i < correctAnswer.length),
            trim (stored.getD [])[i] = trim correctAnswer[i])) ∧
      ((stored.getD []).length ≠ correctAnswer.length → b = false) := by
  have htxt : q.type ∈ textTypes := by
    rcases ht with h | h | h <;> rw [h] <;> decide
  rw [gradeQuestion_text q stored correctAnswer htxt hc]
  refine ⟨_, rfl, textCorrect_iff _ _, ?_⟩
  intro hne
  simp [textCorrect, hne]

/-- Witness of C2: a 填空题 question with correct answer `["Paris","France"]`
and stored answer `["Paris "," France"]` is marked correct. -/
theorem C2_text_correct_iff_positionwise_witness :
    (gradeQuestion (sampleQuestion fillBlank [utf16 "Paris", utf16 "France"])
      (some [utf16 "Paris ", utf16 " France"])).verdict = some true := by
  obtain ⟨b, hb, hiff, _⟩ :=
    C2_text_correct_iff_positionwise (sampleQuestion fillBlank [utf16 "Paris", utf16 "France"])
      (some [utf16 "Paris ", utf16 " France"]) [utf16 "Paris", utf16 "France"] (Or.inl rfl) rfl
  rw [hb, hiff.2 (by decide)]

/-- C10: for a question of type 单选题, 多选题 or 判断题, the grading step gives
the same verdict for a stored answer and for any permutation of it; and a
多选题 question with correct answer `["A","C"]` and stored answer `["C","A"]`
is graded correct. -/
theorem C10_selection_verdict_permutation_invariant :
    (∀ (q : Question) (A A' : List JsStr),
      (q.type = singleChoice ∨ q.type = multipleChoice ∨ q.type = trueFalse) →
      A'.Perm A →
      (gradeQuestion q (some A')).verdict = (gradeQuestion q (some A)).verdict) ∧
    (gradeQuestion
      { type := multipleChoice, content := utf16 "Q", options := some [utf16 "A", utf16 "B", utf16 "C"],
        correct_answer := some [utf16 "A", utf16 "C"], analysis := none }
      (some [utf16 "C", utf16 "A"])).verdict = some true := by
  refine ⟨?_, by decide⟩
  intro q A A' ht hp
  have hsel : q.type ∈ selectionTypes := by
    rcases ht with h | h | h <;> rw [h] <;> decide
  have hs : jsSort A' = jsSort A := (jsSort_eq_iff_perm _ _).2 hp
  cases hc : q.correct_answer with
  | none =>
    rw [gradeQuestion_selection_missing q _ hsel hc, gradeQuestion_selection_missing q _ hsel hc]
  | some ca =>
    rw [gradeQuestion_selection q _ ca hsel hc, gradeQuestion_selection q _ ca hsel hc]
    simp [hs]

/-- Witness of C10: the stored answers `["B","A","B"]` and `["B","B","A"]` get
the same verdict on a 单选题 question. -/
theorem C10_selection_verdict_permutation_invariant_witness :
    (gradeQuestion (sampleQuestion singleChoice [utf16 "A", utf16 "B"])
        (some [utf16 "B", utf16 "A", utf16 "B"])).verdict
      = (gradeQuestion (sampleQuestion singleChoice [utf16 "A", utf16 "B"])
        (some [utf16 "B", utf16 "B", utf16 "A"])).verdict :=
  C10_selection_verdict_permutation_invariant.1
    (sampleQuestion singleChoice [utf16 "A", utf16 "B"])
    [utf16 "B", utf16 "B", utf16 "A"] [utf16 "B", utf16 "A", utf16 "B"] (Or.inl rfl)
    (List.Perm.cons _ (List.Perm.swap _ _ _))

/-! ## The loop of `_submitExam` -/

theorem jsSort_nil : jsSort [] = [] := rfl

theorem gradeQuestion_idem (q : Question) (stored : Option (List JsStr)) :
    gradeQuestion (gradeQuestion q stored).question (gradeQuestion q stored).stored
      = gradeQuestion q stored := by
  by_cases hsel : q.type ∈ selectionTypes
  · have hst : (stored.map (fun _ => jsSort (stored.getD []))).getD [] = jsSort (stored.getD []) := by
      cases stored <;> simp [jsSort_nil]
    cases hc : q.correct_answer with
    | none =>
      rw [gradeQuestion_selection_missing q stored hsel hc]
      simp only
      rw [gradeQuestion_selection_missing q _ hsel hc]
      simp only [hst, jsSort_idem, Option.map_map]
      rfl
    | some ca =>
      rw [gradeQuestion_selection q stored ca hsel hc]
      simp only
      rw [gradeQuestion_selection { q with correct_answer := some (jsSort ca) } _ (jsSort ca)
        hsel rfl]
      simp only [hst, jsSort_idem, Option.map_map]
      rfl
  · by_cases htxt : q.type ∈ textTypes
    · cases hc : q.correct_answer with
      | none =>
        rw [gradeQuestion_text_missing q stored htxt hc]
        rw [gradeQuestion_text_missing q stored htxt hc]
      | some ca =>
        rw [gradeQuestion_text q stored ca htxt hc]
        rw [gradeQuestion_text q stored ca htxt hc]
    · rw [gradeQuestion_other q stored hsel htxt]
      rw [gradeQuestion_other q stored hsel htxt]

theorem gradeQuestion_verdict_isSome (q : Question) (stored : Option (List JsStr))
    (h : (q.type ∈ selectionTypes ∨ q.type ∈ textTypes) → q.correct_answer.isSome = true) :
    ∃ b, (gradeQuestion q stored).verdict = some b := by
  by_cases hsel : q.type ∈ selectionTypes
  · obtain ⟨ca, hc⟩ := Option.isSome_iff_exists.1 (h (Or.inl hsel))
    rw [gradeQuestion_selection q stored ca hsel hc]
    exact ⟨_, rfl⟩
  · by_cases htxt : q.type ∈ textTypes
    · obtain ⟨ca, hc⟩ := Option.isSome_iff_exists.1 (h (Or.inr htxt))
      rw [gradeQuestion_text q stored ca htxt hc]
      exact ⟨_, rfl⟩
    · rw [gradeQuestion_other q stored hsel htxt]
      exact ⟨_, rfl⟩

theorem submitLoop_nil (i : Nat) (answers : Int → Option (List JsStr)) (cc : Nat)
    (wq : List WrongQuestion) : submitLoop [] i answers cc wq = ⟨[], answers, some (cc, wq)⟩ := rfl

theorem submitLoop_cons_throw (q : Question) (rest : List Question) (i : Nat)
    (answers : Int → Option (List JsStr)) (cc : Nat) (wq : List WrongQuestion)
    (h : (gradeQuestion q (answers i)).verdict = none) :
    submitLoop (q :: rest) i answers cc wq =
      ⟨(gradeQuestion q (answers i)).question :: rest,
        setKey answers i (gradeQuestion q (answers i)).stored, none⟩ := by
  simp only [submitLoop, h]

theorem submitLoop_cons_graded (q : Question) (rest : List Question) (i : Nat)
    (answers : Int → Option (List JsStr)) (cc : Nat) (wq : List WrongQuestion) (b : Bool)
    (h : (gradeQuestion q (answers i)).verdict = some b) :
    submitLoop (q :: rest) i answers cc wq =
      ⟨(gradeQuestion q (answers i)).question ::
          (submitLoop rest (i + 1) (setKey answers i (gradeQuestion q (answers i)).stored)
            (if b then cc + 1 else cc)
            (if b then wq else wq ++ [wrongRecord i (gradeQuestion q (answers i))])).questions,
        (submitLoop rest (i + 1) (setKey answers i (gradeQuestion q (answers i)).stored)
            (if b then cc + 1 else cc)
            (if b then wq else wq ++ [wrongRecord i (gradeQuestion q (answers i))])).answers,
        (submitLoop rest (i + 1) (setKey answers i (gradeQuestion q (answers i)).stored)
            (if b then cc + 1 else cc)
            (if b then wq else wq ++ [wrongRecord i (gradeQuestion q (answers i))])).outcome⟩ := by
  cases b <;> simp [submitLoop, h]

theorem submitLoop_answers_below (qs : List Question) (i : Nat)
    (answers : Int → Option (List JsStr)) (cc : Nat) (wq : List WrongQuestion) (k : Int)
    (hk : k < (i : Int)) : (submitLoop qs i answers cc wq).answers k = answers k := by
  induction qs generalizing i answers cc wq with
  | nil => rfl
  | cons q rest ih =>
    have hne : ¬ k = (i : Int) := by omega
    cases hv : (gradeQuestion q (answers i)).verdict with
    | none =>
      rw [submitLoop_cons_throw q rest i answers cc wq hv]
      simp [setKey, hne]
    | some b =>
      rw [submitLoop_cons_graded q rest i answers cc wq b hv]
      simp only
      rw [ih (i + 1) _ _ _ (by push_cast; omega)]
      simp [setKey, hne]

theorem submitLoop_questions_length (qs : List Question) (i : Nat)
    (answers : Int → Option (List JsStr)) (cc : Nat) (wq : List WrongQuestion) :
    (submitLoop qs i answers cc wq).questions.length = qs.length := by
  induction qs generalizing i answers cc wq with
  | nil => rfl
  | cons q rest ih =>
    cases hv : (gradeQuestion q (answers i)).verdict with
    | none => rw [submitLoop_cons_throw q rest i answers cc wq hv]; simp
    | some b =>
      rw [submitLoop_cons_graded q rest i answers cc wq b hv]
      simp [ih]

theorem setKey_same {α : Type} (m : Int → Option α) (k : Int) (v : Option α) (h : m k = v) :
    setKey m k v = m := by
  funext j
  unfold setKey
  split_ifs with hj
  · rw [hj, h]
  · rfl

theorem submitLoop_idem (qs : List Question) (i : Nat) (answers : Int → Option (List JsStr))
    (cc : Nat) (wq : List WrongQuestion) (answers2 : Int → Option (List JsStr))
    (hagree : ∀ k : Int, (i : Int) ≤ k → answers2 k = (submitLoop qs i answers cc wq).answers k) :
    (submitLoop (submitLoop qs i answers cc wq).questions i answers2 cc wq).questions
        = (submitLoop qs i answers cc wq).questions ∧
      (submitLoop (submitLoop qs i answers cc wq).questions i answers2 cc wq).outcome
        = (submitLoop qs i answers cc wq).outcome ∧
      (submitLoop (submitLoop qs i answers cc wq).questions i answers2 cc wq).answers
        = answers2 := by
  induction qs generalizing i answers cc wq answers2 with
  | nil => exact ⟨rfl, rfl, rfl⟩
  | cons q rest ih =>
    cases hv : (gradeQuestion q (answers i)).verdict with
    | none =>
      rw [submitLoop_cons_throw q rest i answers cc wq hv] at hagree ⊢
      have h2 : answers2 i = (gradeQuestion q (answers i)).stored := by
        rw [hagree i (le_refl _)]; simp [setKey]
      simp only
      have hv2 : (gradeQuestion (gradeQuestion q (answers i)).question (answers2 i)).verdict
          = none := by rw [h2, gradeQuestion_idem, hv]
      rw [submitLoop_cons_throw _ rest i answers2 cc wq hv2]
      simp only [h2, gradeQuestion_idem, true_and]
      exact setKey_same _ _ _ h2
    | some b =>
      rw [submitLoop_cons_graded q rest i answers cc wq b hv] at hagree ⊢
      simp only at hagree ⊢
      have h2 : answers2 i = (gradeQuestion q (answers i)).stored := by
        rw [hagree i (le_refl _), submitLoop_answers_below _ _ _ _ _ _ (by push_cast; omega)]
        simp [setKey]
      have hv2 : (gradeQuestion (gradeQuestion q (answers i)).question (answers2 i)).verdict
          = some b := by rw [h2, gradeQuestion_idem, hv]
      rw [submitLoop_cons_graded _ _ i answers2 cc wq b hv2]
      simp only [h2, gradeQuestion_idem]
      rw [setKey_same _ _ _ h2]
      obtain ⟨e1, e2, e3⟩ := ih (i + 1) (setKey answers i (gradeQuestion q (answers i)).stored)
        (if b then cc + 1 else cc)
        (if b then wq else wq ++ [wrongRecord i (gradeQuestion q (answers i))]) answers2
        (fun k hk => hagree k (by push_cast at hk; omega))
      rw [e1, e2, e3]
      exact ⟨rfl, rfl, rfl⟩

theorem NoMissingAnswer.tail {q : Question} {rest : List Question}
    (h : NoMissingAnswer (q :: rest)) : NoMissingAnswer rest :=
  fun x hx => h x (List.mem_cons_of_mem _ hx)

theorem drop_eq_cons {α : Type} {l : List α} {i : Nat} {x : α} {rest : List α}
    (h : x :: rest = l.drop i) : l[i]? = some x ∧ rest = l.drop (i + 1) := by
  have hlt : i < l.length := by
    by_contra hge
    rw [List.drop_eq_nil_of_le (by omega)] at h
    exact List.cons_ne_nil _ _ h
  rw [List.drop_eq_getElem_cons hlt] at h
  injection h with h1 h2
  exact ⟨by rw [List.getElem?_eq_getElem hlt, h1], h2⟩

theorem submitLoop_outcome (all : List Question) (answers0 : Int → Option (List JsStr))
    (qs : List Question) (i : Nat) (answers : Int → Option (List JsStr)) (cc : Nat)
    (wq : List WrongQuestion) (hqs : qs = all.drop i)
    (hagree : ∀ k : Nat, i ≤ k → answers k = answers0 k) (hno : NoMissingAnswer qs) :
    (submitLoop qs i answers cc wq).outcome =
      some (cc + ((List.range' i qs.length).filter (correctAt all answers0)).length,
        wq ++ ((List.range' i qs.length).filter (fun k => !correctAt all answers0 k)).filterMap
          (recordAt all answers0)) := by
  induction qs generalizing i answers cc wq with
  | nil => simp [submitLoop_nil]
  | cons q rest ih =>
    obtain ⟨hget, hrest⟩ := drop_eq_cons hqs
    obtain ⟨b, hv⟩ := gradeQuestion_verdict_isSome q (answers i) (hno q (List.mem_cons_self _ _))
    have hgrade : gradeAt all answers0 i = some (gradeQuestion q (answers i)) := by
      simp [gradeAt, hget, hagree i (le_refl _)]
    have hcorrect : correctAt all answers0 i = b := by
      simp only [correctAt, hgrade, hv]
      cases b <;> rfl
    have hrecord : recordAt all answers0 i = some (wrongRecord i (gradeQuestion q (answers i))) := by
      simp [recordAt, hgrade]
    rw [submitLoop_cons_graded q rest i answers cc wq b hv]
    simp only
    rw [ih (i + 1) _ _ _ hrest
      (fun k hk => by
        have hne : ¬ ((k : Int) = (i : Int)) := by omega
        simp only [setKey, hne, if_false]
        exact hagree k (by omega)) hno.tail]
    simp only [List.length_cons, List.range'_succ, List.filter_cons, hcorrect]
    cases b
    · simp [hrecord]
    · simp [Nat.add_assoc, Nat.add_comm 1]

/-! ## The method `_submitExam` -/

theorem submitExam_of_noMissing (s : State) (hno : NoMissingAnswer s.localQuestions) :
    (_submitExam s).result = some
        { success := true
          score := computeScore
            ((List.range s.localQuestions.length).filter (gradedCorrect s)).length
            s.localQuestions.length
          correct_count := ((List.range s.localQuestions.length).filter (gradedCorrect s)).length
          total_questions := s.localQuestions.length
          wrong_questions :=
            ((List.range s.localQuestions.length).filter (fun k => !gradedCorrect s k)).filterMap
              (recordAt s.localQuestions s.localAnswers) } ∧
      (_submitExam s).error = ErrorMsg.empty ∧ (_submitExam s).step = Step.result := by
  have h := submitLoop_outcome s.localQuestions s.localAnswers s.localQuestions 0 s.localAnswers
    0 [] (by simp) (fun _ _ => rfl) hno
  simp only [Nat.zero_add, List.nil_append, ← List.range_eq_range'] at h
  simp only [_submitExam, h]
  exact ⟨rfl, trivial, trivial⟩

theorem submitExam_idem (s : State) : _submitExam (_submitExam s) = _submitExam s := by
  obtain ⟨e1, e2, e3⟩ := submitLoop_idem s.localQuestions 0 s.localAnswers 0 []
    (submitLoop s.localQuestions 0 s.localAnswers 0 []).answers (fun _ _ => rfl)
  have hlen := submitLoop_questions_length s.localQuestions 0 s.localAnswers 0 []
  cases ho : (submitLoop s.localQuestions 0 s.localAnswers 0 []).outcome with
  | none =>
    have h1 : _submitExam s = { s with
        error := ErrorMsg.submitFailed
        localQuestions := (submitLoop s.localQuestions 0 s.localAnswers 0 []).questions
        localAnswers := (submitLoop s.localQuestions 0 s.localAnswers 0 []).answers } := by
      simp only [_submitExam, ho]
    rw [h1]
    simp only [_submitExam, e1, e2, e3, ho]
  | some p =>
    obtain ⟨cc, wq⟩ := p
    have h1 : _submitExam s = { s with
        error := ErrorMsg.empty
        localQuestions := (submitLoop s.localQuestions 0 s.localAnswers 0 []).questions
        localAnswers := (submitLoop s.localQuestions 0 s.localAnswers 0 []).answers
        result := some
          { success := true
            score := computeScore cc s.localQuestions.length
            correct_count := cc
            total_questions := s.localQuestions.length
            wrong_questions := wq }
        step := Step.result } := by
      simp only [_submitExam, ho]
    rw [h1]
    simp only [_submitExam, e1, e2, e3, ho, hlen]

theorem recordAt_of_lt (qs : List Question) (answers : Int → Option (List JsStr)) (k : Nat)
    (hk : k < qs.length) :
    recordAt qs answers k = some (wrongRecord k (gradeQuestion qs[k] (answers k))) := by
  simp [recordAt, gradeAt, List.getElem?_eq_getElem hk]

theorem map_id_filterMap_recordAt (qs : List Question) (answers : Int → Option (List JsStr))
    (l : List Nat) (hl : ∀ k ∈ l, k < qs.length) :
    (l.filterMap (recordAt qs answers)).map (fun w => w.id) = l.map (fun k => k + 1) := by
  induction l with
  | nil => rfl
  | cons k rest ih =>
    have hk := hl k (List.mem_cons_self _ _)
    rw [List.filterMap_cons, recordAt_of_lt qs answers k hk]
    simp only [List.map_cons, wrongRecord]
    rw [ih (fun j hj => hl j (List.mem_cons_of_mem _ hj))]

theorem length_filterMap_recordAt (qs : List Question) (answers : Int → Option (List JsStr))
    (l : List Nat) (hl : ∀ k ∈ l, k < qs.length) :
    (l.filterMap (recordAt qs answers)).length = l.length := by
  have := congrArg List.length (map_id_filterMap_recordAt qs answers l hl)
  simpa using this

theorem mem_range_of_mem_filter {p : Nat → Bool} {n k : Nat}
    (h : k ∈ (List.range n).filter p) : k < n :=
  List.mem_range.1 (List.mem_filter.1 h).1

/-- C3 (the code departs from it): on a session with one 多选题 question whose
`correct_answer` is `["B","A"]` and whose stored answer is `["C","A"]`,
`_submitExam` leaves the stored answer as `["A","C"]` and the question's
`correct_answer` as `["A","B"]`: both arrays of the session state are
reordered by the call. -/
theorem C3_submitExam_reorders_session_arrays :
    unsortedSession.localAnswers 0 = some [utf16 "C", utf16 "A"] ∧
    (_submitExam unsortedSession).localAnswers 0 = some [utf16 "A", utf16 "C"] ∧
    unsortedSession.localQuestions.map (fun q => q.correct_answer)
      = [some [utf16 "B", utf16 "A"]] ∧
    (_submitExam unsortedSession).localQuestions.map (fun q => q.correct_answer)
      = [some [utf16 "A", utf16 "B"]] := by
  decide

/-- C4: running `_submitExam` twice in succession gives the same `result` as
running it once; and when no graded question lacks its `correct_answer`, both
runs produce a Result, the same one. -/
theorem C4_submitExam_twice_same_result (s : State) :
    (_submitExam (_submitExam s)).result = (_submitExam s).result ∧
    (NoMissingAnswer s.localQuestions →
      ∃ r, (_submitExam s).result = some r ∧ (_submitExam (_submitExam s)).result = some r) := by
  refine ⟨by rw [submitExam_idem], ?_⟩
  intro hno
  refine ⟨_, (submitExam_of_noMissing s hno).1, ?_⟩
  rw [submitExam_idem]
  exact (submitExam_of_noMissing s hno).1

/-- Witness of C4: the session of scenario two. -/
theorem C4_submitExam_twice_same_result_witness :
    NoMissingAnswer scenarioTwo.localQuestions ∧
    ∃ r, (_submitExam scenarioTwo).result = some r ∧
      (_submitExam (_submitExam scenarioTwo)).result = some r :=
  ⟨by decide, (C4_submitExam_twice_same_result scenarioTwo).2 (by decide)⟩

/-- C6: when no graded question lacks its `correct_answer`, `_submitExam`
produces a Result with `total_questions = N`, `correct_count` the number of
indices graded correct, and `wrong_questions` holding one record for each
index `i` not graded correct, with `id = i + 1`, in increasing order of `i`;
so `correct_count + length wrong_questions = N`. -/
theorem C6_result_counts_and_wrong_list (s : State) (hno : NoMissingAnswer s.localQuestions) :
    ∃ r, (_submitExam s).result = some r ∧
      r.total_questions = s.localQuestions.length ∧
      r.correct_count = ((List.range s.localQuestions.length).filter (gradedCorrect s)).length ∧
      r.wrong_questions.map (fun w => w.id)
        = ((List.range s.localQuestions.length).filter (fun i => !gradedCorrect s i)).map
            (fun i => i + 1) ∧
      List.Pairwise (fun a b => a < b) (r.wrong_questions.map (fun w => w.id)) ∧
      r.correct_count + r.wrong_questions.length = s.localQuestions.length := by
  have hids := map_id_filterMap_recordAt s.localQuestions s.localAnswers
    ((List.range s.localQuestions.length).filter (fun i => !gradedCorrect s i))
    (fun k hk => mem_range_of_mem_filter hk)
  refine ⟨_, (submitExam_of_noMissing s hno).1, rfl, rfl, hids, ?_, ?_⟩
  · simp only [hids]
    exact ((List.pairwise_lt_range _).filter _).map _ (fun a b h => Nat.succ_lt_succ h)
  · simp only
    rw [length_filterMap_recordAt _ _ _ (fun k hk => mem_range_of_mem_filter hk)]
    have := List.length_eq_length_filter_add (l := List.range s.localQuestions.length)
      (gradedCorrect s)
    simp only [List.length_range] at this
    exact this.symm

/-- Witness of C6: the session of scenario one, where index 0 is graded
correct and index 1 is not. -/
theorem C6_result_counts_and_wrong_list_witness :
    NoMissingAnswer scenarioOne.localQuestions ∧
    ∃ r, (_submitExam scenarioOne).result = some r ∧ r.total_questions = 2 ∧
      r.correct_count = 1 ∧ r.wrong_questions.map (fun w => w.id) = [2] := by
  refine ⟨by decide, ?_⟩
  obtain ⟨r, hr, h1, h2, h3, _, _⟩ := C6_result_counts_and_wrong_list scenarioOne (by decide)
  refine ⟨r, hr, h1, ?_, ?_⟩
  · rw [h2]; decide
  · rw [h3]; decide

theorem submitExam_counts (s : State) (hno : NoMissingAnswer s.localQuestions) :
    ∃ r, (_submitExam s).result = some r ∧
      r.score = computeScore r.correct_count s.localQuestions.length ∧
      r.correct_count
        = ((List.range s.localQuestions.length).filter (gradedCorrect s)).length ∧
      r.correct_count + r.wrong_questions.length = s.localQuestions.length ∧
      r.total_questions = s.localQuestions.length := by
  refine ⟨_, (submitExam_of_noMissing s hno).1, rfl, rfl, ?_, rfl⟩
  simp only
  rw [length_filterMap_recordAt _ _ _ (fun k hk => mem_range_of_mem_filter hk)]
  have := List.length_eq_length_filter_add (l := List.range s.localQuestions.length)
    (gradedCorrect s)
  simp only [List.length_range] at this
  exact this.symm

/-! ## The score -/

/-! ### Rounding to the nearest double -/

theorem roundTiesToEven_sub_le (x : ℚ) : |(roundTiesToEven x : ℚ) - x| ≤ 1 / 2 := by
  have h1 := Int.floor_le x
  have h2 := Int.lt_floor_add_one x
  rw [abs_le]
  unfold roundTiesToEven
  split_ifs <;> constructor <;> push_cast <;> linarith

theorem roundTiesToEven_eq (x : ℚ) (n : ℤ) (h1 : (n : ℚ) - 1 / 2 < x) (h2 : x < (n : ℚ) + 1 / 2) :
    roundTiesToEven x = n := by
  have h := abs_le.1 (roundTiesToEven_sub_le x)
  have h3 : ((roundTiesToEven x : ℤ) : ℚ) < ((n + 1 : ℤ) : ℚ) := by push_cast; linarith [h.2]
  have h4 : ((n - 1 : ℤ) : ℚ) < ((roundTiesToEven x : ℤ) : ℚ) := by push_cast; linarith [h.1]
  have h5 : roundTiesToEven x < n + 1 := by exact_mod_cast h3
  have h6 : n - 1 < roundTiesToEven x := by exact_mod_cast h4
  omega

theorem roundTiesToEven_intCast (n : ℤ) : roundTiesToEven (n : ℚ) = n :=
  roundTiesToEven_eq _ _ (by linarith) (by linarith)

theorem doubleExponent_eq (x : ℚ) (e : ℤ) (he : -1022 ≤ e) (h1 : (2 : ℚ) ^ e ≤ x)
    (h2 : x < (2 : ℚ) ^ (e + 1)) : doubleExponent x = e := by
  have hpos : (0 : ℚ) < x := lt_of_lt_of_le (zpow_pos (by norm_num) e) h1
  have hl : Int.log 2 x = e := by
    apply le_antisymm
    · have := (Int.lt_zpow_iff_log_lt (b := 2) (by norm_num) (x := e + 1) hpos).1
        (by push_cast; exact h2)
      omega
    · exact (Int.zpow_le_iff_le_log (b := 2) (by norm_num) (x := e) hpos).1
        (by push_cast; exact h1)
  rw [doubleExponent, abs_of_pos hpos, hl]
  exact max_eq_left he

theorem toDouble_eq (x : ℚ) (e n : ℤ) (he : -1022 ≤ e) (h1 : (2 : ℚ) ^ e ≤ x)
    (h2 : x < (2 : ℚ) ^ (e + 1)) (h3 : (n : ℚ) - 1 / 2 < x / 2 ^ (e - 52))
    (h4 : x / 2 ^ (e - 52) < (n : ℚ) + 1 / 2) : toDouble x = (n : ℚ) * 2 ^ (e - 52) := by
  rw [toDouble, doubleExponent_eq x e he h1 h2, roundTiesToEven_eq _ n h3 h4]

theorem toDouble_zero : toDouble 0 = 0 := by
  simp [toDouble, roundTiesToEven]

theorem toDouble_rel_error (x : ℚ) (hx : (2 : ℚ) ^ (-1022 : ℤ) ≤ x) :
    |toDouble x - x| ≤ x / 2 ^ 53 := by
  have hpos : (0 : ℚ) < x := lt_of_lt_of_le (zpow_pos (by norm_num) _) hx
  have hl : (-1022 : ℤ) ≤ Int.log 2 x :=
    (Int.zpow_le_iff_le_log (b := 2) (by norm_num) (x := -1022) hpos).1 (by push_cast; exact hx)
  have hle : (2 : ℚ) ^ (Int.log 2 x) ≤ x := by
    have := Int.zpow_log_le_self (b := 2) (by norm_num) hpos
    push_cast at this
    exact this
  have he : doubleExponent x = Int.log 2 x := by
    rw [doubleExponent, abs_of_pos hpos]
    exact max_eq_left hl
  have hq : (0 : ℚ) < 2 ^ (Int.log 2 x - 52) := zpow_pos (by norm_num) _
  have hr := roundTiesToEven_sub_le (x / 2 ^ (Int.log 2 x - 52))
  have hsplit : (2 : ℚ) ^ (Int.log 2 x) = 2 ^ (Int.log 2 x - 52) * 2 ^ 52 := by
    rw [← zpow_natCast, ← zpow_add₀ (by norm_num)]
    congr 1
    simp
  have key : toDouble x - x
      = ((roundTiesToEven (x / 2 ^ (Int.log 2 x - 52)) : ℚ) - x / 2 ^ (Int.log 2 x - 52))
        * 2 ^ (Int.log 2 x - 52) := by
    rw [toDouble, he]
    field_simp
  rw [key, abs_mul, abs_of_pos hq]
  calc |(roundTiesToEven (x / 2 ^ (Int.log 2 x - 52)) : ℚ) - x / 2 ^ (Int.log 2 x - 52)|
        * 2 ^ (Int.log 2 x - 52)
      ≤ 1 / 2 * 2 ^ (Int.log 2 x - 52) := mul_le_mul_of_nonneg_right hr hq.le
    _ = 2 ^ (Int.log 2 x) / 2 ^ 53 := by rw [hsplit]; ring
    _ ≤ x / 2 ^ 53 := div_le_div_of_nonneg_right hle (by positivity)

/-! ### The score at given counts -/

theorem computeScore_zero (c : Nat) : computeScore c 0 = 0 := by
  simp [computeScore]

theorem computeScore_zero_left (n : Nat) : computeScore 0 n = 0 := by
  unfold computeScore
  split_ifs
  · have h : mathRound 0 = 0 := by
      rw [mathRound, Int.floor_eq_iff]; norm_num
    simp [toDouble_zero, h]
  · rfl

theorem computeScore_zero_two : computeScore 0 2 = 0 := computeScore_zero_left 2

theorem toDouble_hundred : toDouble 100 = 100 := by
  rw [toDouble_eq 100 6 7036874417766400 (by norm_num) (by norm_num) (by norm_num)
    (by norm_num) (by norm_num)]
  norm_num

theorem computeScore_one_two : computeScore 1 2 = 50 := by
  have h1 : toDouble (((1 : Nat) : ℚ) / ((2 : Nat) : ℚ)) = 1 / 2 := by
    rw [toDouble_eq _ (-1) 4503599627370496 (by norm_num) (by norm_num) (by norm_num)
      (by norm_num) (by norm_num)]
    norm_num
  have h2 : toDouble ((1 : ℚ) / 2 * 100) = 50 := by
    rw [toDouble_eq _ 5 7036874417766400 (by norm_num) (by norm_num) (by norm_num)
      (by norm_num) (by norm_num)]
    norm_num
  have h3 : toDouble ((50 : ℚ) * 10) = 500 := by
    rw [toDouble_eq _ 8 8796093022208000 (by norm_num) (by norm_num) (by norm_num)
      (by norm_num) (by norm_num)]
    norm_num
  have h4 : mathRound 500 = 500 := by
    rw [mathRound, Int.floor_eq_iff]; norm_num
  have h5 : toDouble (((500 : ℤ) : ℚ) / 10) = 50 := by
    rw [toDouble_eq _ 5 7036874417766400 (by norm_num) (by norm_num) (by norm_num)
      (by norm_num) (by norm_num)]
    norm_num
  rw [computeScore, if_pos (by decide), h1, h2, h3, h4, h5]

theorem computeScore_twentythree_eighty :
    computeScore 23 80 = 8078331831595827 / 281474976710656 := by
  have h1 : toDouble (((23 : Nat) : ℚ) / ((80 : Nat) : ℚ))
      = 2589569785738035 / 9007199254740992 := by
    rw [toDouble_eq _ (-2) 5179139571476070 (by norm_num) (by norm_num) (by norm_num)
      (by norm_num) (by norm_num)]
    norm_num
  have h2 : toDouble ((2589569785738035 : ℚ) / 9007199254740992 * 100)
      = 8092405580431359 / 281474976710656 := by
    rw [toDouble_eq _ 4 8092405580431359 (by norm_num) (by norm_num) (by norm_num)
      (by norm_num) (by norm_num)]
    norm_num
  have h3 : toDouble ((8092405580431359 : ℚ) / 281474976710656 * 10)
      = 5057753487769599 / 17592186044416 := by
    rw [toDouble_eq _ 8 5057753487769599 (by norm_num) (by norm_num) (by norm_num)
      (by norm_num) (by norm_num)]
    norm_num
  have h4 : mathRound ((5057753487769599 : ℚ) / 17592186044416) = 287 := by
    rw [mathRound, Int.floor_eq_iff]; norm_num
  have h5 : toDouble (((287 : ℤ) : ℚ) / 10) = 8078331831595827 / 281474976710656 := by
    rw [toDouble_eq _ 4 8078331831595827 (by norm_num) (by norm_num) (by norm_num)
      (by norm_num) (by norm_num)]
    norm_num
  rw [computeScore, if_pos (by decide), h1, h2, h3, h4, h5]

/-! ### The score and the exact quotient -/

theorem scaled_ratio_close (c n : Nat) (hc1 : 1 ≤ c) (hc : c ≤ n) (hn : n < 2 ^ 32) :
    |toDouble (toDouble (toDouble ((c : ℚ) / (n : ℚ)) * 100) * 10) - 1000 * (c : ℚ) / (n : ℚ)|
      ≤ 3011 / 2 ^ 53 := by
  have hnpos : (0 : ℚ) < (n : ℚ) := by exact_mod_cast (show 0 < n by omega)
  have hcq : (1 : ℚ) ≤ (c : ℚ) := by exact_mod_cast hc1
  have hcn : (c : ℚ) ≤ (n : ℚ) := by exact_mod_cast hc
  have hnq : (n : ℚ) < 2 ^ 32 := by exact_mod_cast hn
  have hx1 : (c : ℚ) / (n : ℚ) ≤ 1 := (div_le_one hnpos).2 hcn
  have hx0 : (1 : ℚ) / 2 ^ 32 ≤ (c : ℚ) / (n : ℚ) := by
    rw [div_le_div_iff₀ (by norm_num) hnpos]
    nlinarith
  have hsmall : (2 : ℚ) ^ (-1022 : ℤ) ≤ 1 / 2 ^ 34 := by
    rw [show (1 : ℚ) / 2 ^ 34 = 2 ^ (-34 : ℤ) by norm_num]
    exact zpow_le_zpow_right₀ (by norm_num) (by norm_num)
  have e1 := abs_le.1 (toDouble_rel_error ((c : ℚ) / (n : ℚ)) (by linarith))
  have e2 := abs_le.1 (toDouble_rel_error (toDouble ((c : ℚ) / (n : ℚ)) * 100)
    (by norm_num at e1 hx0 hsmall ⊢; linarith))
  have e3 := abs_le.1 (toDouble_rel_error
    (toDouble (toDouble ((c : ℚ) / (n : ℚ)) * 100) * 10)
    (by norm_num at e1 e2 hx0 hsmall ⊢; linarith))
  rw [abs_le, mul_div_assoc]
  norm_num at e1 e2 e3 hx0 ⊢
  constructor <;> linarith

theorem mathRound_zero : mathRound 0 = 0 := by
  rw [mathRound, Int.floor_eq_iff]; norm_num

theorem mathRound_scaled_ratio (c n : Nat) (hn0 : 0 < n) (hc : c ≤ n) (hn : n < 2 ^ 32) :
    mathRound (toDouble (toDouble (toDouble ((c : ℚ) / (n : ℚ)) * 100) * 10))
        = ⌊1000 * (c : ℚ) / (n : ℚ) + 1 / 2⌋ ∨
    (2000 * (c : ℤ) + (n : ℤ) = 2 * (n : ℤ) * ⌊1000 * (c : ℚ) / (n : ℚ) + 1 / 2⌋ ∧
      mathRound (toDouble (toDouble (toDouble ((c : ℚ) / (n : ℚ)) * 100) * 10))
        = ⌊1000 * (c : ℚ) / (n : ℚ) + 1 / 2⌋ - 1) := by
  rcases Nat.eq_zero_or_pos c with h0 | hpos
  · left
    subst h0
    simp only [Nat.cast_zero, zero_div, toDouble_zero, zero_mul, mul_zero, mathRound_zero]
    rw [eq_comm, Int.floor_eq_iff]
    norm_num
  have hnpos : (0 : ℚ) < (n : ℚ) := by exact_mod_cast hn0
  have hnq : (n : ℚ) < 2 ^ 32 := by exact_mod_cast hn
  have hclose := abs_le.1 (scaled_ratio_close c n hpos hc hn)
  generalize toDouble (toDouble (toDouble ((c : ℚ) / (n : ℚ)) * 100) * 10) = y at hclose ⊢
  have hK1 := Int.floor_le (1000 * (c : ℚ) / (n : ℚ) + 1 / 2)
  have hK2 := Int.lt_floor_add_one (1000 * (c : ℚ) / (n : ℚ) + 1 / 2)
  generalize ⌊1000 * (c : ℚ) / (n : ℚ) + 1 / 2⌋ = K at hK1 hK2 ⊢
  have hq : 1000 * (c : ℚ) / (n : ℚ) + 1 / 2 = (2000 * (c : ℚ) + (n : ℚ)) / (2 * (n : ℚ)) := by
    field_simp
    ring
  have h2n : (0 : ℚ) < 2 * (n : ℚ) := by linarith
  rw [hq] at hK1 hK2
  rw [le_div_iff₀ h2n] at hK1
  rw [div_lt_iff₀ h2n] at hK2
  have hI1 : (K : ℤ) * (2 * (n : ℤ)) ≤ 2000 * (c : ℤ) + (n : ℤ) := by exact_mod_cast hK1
  have hI2 : 2000 * (c : ℤ) + (n : ℤ) < (K + 1) * (2 * (n : ℤ)) := by exact_mod_cast hK2
  have hinv : (1 : ℚ) / 2 ^ 33 < 1 / (2 * (n : ℚ)) :=
    one_div_lt_one_div_of_lt h2n (by linarith)
  have hsum : 1000 * (c : ℚ) / (n : ℚ) = (2000 * (c : ℚ) + (n : ℚ)) / (2 * (n : ℚ)) - 1 / 2 := by
    rw [← hq]; ring
  by_cases htie : 2000 * (c : ℤ) + (n : ℤ) = 2 * (n : ℤ) * K
  · have hval : (2000 * (c : ℚ) + (n : ℚ)) / (2 * (n : ℚ)) = (K : ℚ) := by
      rw [div_eq_iff h2n.ne']
      have : ((2000 * (c : ℤ) + (n : ℤ) : ℤ) : ℚ) = ((2 * (n : ℤ) * K : ℤ) : ℚ) := by rw [htie]
      push_cast at this
      linarith
    rw [hsum, hval] at hclose
    by_cases hy : (K : ℚ) ≤ y + 1 / 2
    · left
      rw [mathRound, Int.floor_eq_iff]
      norm_num at hclose ⊢
      constructor <;> linarith
    · right
      refine ⟨htie, ?_⟩
      rw [mathRound, Int.floor_eq_iff]
      push_cast
      norm_num at hclose ⊢
      constructor <;> linarith
  · left
    have hI3 : (K : ℤ) * (2 * (n : ℤ)) + 1 ≤ 2000 * (c : ℤ) + (n : ℤ) := by
      have : (K : ℤ) * (2 * (n : ℤ)) ≠ 2000 * (c : ℤ) + (n : ℤ) := fun h => htie (by rw [← h]; ring)
      omega
    have hI4 : 2000 * (c : ℤ) + (n : ℤ) + 1 ≤ (K + 1) * (2 * (n : ℤ)) := by omega
    have hQ3 : (K : ℚ) * (2 * (n : ℚ)) + 1 ≤ 2000 * (c : ℚ) + (n : ℚ) := by exact_mod_cast hI3
    have hQ4 : 2000 * (c : ℚ) + (n : ℚ) + 1 ≤ ((K : ℚ) + 1) * (2 * (n : ℚ)) := by
      exact_mod_cast hI4
    have hlo : (K : ℚ) + 1 / (2 * (n : ℚ)) ≤ (2000 * (c : ℚ) + (n : ℚ)) / (2 * (n : ℚ)) := by
      rw [le_div_iff₀ h2n, add_mul, one_div, inv_mul_cancel₀ h2n.ne']
      exact hQ3
    have hhi : (2000 * (c : ℚ) + (n : ℚ)) / (2 * (n : ℚ)) ≤ (K : ℚ) + 1 - 1 / (2 * (n : ℚ)) := by
      rw [div_le_iff₀ h2n, sub_mul, one_div, inv_mul_cancel₀ h2n.ne']
      linarith
    rw [hsum] at hclose
    rw [mathRound, Int.floor_eq_iff]
    generalize 1 / (2 * (n : ℚ)) = w at hlo hhi hinv
    generalize (2000 * (c : ℚ) + (n : ℚ)) / (2 * (n : ℚ)) = t at hlo hhi hclose
    norm_num at hclose hinv ⊢
    constructor <;> linarith

theorem computeScore_pos (c n : Nat) (hn : 0 < n) :
    computeScore c n = toDouble ((mathRound (toDouble (toDouble
      (toDouble ((c : ℚ) / (n : ℚ)) * 100) * 10)) : ℚ) / 10) := by
  rw [computeScore, if_pos hn]

theorem computeScore_cases (c n : Nat) (hn0 : 0 < n) (hc : c ≤ n) (hn : n < 2 ^ 32) :
    computeScore c n = toDouble ((⌊1000 * (c : ℚ) / (n : ℚ) + 1 / 2⌋ : ℚ) / 10) ∨
    (2000 * (c : ℤ) + (n : ℤ) = 2 * (n : ℤ) * ⌊1000 * (c : ℚ) / (n : ℚ) + 1 / 2⌋ ∧
      computeScore c n = toDouble (((⌊1000 * (c : ℚ) / (n : ℚ) + 1 / 2⌋ - 1 : ℤ) : ℚ) / 10)) := by
  rw [computeScore_pos c n hn0]
  rcases mathRound_scaled_ratio c n hn0 hc hn with h | ⟨h1, h2⟩
  · left; rw [h]
  · right; exact ⟨h1, by rw [h2]⟩

theorem toDouble_tenth_lt (k : ℤ) (h0 : 0 ≤ k) (h : k ≤ 999) : toDouble ((k : ℚ) / 10) < 100 := by
  rcases eq_or_lt_of_le h0 with hz | hpos
  · rw [← hz]
    simp [toDouble_zero]
  · have h1 : (1 : ℚ) ≤ (k : ℚ) := by exact_mod_cast (show (1 : ℤ) ≤ k by omega)
    have h2 : (k : ℚ) ≤ 999 := by exact_mod_cast h
    have hsmall : (2 : ℚ) ^ (-1022 : ℤ) ≤ 1 / 2 ^ 4 := by
      rw [show (1 : ℚ) / 2 ^ 4 = 2 ^ (-4 : ℤ) by norm_num]
      exact zpow_le_zpow_right₀ (by norm_num) (by norm_num)
    have e := abs_le.1 (toDouble_rel_error ((k : ℚ) / 10) (by norm_num at hsmall ⊢; linarith))
    norm_num at e
    linarith

theorem submitExam_scenarioOne : (_submitExam scenarioOne).result = some
    { success := true, score := computeScore 1 2, correct_count := 1, total_questions := 2,
      wrong_questions := [
        { id := 2, type := fillBlank, content := utf16 "Q1", options := [],
          user_answer := [utf16 "paris ", utf16 "France"],
          correct_answer := some [utf16 "Paris", utf16 "France"], analysis := [] }] } := by
  rfl

theorem submitExam_scenarioTwo : (_submitExam scenarioTwo).result = some
    { success := true, score := computeScore 0 2, correct_count := 0, total_questions := 2,
      wrong_questions := [
        { id := 1, type := singleChoice, content := utf16 "Q0", options := [utf16 "A", utf16 "B"],
          user_answer := [utf16 "A"],
          correct_answer := some [utf16 "B"], analysis := [] },
        { id := 2, type := fillBlank, content := utf16 "Q1", options := [],
          user_answer := [],
          correct_answer := some [utf16 "Paris", utf16 "France"], analysis := [] }] } := by
  rfl

/-- C5 (as amended): in the session of scenario one (Q0 单选题 with correct
answer `["B"]` answered `["B"]`, Q1 填空题 with correct answer
`["Paris","France"]` answered `["paris ","France"]`) `_submitExam` returns
`correct_count = 1`, `score = 50` and one wrong record, for Q1 (`id = 2`), with
the stored answer: the comparison trims but keeps the case of letters. -/
theorem C5_scenario_one_result :
    ∃ r, (_submitExam scenarioOne).result = some r ∧ r.correct_count = 1 ∧ r.score = 50 ∧
      r.total_questions = 2 ∧
      r.wrong_questions = [
        { id := 2, type := fillBlank, content := utf16 "Q1", options := [],
          user_answer := [utf16 "paris ", utf16 "France"],
          correct_answer := some [utf16 "Paris", utf16 "France"], analysis := [] }] :=
  ⟨_, submitExam_scenarioOne, rfl, computeScore_one_two, rfl, rfl⟩

/-- C5 as stated fails: in the session of scenario one `_submitExam` does not
return `correct_count = 2`, `score = 100` and an empty `wrong_questions`. -/
theorem C5_scenario_one_counterexample :
    ¬ ∃ r, (_submitExam scenarioOne).result = some r ∧ r.correct_count = 2 ∧ r.score = 100 ∧
      r.wrong_questions = [] := by
  rintro ⟨r, hr, hc, _, _⟩
  rw [submitExam_scenarioOne] at hr
  injection hr with hr
  rw [← hr] at hc
  exact absurd hc (by decide)

/-- C7 (the code departs from it): on a session with one 多选题 question whose
stored answer is `["C","A"]`, graded not correct, the wrong-question record
carries `user_answer = ["A","C"]`, the stored elements in sorted order, not
in the order they were stored. -/
theorem C7_wrong_record_has_sorted_answer :
    unsortedSession.localAnswers 0 = some [utf16 "C", utf16 "A"] ∧
    gradedCorrect unsortedSession 0 = false ∧
    (_submitExam unsortedSession).result.map
        (fun r => r.wrong_questions.map (fun w => (w.id, w.user_answer)))
      = some [(1, [utf16 "A", utf16 "C"])] := by
  decide

theorem tieSession_noMissing : NoMissingAnswer tieSession.localQuestions := by
  intro q hq _
  have : q = sampleQuestion singleChoice [utf16 "A"] := List.eq_of_mem_replicate hq
  rw [this]
  rfl

theorem tieSession_length : tieSession.localQuestions.length = 80 :=
  List.length_replicate _ _

theorem tieSession_gradedCorrect (i : Nat) (hi : i < 80) :
    gradedCorrect tieSession i = decide (i < 23) := by
  have hq : tieSession.localQuestions[i]? = some (sampleQuestion singleChoice [utf16 "A"]) := by
    show (List.replicate 80 (sampleQuestion singleChoice [utf16 "A"]))[i]? = _
    rw [List.getElem?_replicate]
    simp [hi]
  have hg : gradedCorrect tieSession i
      = ((gradeQuestion (sampleQuestion singleChoice [utf16 "A"])
          (tieSession.localAnswers (i : Int))).verdict == some true) := by
    simp only [gradedCorrect, correctAt, gradeAt, hq, Option.map_some']
  rw [hg]
  by_cases h : i < 23
  · have hlt : (i : Int) < 23 := by omega
    have ha : tieSession.localAnswers (i : Int) = some [utf16 "A"] := by
      show (if (i : Int) < 23 then some [utf16 "A"] else some [utf16 "B"]) = _
      rw [if_pos hlt]
    have hv : (gradeQuestion (sampleQuestion singleChoice [utf16 "A"])
        (some [utf16 "A"])).verdict = some true := by decide
    rw [ha, hv]
    simp [h]
  · have hge : ¬ ((i : Int) < 23) := by omega
    have ha : tieSession.localAnswers (i : Int) = some [utf16 "B"] := by
      show (if (i : Int) < 23 then some [utf16 "A"] else some [utf16 "B"]) = _
      rw [if_neg hge]
    have hv : (gradeQuestion (sampleQuestion singleChoice [utf16 "A"])
        (some [utf16 "B"])).verdict = some false := by decide
    rw [ha, hv]
    simp [h]

theorem tieSession_correct_count :
    ((List.range 80).filter (gradedCorrect tieSession)).length = 23 := by
  have hfilter : (List.range 80).filter (gradedCorrect tieSession)
      = (List.range 80).filter (fun i => decide (i < 23)) := by
    apply List.filter_congr
    intro i hi
    exact tieSession_gradedCorrect i (List.mem_range.1 hi)
  rw [hfilter]
  decide

/-- C8 (as amended): when no graded question lacks its `correct_answer` and
there are `N` questions, `0 < N < 2^32`, `_submitExam` produces a Result whose
`correct_count` is the number of indices graded correct and whose score is the
double nearest to `K / 10`, where `K = floor(1000 * correct_count / N + 1/2)`;
only when `1000 * correct_count / N` lies exactly halfway between two integers
(`2000 * correct_count + N = 2 * N * K`) the score may instead be the double
nearest to `(K - 1) / 10`.  With no questions `_submitExam` does not fail and
returns score 0, `correct_count` 0 and no wrong question. -/
theorem C8_score_is_rounded_percentage (s : State) :
    (NoMissingAnswer s.localQuestions → 0 < s.localQuestions.length →
        s.localQuestions.length < 2 ^ 32 →
      ∃ r, (_submitExam s).result = some r ∧
        r.correct_count = ((List.range s.localQuestions.length).filter (gradedCorrect s)).length ∧
        (r.score = toDouble ((⌊1000 * (r.correct_count : ℚ) / (s.localQuestions.length : ℚ) + 1 / 2⌋ : ℚ) / 10) ∨
          (2000 * (r.correct_count : ℤ) + (s.localQuestions.length : ℤ)
              = 2 * (s.localQuestions.length : ℤ) * ⌊1000 * (r.correct_count : ℚ) / (s.localQuestions.length : ℚ) + 1 / 2⌋ ∧
            r.score = toDouble (((⌊1000 * (r.correct_count : ℚ) / (s.localQuestions.length : ℚ) + 1 / 2⌋ - 1 : ℤ) : ℚ) / 10)))) ∧
    (s.localQuestions.length = 0 →
      (_submitExam s).error = ErrorMsg.empty ∧
      ∃ r, (_submitExam s).result = some r ∧ r.score = 0 ∧ r.correct_count = 0 ∧
        r.wrong_questions = []) := by
  constructor
  · intro hno hpos hlt
    refine ⟨_, (submitExam_of_noMissing s hno).1, rfl, ?_⟩
    have hle : ((List.range s.localQuestions.length).filter (gradedCorrect s)).length
        ≤ s.localQuestions.length := by
      have := List.length_filter_le (gradedCorrect s) (List.range s.localQuestions.length)
      rwa [List.length_range] at this
    exact computeScore_cases _ _ hpos hle hlt
  · intro h0
    have hnil : s.localQuestions = [] := List.length_eq_zero.1 h0
    have hno : NoMissingAnswer s.localQuestions := by
      rw [hnil]; intro q hq; simp at hq
    obtain ⟨hr, he, _⟩ := submitExam_of_noMissing s hno
    refine ⟨he, _, hr, ?_, ?_, ?_⟩
    · simp only [h0]; exact computeScore_zero _
    · simp [h0]
    · simp [h0]

/-- Witness of C8: scenario one has two questions and one correct answer, so
the score is the double nearest to `floor(1000 * 1 / 2 + 1/2) / 10`, that is 50;
the empty session scores 0. -/
theorem C8_score_is_rounded_percentage_witness :
    (∃ r, (_submitExam scenarioOne).result = some r ∧ r.correct_count = 1 ∧ r.score = 50) ∧
    (∃ r, (_submitExam (sampleSession [] [])).result = some r ∧ r.score = 0 ∧
      r.correct_count = 0 ∧ r.wrong_questions = []) := by
  constructor
  · obtain ⟨r, hr, hc, hs⟩ :=
      (C8_score_is_rounded_percentage scenarioOne).1 (by decide) (by decide) (by decide)
    have hc1 : r.correct_count = 1 := by rw [hc]; decide
    have hK : ⌊1000 * (r.correct_count : ℚ) / (scenarioOne.localQuestions.length : ℚ) + 1 / 2⌋
        = 500 := by
      rw [hc1, show scenarioOne.localQuestions.length = 2 from rfl, Int.floor_eq_iff]
      norm_num
    rw [hK, hc1, show scenarioOne.localQuestions.length = 2 from rfl] at hs
    have h50 : toDouble (((500 : ℤ) : ℚ) / 10) = 50 := by
      rw [toDouble_eq _ 5 7036874417766400 (by norm_num) (by norm_num) (by norm_num)
        (by norm_num) (by norm_num)]
      norm_num
    rcases hs with hs | ⟨ht, _⟩
    · exact ⟨r, hr, hc1, by rw [hs, h50]⟩
    · norm_num at ht
  · exact ((C8_score_is_rounded_percentage (sampleSession [] [])).2 rfl).2

/-- C8 as stated fails: in a session of 80 questions with 23 correct answers
the exact quotient `1000 * 23 / 80 = 287.5` rounds up to 288, so the claim
gives 28.8; in doubles `(23 / 80) * 100 * 10` is `287.49999999999994`, which
`Math.round` takes to 287, and the score is the double 28.7. -/
theorem C8_score_counterexample :
    NoMissingAnswer tieSession.localQuestions ∧ 0 < tieSession.localQuestions.length ∧
    ∃ r, (_submitExam tieSession).result = some r ∧ r.total_questions = 80 ∧
      r.correct_count = 23 ∧
      ⌊1000 * (r.correct_count : ℚ) / (tieSession.localQuestions.length : ℚ) + 1 / 2⌋ = 288 ∧
      r.score = toDouble (287 / 10) ∧
      r.score ≠ toDouble (288 / 10) ∧
      r.score ≠ ((⌊1000 * (r.correct_count : ℚ) / (tieSession.localQuestions.length : ℚ)
        + 1 / 2⌋ : ℤ) : ℚ) / 10 := by
  refine ⟨tieSession_noMissing, by rw [tieSession_length]; decide, ?_⟩
  obtain ⟨r, hr, hscore, hcount, _, htotal⟩ := submitExam_counts tieSession tieSession_noMissing
  rw [tieSession_length] at hscore hcount htotal
  rw [tieSession_correct_count] at hcount
  rw [hcount, computeScore_twentythree_eighty] at hscore
  have hK : ⌊1000 * (r.correct_count : ℚ) / (tieSession.localQuestions.length : ℚ) + 1 / 2⌋
      = 288 := by
    rw [hcount, tieSession_length, Int.floor_eq_iff]
    norm_num
  have h287 : toDouble ((287 : ℚ) / 10) = 8078331831595827 / 281474976710656 := by
    rw [toDouble_eq _ 4 8078331831595827 (by norm_num) (by norm_num) (by norm_num)
      (by norm_num) (by norm_num)]
    norm_num
  have h288 : toDouble ((288 : ℚ) / 10) = 8106479329266893 / 281474976710656 := by
    rw [toDouble_eq _ 4 8106479329266893 (by norm_num) (by norm_num) (by norm_num)
      (by norm_num) (by norm_num)]
    norm_num
  refine ⟨r, hr, htotal, hcount, hK, ?_, ?_, ?_⟩
  · rw [hscore, h287]
  · rw [hscore, h288]
    norm_num
  · rw [hK, hscore]
    norm_num

/-! ## Questions without a stored answer -/

theorem gradeQuestion_unanswered (q : Question) (ca : List JsStr)
    (hc : q.correct_answer = some ca) (hne : ca ≠ []) :
    (gradeQuestion q none).verdict = some false ∧ (gradeQuestion q none).user_answer = [] := by
  by_cases hsel : q.type ∈ selectionTypes
  · rw [gradeQuestion_selection q none ca hsel hc]
    refine ⟨?_, rfl⟩
    have hf : sameJson (jsSort ((none : Option (List JsStr)).getD [])) (jsSort ca) = false := by
      rw [Bool.eq_false_iff]
      intro h
      rw [selection_verdict_iff] at h
      exact hne (List.nil_perm.1 h)
    simp only [hf]
  · by_cases htxt : q.type ∈ textTypes
    · rw [gradeQuestion_text q none ca htxt hc]
      refine ⟨?_, rfl⟩
      have hlen : ¬ (0 = ca.length) := fun h => hne (List.length_eq_zero.1 h.symm)
      simp [textCorrect, hlen]
    · rw [gradeQuestion_other q none hsel htxt]
      exact ⟨rfl, rfl⟩

/-- C9: when no graded question lacks its `correct_answer`, every index `i`
that has no stored answer and whose question has a non-empty `correct_answer`
is graded not correct, and the Result lists a record with `id = i + 1` and
`user_answer = []`.  In scenario two (Q0 单选题 with correct answer `["B"]`
answered `["A"]`, Q1 填空题 with correct answer `["Paris","France"]` not
answered) the Result has `correct_count = 0`, `score = 0` and two wrong
records with ids 1 and 2, the second with `user_answer = []`. -/
theorem C9_unanswered_question_is_wrong :
    (∀ (s : State) (i : Nat) (q : Question) (ca : List JsStr),
      NoMissingAnswer s.localQuestions → s.localQuestions[i]? = some q →
      q.correct_answer = some ca → ca ≠ [] → s.localAnswers i = none →
      gradedCorrect s i = false ∧
      ∃ r, (_submitExam s).result = some r ∧
        ∃ w ∈ r.wrong_questions, w.id = i + 1 ∧ w.user_answer = []) ∧
    (∃ r, (_submitExam scenarioTwo).result = some r ∧ r.correct_count = 0 ∧ r.score = 0 ∧
      r.wrong_questions.map (fun w => (w.id, w.user_answer))
        = [(1, [utf16 "A"]), (2, [])]) := by
  constructor
  · intro s i q ca hno hq hc hne hnone
    obtain ⟨hv, hu⟩ := gradeQuestion_unanswered q ca hc hne
    have hlt : i < s.localQuestions.length := by
      by_contra hge
      rw [List.getElem?_eq_none (by omega)] at hq
      exact Option.noConfusion hq
    have hgrade : gradeAt s.localQuestions s.localAnswers i = some (gradeQuestion q none) := by
      simp [gradeAt, hq, hnone]
    have hwrong : gradedCorrect s i = false := by
      simp [gradedCorrect, correctAt, hgrade, hv]
    refine ⟨hwrong, _, (submitExam_of_noMissing s hno).1, wrongRecord i (gradeQuestion q none), ?_,
      rfl, hu⟩
    simp only [List.mem_filterMap, List.mem_filter, List.mem_range]
    exact ⟨i, ⟨hlt, by simp [hwrong]⟩, by simp [recordAt, hgrade]⟩
  · exact ⟨_, submitExam_scenarioTwo, rfl, computeScore_zero_two, rfl⟩

/-- Witness of C9: index 1 of scenario two. -/
theorem C9_unanswered_question_is_wrong_witness :
    NoMissingAnswer scenarioTwo.localQuestions ∧ scenarioTwo.localAnswers 1 = none ∧
    gradedCorrect scenarioTwo 1 = false ∧
    ∃ r, (_submitExam scenarioTwo).result = some r ∧
      ∃ w ∈ r.wrong_questions, w.id = 1 + 1 ∧ w.user_answer = [] :=
  ⟨by decide, by decide,
    C9_unanswered_question_is_wrong.1 scenarioTwo 1
      { type := fillBlank, content := utf16 "Q1", options := none,
        correct_answer := some [utf16 "Paris", utf16 "France"], analysis := none }
      [utf16 "Paris", utf16 "France"] (by decide) (by decide) rfl (by decide) (by decide)⟩

/-! ## What `_submitExam` leaves untouched -/

theorem gradeQuestion_stored_isSome (q : Question) (stored : Option (List JsStr)) :
    (gradeQuestion q stored).stored.isSome = stored.isSome := by
  by_cases hsel : q.type ∈ selectionTypes
  · cases hc : q.correct_answer with
    | none => rw [gradeQuestion_selection_missing q stored hsel hc]; cases stored <;> rfl
    | some ca => rw [gradeQuestion_selection q stored ca hsel hc]; cases stored <;> rfl
  · by_cases htxt : q.type ∈ textTypes
    · cases hc : q.correct_answer with
      | none => rw [gradeQuestion_text_missing q stored htxt hc]
      | some ca => rw [gradeQuestion_text q stored ca htxt hc]
    · rw [gradeQuestion_other q stored hsel htxt]

theorem submitLoop_answers_isSome (qs : List Question) (i : Nat)
    (answers : Int → Option (List JsStr)) (cc : Nat) (wq : List WrongQuestion) (k : Int) :
    ((submitLoop qs i answers cc wq).answers k).isSome = (answers k).isSome := by
  induction qs generalizing i answers cc wq with
  | nil => rfl
  | cons q rest ih =>
    have hset : (setKey answers i (gradeQuestion q (answers i)).stored k).isSome
        = (answers k).isSome := by
      unfold setKey
      split_ifs with hk
      · rw [hk, gradeQuestion_stored_isSome]
      · rfl
    cases hv : (gradeQuestion q (answers i)).verdict with
    | none => rw [submitLoop_cons_throw q rest i answers cc wq hv]; exact hset
    | some b =>
      rw [submitLoop_cons_graded q rest i answers cc wq b hv]
      simp only
      rw [ih, hset]

theorem submitExam_localViewedAnswers (s : State) :
    (_submitExam s).localViewedAnswers = s.localViewedAnswers := by
  unfold _submitExam
  simp only
  split <;> rfl

theorem submitExam_currentIndex (s : State) : (_submitExam s).currentIndex = s.currentIndex := by
  unfold _submitExam
  simp only
  split <;> rfl

theorem submitExam_localQuestions_length (s : State) :
    (_submitExam s).localQuestions.length = s.localQuestions.length := by
  unfold _submitExam
  simp only
  split <;> exact submitLoop_questions_length _ _ _ _ _

theorem submitExam_localAnswers_isSome (s : State) (k : Int) :
    ((_submitExam s).localAnswers k).isSome = (s.localAnswers k).isSome := by
  unfold _submitExam
  simp only
  split <;> exact submitLoop_answers_isSome _ _ _ _ _ _

/-! ## Loading a question -/

theorem exists_question_of_indexValid (s : State) (h : indexValid s) :
    ∃ q, s.localQuestions[s.currentIndex.toNat]? = some q := by
  obtain ⟨h0, h1⟩ := h
  have hlt : s.currentIndex.toNat < s.localQuestions.length := by omega
  exact ⟨_, List.getElem?_eq_getElem hlt⟩

theorem loadCurrentQuestion_invalid (s : State) (h : ¬ indexValid s) :
    loadCurrentQuestion s = { s with error := ErrorMsg.invalidIndex } := by
  simp only [loadCurrentQuestion, h, if_false]

theorem loadCurrentQuestion_eq (s : State) (h : indexValid s) (q : Question)
    (hq : s.localQuestions[s.currentIndex.toNat]? = some q) :
    loadCurrentQuestion s =
      if s.studyMode = true ∧ ¬ (s.localViewedAnswers s.currentIndex).getD false = true then
        { s with
          error := ErrorMsg.empty
          currentQuestion := some s.currentIndex.toNat
          userAnswer := loadedUserAnswer s.localAnswers s.currentIndex q.type
          isAnswerViewed := true
          localViewedAnswers := setKey s.localViewedAnswers s.currentIndex (some true)
          correctAnswer := CorrectRef.ofQuestion s.currentIndex.toNat
          notification := some (utf16 "答案已显示", utf16 "info") }
      else
        { s with
          error := ErrorMsg.empty
          currentQuestion := some s.currentIndex.toNat
          userAnswer := loadedUserAnswer s.localAnswers s.currentIndex q.type
          isAnswerViewed := (s.localViewedAnswers s.currentIndex).getD false
          correctAnswer :=
            if (s.localViewedAnswers s.currentIndex).getD false = true then
              CorrectRef.ofQuestion s.currentIndex.toNat
            else CorrectRef.own [] } := by
  have h2 : indexValid s := h
  unfold indexValid at h2
  by_cases hc : s.studyMode = true ∧ ¬ (s.localViewedAnswers s.currentIndex).getD false = true
  · have hv : (s.localViewedAnswers s.currentIndex).getD false = false := by simpa using hc.2
    simp only [loadCurrentQuestion, h, if_true, hq, hc, hv, not_false_eq_true, and_self,
      Bool.false_eq_true, if_false]
    simp only [viewAnswer, indexValid, h2, and_self, if_true]
  · simp only [loadCurrentQuestion, h, if_true, hq, hc, if_false]

theorem loadCurrentQuestion_currentIndex (s : State) :
    (loadCurrentQuestion s).currentIndex = s.currentIndex := by
  by_cases h : indexValid s
  · obtain ⟨q, hq⟩ := exists_question_of_indexValid s h
    rw [loadCurrentQuestion_eq s h q hq]
    split_ifs <;> rfl
  · rw [loadCurrentQuestion_invalid s h]

theorem loadCurrentQuestion_localQuestions (s : State) :
    (loadCurrentQuestion s).localQuestions = s.localQuestions := by
  by_cases h : indexValid s
  · obtain ⟨q, hq⟩ := exists_question_of_indexValid s h
    rw [loadCurrentQuestion_eq s h q hq]
    split_ifs <;> rfl
  · rw [loadCurrentQuestion_invalid s h]

theorem loadCurrentQuestion_localAnswers (s : State) :
    (loadCurrentQuestion s).localAnswers = s.localAnswers := by
  by_cases h : indexValid s
  · obtain ⟨q, hq⟩ := exists_question_of_indexValid s h
    rw [loadCurrentQuestion_eq s h q hq]
    split_ifs <;> rfl
  · rw [loadCurrentQuestion_invalid s h]

theorem loadCurrentQuestion_error_of_valid (s : State) (h : indexValid s) :
    (loadCurrentQuestion s).error = ErrorMsg.empty := by
  obtain ⟨q, hq⟩ := exists_question_of_indexValid s h
  rw [loadCurrentQuestion_eq s h q hq]
  split_ifs <;> rfl

theorem loadCurrentQuestion_userAnswerValue (s : State) (h : indexValid s) (q : Question)
    (hq : s.localQuestions[s.currentIndex.toNat]? = some q) :
    userAnswerValue (loadCurrentQuestion s)
      = answerRefValue s.localAnswers (loadedUserAnswer s.localAnswers s.currentIndex q.type) := by
  rw [loadCurrentQuestion_eq s h q hq]
  split_ifs <;> rfl

/-- C15: when `currentIndex` is outside `[0, len(localQuestions))`,
`loadCurrentQuestion` only sets the error to the invalid-index message
(`题目索引无效`): the view (`currentQuestion`, `userAnswer`, `isAnswerViewed`,
`correctAnswer`) and the maps `localAnswers` and `localViewedAnswers` are as
before. -/
theorem C15_loadCurrentQuestion_invalid_index (s : State)
    (h : s.currentIndex < 0 ∨ (s.localQuestions.length : Int) ≤ s.currentIndex) :
    loadCurrentQuestion s = { s with error := ErrorMsg.invalidIndex } ∧
    (loadCurrentQuestion s).error = ErrorMsg.invalidIndex ∧
    (loadCurrentQuestion s).currentQuestion = s.currentQuestion ∧
    userAnswerValue (loadCurrentQuestion s) = userAnswerValue s ∧
    (loadCurrentQuestion s).isAnswerViewed = s.isAnswerViewed ∧
    correctAnswerValue (loadCurrentQuestion s) = correctAnswerValue s ∧
    (loadCurrentQuestion s).localAnswers = s.localAnswers ∧
    (loadCurrentQuestion s).localViewedAnswers = s.localViewedAnswers := by
  have hv : ¬ indexValid s := by
    unfold indexValid
    omega
  rw [loadCurrentQuestion_invalid s hv]
  exact ⟨rfl, rfl, rfl, rfl, rfl, rfl, rfl, rfl⟩

/-- Witness of C15: after a jump to index 5 in a session of three questions
the error is the invalid-index message and the view is the one loaded
before. -/
theorem C15_loadCurrentQuestion_invalid_index_witness :
    (loadCurrentQuestion { freshSession threeQuestions with currentIndex := 5 }).error
      = ErrorMsg.invalidIndex ∧
    userAnswerValue (loadCurrentQuestion { freshSession threeQuestions with currentIndex := 5 })
      = [[]] := by
  obtain ⟨_, h1, _, h2, _⟩ :=
    C15_loadCurrentQuestion_invalid_index { freshSession threeQuestions with currentIndex := 5 }
      (Or.inr (by decide))
  exact ⟨h1, h2.trans (by decide)⟩

/-! ## Moving between questions -/

/-- C14: in a session with `totalQuestions = len(localQuestions)` and
`currentIndex` in `[0, len)`, `prevQuestion` sets `currentIndex` to
`max(currentIndex - 1, 0)` and `nextQuestion` sets it to
`min(currentIndex + 1, len - 1)`; at index 0 `prevQuestion` leaves the whole state
as it is, at index `len - 1` so does `nextQuestion`; a move leaves the error
empty; and `currentIndex` stays in `[0, len)`. -/
theorem C14_prev_next_clamped (s : State)
    (htotal : s.totalQuestions = (s.localQuestions.length : Int))
    (h0 : 0 ≤ s.currentIndex) (h1 : s.currentIndex < (s.localQuestions.length : Int)) :
    (prevQuestion s).currentIndex = max (s.currentIndex - 1) 0 ∧
    (nextQuestion s).currentIndex = min (s.currentIndex + 1) ((s.localQuestions.length : Int) - 1) ∧
    (s.currentIndex = 0 → prevQuestion s = s) ∧
    (s.currentIndex = (s.localQuestions.length : Int) - 1 → nextQuestion s = s) ∧
    (0 < s.currentIndex → (prevQuestion s).error = ErrorMsg.empty) ∧
    (s.currentIndex < (s.localQuestions.length : Int) - 1 →
      (nextQuestion s).error = ErrorMsg.empty) ∧
    indexValid (prevQuestion s) ∧ indexValid (nextQuestion s) := by
  have hprev : (prevQuestion s).currentIndex = max (s.currentIndex - 1) 0 := by
    unfold prevQuestion
    split_ifs with hc
    · rw [loadCurrentQuestion_currentIndex]
      simp only
      omega
    · omega
  have hnext : (nextQuestion s).currentIndex
      = min (s.currentIndex + 1) ((s.localQuestions.length : Int) - 1) := by
    unfold nextQuestion
    split_ifs with hc
    · rw [loadCurrentQuestion_currentIndex]
      simp only
      omega
    · omega
  have hprevq : (prevQuestion s).localQuestions = s.localQuestions := by
    unfold prevQuestion
    split_ifs
    · rw [loadCurrentQuestion_localQuestions]
    · rfl
  have hnextq : (nextQuestion s).localQuestions = s.localQuestions := by
    unfold nextQuestion
    split_ifs
    · rw [loadCurrentQuestion_localQuestions]
    · rfl
  refine ⟨hprev, hnext, ?_, ?_, ?_, ?_, ?_, ?_⟩
  · intro h
    have : ¬ s.currentIndex > 0 := by omega
    simp only [prevQuestion, this, if_false]
  · intro h
    have : ¬ s.currentIndex < s.totalQuestions - 1 := by omega
    simp only [nextQuestion, this, if_false]
  · intro h
    have hgt : s.currentIndex > 0 := h
    simp only [prevQuestion, hgt, if_true]
    apply loadCurrentQuestion_error_of_valid
    unfold indexValid
    simp only
    omega
  · intro h
    have hlt : s.currentIndex < s.totalQuestions - 1 := by omega
    simp only [nextQuestion, hlt, if_true]
    apply loadCurrentQuestion_error_of_valid
    unfold indexValid
    simp only
    omega
  · unfold indexValid
    rw [hprev, hprevq]
    omega
  · unfold indexValid
    rw [hnext, hnextq]
    omega

/-- Witness of C14: in a fresh session of three questions (index 0)
`prevQuestion` changes nothing and `nextQuestion` moves to index 1. -/
theorem C14_prev_next_clamped_witness :
    prevQuestion (freshSession threeQuestions) = freshSession threeQuestions ∧
    (nextQuestion (freshSession threeQuestions)).currentIndex = 1 := by
  obtain ⟨_, h2, h3, _⟩ :=
    C14_prev_next_clamped (freshSession threeQuestions) (by decide) (by decide) (by decide)
  exact ⟨h3 (by decide), h2.trans (by decide)⟩

/-! ## The view of a loaded question -/

theorem answerRefValue_loadedUserAnswer (answers : Int → Option (List JsStr)) (index : Int)
    (type : JsStr) :
    answerRefValue answers (loadedUserAnswer answers index type) =
      if (answers index).getD [] = [] then
        (if type ∈ textTypes ∨ type = singleChoice ∨ type = trueFalse then [[]] else [])
      else (answers index).getD [] := by
  by_cases ht : type ∈ textTypes
  · have hns : ¬ (type = singleChoice ∨ type = trueFalse) := by
      simp only [textTypes, List.mem_cons, List.mem_singleton, List.not_mem_nil, or_false] at ht
      rcases ht with ht | ht | ht <;> subst ht <;> decide
    cases h : answers index with
    | none => simp [loadedUserAnswer, answerRefValue, h, ht]
    | some l =>
      cases l with
      | nil => simp [loadedUserAnswer, answerRefValue, h, ht]
      | cons x xs => simp [loadedUserAnswer, answerRefValue, h, ht, hns]
  · by_cases hs : type = singleChoice ∨ type = trueFalse
    · cases h : answers index with
      | none => simp [loadedUserAnswer, answerRefValue, h, ht, hs]
      | some l =>
        cases l with
        | nil => simp [loadedUserAnswer, answerRefValue, h, ht, hs]
        | cons x xs => simp [loadedUserAnswer, answerRefValue, h, ht, hs]
    · cases h : answers index with
      | none => simp [loadedUserAnswer, answerRefValue, h, ht, hs]
      | some l =>
        cases l with
        | nil => simp [loadedUserAnswer, answerRefValue, h, ht, hs]
        | cons x xs => simp [loadedUserAnswer, answerRefValue, h, ht, hs]

/-- C17: for a valid `currentIndex`, `loadCurrentQuestion` gives `userAnswer`
the contents `[""]` when the stored answer is absent or empty and the type is
填空题, 简答题, 释义题, 单选题 or 判断题, the contents `[]` when it is absent or empty
and the type is 多选题, and the contents of the stored answer when that is not
empty. -/
theorem C17_loaded_userAnswer (s : State) (q : Question) (h : indexValid s)
    (hq : s.localQuestions[s.currentIndex.toNat]? = some q) :
    ((s.localAnswers s.currentIndex).getD [] = [] →
      ((q.type = fillBlank ∨ q.type = shortAnswer ∨ q.type = definition ∨
          q.type = singleChoice ∨ q.type = trueFalse) →
        userAnswerValue (loadCurrentQuestion s) = [[]]) ∧
      (q.type = multipleChoice → userAnswerValue (loadCurrentQuestion s) = [])) ∧
    ((s.localAnswers s.currentIndex).getD [] ≠ [] →
      userAnswerValue (loadCurrentQuestion s) = (s.localAnswers s.currentIndex).getD []) := by
  rw [loadCurrentQuestion_userAnswerValue s h q hq, answerRefValue_loadedUserAnswer]
  refine ⟨fun he => ⟨fun ht => ?_, fun ht => ?_⟩, fun hne => ?_⟩
  · have : q.type ∈ textTypes ∨ q.type = singleChoice ∨ q.type = trueFalse := by
      rcases ht with ht | ht | ht | ht | ht
      · left; rw [ht]; decide
      · left; rw [ht]; decide
      · left; rw [ht]; decide
      · right; left; exact ht
      · right; right; exact ht
    simp [he, this]
  · have : ¬ (q.type ∈ textTypes ∨ q.type = singleChoice ∨ q.type = trueFalse) := by
      rw [ht]; decide
    simp [he, this]
  · simp [hne]

/-- Witness of C17: a fresh 单选题 question gets the contents `[""]`. -/
theorem C17_loaded_userAnswer_witness :
    userAnswerValue (loadCurrentQuestion (sampleSession threeQuestions [])) = [[]] :=
  ((C17_loaded_userAnswer (sampleSession threeQuestions [])
    (sampleQuestion singleChoice [utf16 "A"]) (by decide) (by decide)).1 (by decide)).1
    (Or.inr (Or.inr (Or.inr (Or.inl rfl))))

/-- C18: for a valid `currentIndex`, after `loadCurrentQuestion` the flag
`isAnswerViewed` is true if and only if the index was already viewed or study
mode is on; `correctAnswer` is the question's own `correct_answer` when the
flag is true and the empty array otherwise; and in study mode
`localViewedAnswers[currentIndex]` is true afterwards. -/
theorem C18_loaded_viewed_and_correctAnswer (s : State) (q : Question) (h : indexValid s)
    (hq : s.localQuestions[s.currentIndex.toNat]? = some q) :
    ((loadCurrentQuestion s).isAnswerViewed = true ↔
      (s.localViewedAnswers s.currentIndex = some true ∨ s.studyMode = true)) ∧
    ((loadCurrentQuestion s).isAnswerViewed = true →
      correctAnswerValue (loadCurrentQuestion s) = q.correct_answer) ∧
    ((loadCurrentQuestion s).isAnswerViewed = false →
      correctAnswerValue (loadCurrentQuestion s) = some []) ∧
    (s.studyMode = true →
      (loadCurrentQuestion s).localViewedAnswers s.currentIndex = some true) := by
  have hgetD : (s.localViewedAnswers s.currentIndex).getD false = true ↔
      s.localViewedAnswers s.currentIndex = some true := by
    cases hv : s.localViewedAnswers s.currentIndex with
    | none => simp
    | some b => simp
  rw [loadCurrentQuestion_eq s h q hq]
  by_cases hc : s.studyMode = true ∧ ¬ (s.localViewedAnswers s.currentIndex).getD false = true
  · simp only [hc, not_false_eq_true, and_self, if_true]
    refine ⟨?_, ?_, ?_, ?_⟩
    · simp [hc.1]
    · intro _
      simp [correctAnswerValue, hq]
    · intro hf
      simp at hf
    · intro _
      simp [setKey]
  · simp only [hc, if_false]
    by_cases hv : (s.localViewedAnswers s.currentIndex).getD false = true
    · have hmap := hgetD.1 hv
      simp only [hv, if_true]
      refine ⟨?_, ?_, ?_, ?_⟩
      · simp [hmap]
      · intro _
        simp [correctAnswerValue, hq]
      · intro hf
        simp at hf
      · intro _
        exact hmap
    · have hstudy : ¬ s.studyMode = true := fun hs => hc ⟨hs, hv⟩
      have hmap : ¬ s.localViewedAnswers s.currentIndex = some true := fun hm => hv (hgetD.2 hm)
      simp only [hv, if_false]
      refine ⟨?_, ?_, ?_, ?_⟩
      · simp [hmap, hstudy, hv]
      · intro ht
        simp [hv] at ht
      · intro _
        simp [correctAnswerValue]
      · intro hs
        exact absurd hs hstudy

/-- Witness of C18: loading a fresh question with study mode on shows its
correct answer and marks it viewed. -/
theorem C18_loaded_viewed_and_correctAnswer_witness :
    (loadCurrentQuestion { sampleSession threeQuestions [] with studyMode := true }).isAnswerViewed
      = true ∧
    correctAnswerValue (loadCurrentQuestion { sampleSession threeQuestions [] with studyMode := true })
      = some [utf16 "A"] := by
  obtain ⟨h1, h2, _, _⟩ :=
    C18_loaded_viewed_and_correctAnswer { sampleSession threeQuestions [] with studyMode := true }
      (sampleQuestion singleChoice [utf16 "A"]) (by decide) (by decide)
  exact ⟨h1.2 (Or.inr rfl), h2 (h1.2 (Or.inr rfl))⟩

/-! ## Selecting an answer -/

theorem userAnswerValue_setUserAnswer (s : State) (l : List JsStr) :
    userAnswerValue (setUserAnswer s l) = l := by
  unfold setUserAnswer
  cases hu : s.userAnswer with
  | own l0 => simp [userAnswerValue, answerRefValue]
  | stored k =>
    cases hk : s.localAnswers k with
    | none => simp [userAnswerValue, answerRefValue, hk]
    | some l0 => simp [userAnswerValue, answerRefValue, hu, hk, setKey]

theorem setUserAnswer_frame (s : State) (l : List JsStr) :
    (setUserAnswer s l).currentIndex = s.currentIndex ∧
    (setUserAnswer s l).localQuestions = s.localQuestions ∧
    (setUserAnswer s l).localViewedAnswers = s.localViewedAnswers ∧
    (setUserAnswer s l).isAnswerViewed = s.isAnswerViewed ∧
    (setUserAnswer s l).autoShowAnswer = s.autoShowAnswer ∧
    (setUserAnswer s l).studyMode = s.studyMode := by
  unfold setUserAnswer
  split
  · exact ⟨rfl, rfl, rfl, rfl, rfl, rfl⟩
  · split <;> exact ⟨rfl, rfl, rfl, rfl, rfl, rfl⟩

theorem saveCurrentAnswer_localAnswers (s : State) :
    (_saveCurrentAnswer s).localAnswers s.currentIndex = some (userAnswerValue s) := by
  simp [_saveCurrentAnswer, setKey]

theorem userAnswerValue_saveCurrentAnswer (s : State) :
    userAnswerValue (_saveCurrentAnswer s) = userAnswerValue s := by
  unfold _saveCurrentAnswer
  by_cases h : s.userAnswer = AnswerRef.stored s.currentIndex
  · simp [userAnswerValue, answerRefValue, h]
  · cases hu : s.userAnswer with
    | own l0 => simp [userAnswerValue, answerRefValue, hu]
    | stored k =>
      have hk : ¬ k = s.currentIndex := by
        intro hk
        exact h (by rw [hu, hk])
      simp [userAnswerValue, answerRefValue, hu, setKey, hk]

theorem viewAnswer_localAnswers (s : State) : (viewAnswer s).localAnswers = s.localAnswers := by
  unfold viewAnswer
  split_ifs
  · cases s.currentQuestion <;> rfl
  · rfl

theorem viewAnswer_userAnswer (s : State) : (viewAnswer s).userAnswer = s.userAnswer := by
  unfold viewAnswer
  split_ifs
  · cases s.currentQuestion <;> rfl
  · rfl

theorem viewAnswer_localViewedAnswers (s : State) :
    (viewAnswer s).localViewedAnswers =
      if indexValid s then setKey s.localViewedAnswers s.currentIndex (some true)
      else s.localViewedAnswers := by
  unfold viewAnswer
  split_ifs
  · cases s.currentQuestion <;> rfl
  · rfl

/-- The state after the two statements that `selectOption` and
`selectMultipleOption` share: the save and the automatic display of the
answer. -/
theorem save_then_view_spec (s : State) (hv : s.isAnswerViewed = false) :
    (if (_saveCurrentAnswer s).autoShowAnswer = true ∧ ¬ (_saveCurrentAnswer s).isAnswerViewed = true
        then viewAnswer (_saveCurrentAnswer s) else _saveCurrentAnswer s).localAnswers s.currentIndex
      = some (userAnswerValue s) ∧
    userAnswerValue
        (if (_saveCurrentAnswer s).autoShowAnswer = true ∧ ¬ (_saveCurrentAnswer s).isAnswerViewed = true
          then viewAnswer (_saveCurrentAnswer s) else _saveCurrentAnswer s)
      = userAnswerValue s ∧
    (if (_saveCurrentAnswer s).autoShowAnswer = true ∧ ¬ (_saveCurrentAnswer s).isAnswerViewed = true
        then viewAnswer (_saveCurrentAnswer s) else _saveCurrentAnswer s).localViewedAnswers
      = if s.autoShowAnswer = true ∧ indexValid s then
          setKey s.localViewedAnswers s.currentIndex (some true)
        else s.localViewedAnswers := by
  have ha : (_saveCurrentAnswer s).autoShowAnswer = s.autoShowAnswer := rfl
  have hi : (_saveCurrentAnswer s).isAnswerViewed = s.isAnswerViewed := rfl
  have hvalid : indexValid (_saveCurrentAnswer s) ↔ indexValid s := Iff.rfl
  simp only [ha, hi, hv, Bool.false_eq_true, not_false_eq_true, and_true]
  by_cases hauto : s.autoShowAnswer = true
  · simp only [hauto, if_true, true_and]
    refine ⟨?_, ?_, ?_⟩
    · rw [viewAnswer_localAnswers, saveCurrentAnswer_localAnswers]
    · have : userAnswerValue (viewAnswer (_saveCurrentAnswer s))
          = userAnswerValue (_saveCurrentAnswer s) := by
        simp only [userAnswerValue, viewAnswer_localAnswers, viewAnswer_userAnswer]
      rw [this, userAnswerValue_saveCurrentAnswer]
    · rw [viewAnswer_localViewedAnswers]
      simp only [hvalid]
      rfl
  · simp only [hauto, if_false, false_and]
    exact ⟨saveCurrentAnswer_localAnswers s, userAnswerValue_saveCurrentAnswer s, rfl⟩

theorem selectOption_of_guard (value : JsStr) (s : State) (hv : s.isAnswerViewed = false)
    (hs : s.studyMode = false) :
    selectOption value s =
      if (_saveCurrentAnswer (setUserAnswer s (assignFirst (userAnswerValue s) value))).autoShowAnswer
            = true ∧
          ¬ (_saveCurrentAnswer (setUserAnswer s (assignFirst (userAnswerValue s) value))).isAnswerViewed
            = true
        then viewAnswer (_saveCurrentAnswer (setUserAnswer s (assignFirst (userAnswerValue s) value)))
        else _saveCurrentAnswer (setUserAnswer s (assignFirst (userAnswerValue s) value)) := by
  simp [selectOption, hv, hs]

theorem selectMultipleOption_of_guard (value : JsStr) (s : State) (hv : s.isAnswerViewed = false)
    (hs : s.studyMode = false) :
    selectMultipleOption value s =
      if (_saveCurrentAnswer (setUserAnswer s (toggleValue (userAnswerValue s) value))).autoShowAnswer
            = true ∧
          ¬ (_saveCurrentAnswer (setUserAnswer s (toggleValue (userAnswerValue s) value))).isAnswerViewed
            = true
        then viewAnswer (_saveCurrentAnswer (setUserAnswer s (toggleValue (userAnswerValue s) value)))
        else _saveCurrentAnswer (setUserAnswer s (toggleValue (userAnswerValue s) value)) := by
  simp [selectMultipleOption, hv, hs]

theorem assignFirst_eq (arr : List JsStr) (value : JsStr) :
    assignFirst arr value = value :: arr.tail := by
  cases arr <;> rfl

theorem select_spec (s : State) (l : List JsStr) (hv : s.isAnswerViewed = false) :
    (if (_saveCurrentAnswer (setUserAnswer s l)).autoShowAnswer = true ∧
          ¬ (_saveCurrentAnswer (setUserAnswer s l)).isAnswerViewed = true
        then viewAnswer (_saveCurrentAnswer (setUserAnswer s l))
        else _saveCurrentAnswer (setUserAnswer s l)).localAnswers s.currentIndex = some l ∧
    userAnswerValue
        (if (_saveCurrentAnswer (setUserAnswer s l)).autoShowAnswer = true ∧
            ¬ (_saveCurrentAnswer (setUserAnswer s l)).isAnswerViewed = true
          then viewAnswer (_saveCurrentAnswer (setUserAnswer s l))
          else _saveCurrentAnswer (setUserAnswer s l)) = l ∧
    (if (_saveCurrentAnswer (setUserAnswer s l)).autoShowAnswer = true ∧
          ¬ (_saveCurrentAnswer (setUserAnswer s l)).isAnswerViewed = true
        then viewAnswer (_saveCurrentAnswer (setUserAnswer s l))
        else _saveCurrentAnswer (setUserAnswer s l)).localViewedAnswers
      = if s.autoShowAnswer = true ∧ indexValid s then
          setKey s.localViewedAnswers s.currentIndex (some true)
        else s.localViewedAnswers := by
  obtain ⟨f1, f2, f3, f4, f5, _⟩ := setUserAnswer_frame s l
  have hv1 : (setUserAnswer s l).isAnswerViewed = false := by rw [f4, hv]
  obtain ⟨e1, e2, e3⟩ := save_then_view_spec (setUserAnswer s l) hv1
  have hvalid : indexValid (setUserAnswer s l) ↔ indexValid s := by
    unfold indexValid
    rw [f1, f2]
  rw [f1, userAnswerValue_setUserAnswer] at e1
  rw [userAnswerValue_setUserAnswer] at e2
  rw [f1, f3, f5] at e3
  simp only [hvalid] at e3
  exact ⟨e1, e2, e3⟩

/-- C19: for a valid `currentIndex` and a value `v`: when the current question
is not viewed and study mode is off, after `selectOption(v)` the stored answer
`localAnswers[currentIndex]` is `userAnswer` with slot 0 replaced by `v`
(exactly `[v]` when `userAnswer` had at most one element), `userAnswer` has the
same contents, and the index is marked viewed if and only if `autoShowAnswer`
is on; when the question is viewed or study mode is on, `selectOption(v)`
leaves the whole state as it is. -/
theorem C19_selectOption (s : State) (v : JsStr) (h : indexValid s) :
    (s.isAnswerViewed = false → s.studyMode = false →
      (selectOption v s).localAnswers s.currentIndex = some (v :: (userAnswerValue s).tail) ∧
      userAnswerValue (selectOption v s) = v :: (userAnswerValue s).tail ∧
      ((userAnswerValue s).length ≤ 1 →
        (selectOption v s).localAnswers s.currentIndex = some [v]) ∧
      (s.localViewedAnswers s.currentIndex ≠ some true →
        ((selectOption v s).localViewedAnswers s.currentIndex = some true ↔
          s.autoShowAnswer = true))) ∧
    ((s.isAnswerViewed = true ∨ s.studyMode = true) → selectOption v s = s) := by
  constructor
  · intro hv hs
    rw [selectOption_of_guard v s hv hs, assignFirst_eq]
    obtain ⟨e1, e2, e3⟩ := select_spec s (v :: (userAnswerValue s).tail) hv
    refine ⟨e1, e2, ?_, ?_⟩
    · intro hlen
      rw [e1]
      cases hl : userAnswerValue s with
      | nil => rfl
      | cons x xs =>
        cases xs with
        | nil => rfl
        | cons y ys => rw [hl] at hlen; simp at hlen
    · intro hnot
      rw [e3]
      by_cases hauto : s.autoShowAnswer = true
      · simp [hauto, h, setKey]
      · simp [hauto, hnot]
  · intro hg
    unfold selectOption
    rcases hg with hg | hg <;> simp [hg]

/-- Witness of C19: on a fresh 单选题 question, `selectOption("B")` stores
`["B"]`. -/
theorem C19_selectOption_witness :
    (selectOption (utf16 "B") (freshSession threeQuestions)).localAnswers 0 = some [utf16 "B"] :=
  ((C19_selectOption (freshSession threeQuestions) (utf16 "B") (by decide)).1
    (by decide) (by decide)).2.2.1 (by decide)

/-- C20: for every `currentIndex` (valid or not) and value `v`, the current
question not viewed and study mode off: `selectMultipleOption(v)` makes the answer
`userAnswer ++ [v]` when `v` is absent from `userAnswer`, and `userAnswer` with
the first occurrence of `v` removed, the other elements in their order, when
`v` is present; that sequence is stored in `localAnswers[currentIndex]`.  When
the question is viewed or study mode is on, it leaves the whole state as it
is. -/
theorem C20_selectMultipleOption (s : State) (v : JsStr) :
    (s.isAnswerViewed = false → s.studyMode = false →
      (v ∉ userAnswerValue s →
        userAnswerValue (selectMultipleOption v s) = userAnswerValue s ++ [v] ∧
        (selectMultipleOption v s).localAnswers s.currentIndex
          = some (userAnswerValue s ++ [v])) ∧
      (v ∈ userAnswerValue s →
        ∃ before after, userAnswerValue s = before ++ v :: after ∧ v ∉ before ∧
          userAnswerValue (selectMultipleOption v s) = before ++ after ∧
          (selectMultipleOption v s).localAnswers s.currentIndex = some (before ++ after))) ∧
    ((s.isAnswerViewed = true ∨ s.studyMode = true) → selectMultipleOption v s = s) := by
  constructor
  · intro hv hs
    rw [selectMultipleOption_of_guard v s hv hs]
    constructor
    · intro hnot
      have ht : toggleValue (userAnswerValue s) v = userAnswerValue s ++ [v] := by
        simp [toggleValue, hnot]
      rw [ht]
      obtain ⟨e1, e2, _⟩ := select_spec s (userAnswerValue s ++ [v]) hv
      exact ⟨e2, e1⟩
    · intro hmem
      obtain ⟨before, after, hb, hsplit, herase⟩ := List.exists_erase_eq hmem
      have ht : toggleValue (userAnswerValue s) v = before ++ after := by
        simp [toggleValue, hmem, herase]
      rw [ht]
      obtain ⟨e1, e2, _⟩ := select_spec s (before ++ after) hv
      exact ⟨before, after, hsplit, hb, e2, e1⟩
  · intro hg
    unfold selectMultipleOption
    rcases hg with hg | hg <;> simp [hg]

/-- Witness of C20: with the stored answer `["C","A"]` of a 多选题 question
loaded, `selectMultipleOption("B")` stores `["C","A","B"]`. -/
theorem C20_selectMultipleOption_witness :
    (selectMultipleOption (utf16 "B") (loadCurrentQuestion unsortedSession)).localAnswers 0
      = some [utf16 "C", utf16 "A", utf16 "B"] :=
  ((((C20_selectMultipleOption (loadCurrentQuestion unsortedSession) (utf16 "B")).1
    (by decide) (by decide)).1 (by decide)).2).trans (by decide)

/-! ## The viewed map only grows -/

theorem setKey_true_mono (m : Int → Option Bool) (k i : Int) (h : m i = some true) :
    setKey m k (some true) i = some true := by
  unfold setKey
  split_ifs
  · rfl
  · exact h

theorem viewAnswer_viewed_mono (s : State) (i : Int) (h : s.localViewedAnswers i = some true) :
    (viewAnswer s).localViewedAnswers i = some true := by
  rw [viewAnswer_localViewedAnswers]
  split_ifs
  · exact setKey_true_mono _ _ _ h
  · exact h

theorem loadCurrentQuestion_viewed_mono (s : State) (i : Int)
    (h : s.localViewedAnswers i = some true) :
    (loadCurrentQuestion s).localViewedAnswers i = some true := by
  by_cases hv : indexValid s
  · obtain ⟨q, hq⟩ := exists_question_of_indexValid s hv
    rw [loadCurrentQuestion_eq s hv q hq]
    by_cases hc : s.studyMode = true ∧ ¬ (s.localViewedAnswers s.currentIndex).getD false = true
    · simp only [hc, not_false_eq_true, and_self, if_true]
      exact setKey_true_mono _ _ _ h
    · simp only [hc, if_false]
      exact h
  · rw [loadCurrentQuestion_invalid s hv]
    exact h

theorem selectOption_viewed_mono (v : JsStr) (s : State) (i : Int)
    (h : s.localViewedAnswers i = some true) :
    (selectOption v s).localViewedAnswers i = some true := by
  by_cases hg : s.isAnswerViewed = false ∧ s.studyMode = false
  · rw [selectOption_of_guard v s hg.1 hg.2, (select_spec s _ hg.1).2.2]
    split_ifs
    · exact setKey_true_mono _ _ _ h
    · exact h
  · have : selectOption v s = s := by
      unfold selectOption
      have hg2 : ¬ (¬ s.isAnswerViewed = true ∧ ¬ s.studyMode = true) := by
        simpa using hg
      simp only [hg2, if_false]
    rw [this]
    exact h

theorem selectMultipleOption_viewed_mono (v : JsStr) (s : State) (i : Int)
    (h : s.localViewedAnswers i = some true) :
    (selectMultipleOption v s).localViewedAnswers i = some true := by
  by_cases hg : s.isAnswerViewed = false ∧ s.studyMode = false
  · rw [selectMultipleOption_of_guard v s hg.1 hg.2, (select_spec s _ hg.1).2.2]
    split_ifs
    · exact setKey_true_mono _ _ _ h
    · exact h
  · have : selectMultipleOption v s = s := by
      unfold selectMultipleOption
      have hg2 : ¬ (¬ s.isAnswerViewed = true ∧ ¬ s.studyMode = true) := by
        simpa using hg
      simp only [hg2, if_false]
    rw [this]
    exact h

theorem apply_viewed_mono (op : Op) (s : State) (i : Int)
    (h : s.localViewedAnswers i = some true) :
    (op.apply s).localViewedAnswers i = some true := by
  cases op with
  | viewAnswer => exact viewAnswer_viewed_mono s i h
  | prevQuestion =>
    simp only [Op.apply, prevQuestion]
    split_ifs
    · exact loadCurrentQuestion_viewed_mono _ i h
    · exact h
  | nextQuestion =>
    simp only [Op.apply, nextQuestion]
    split_ifs
    · exact loadCurrentQuestion_viewed_mono _ i h
    · exact h
  | jumpToQuestion k => exact loadCurrentQuestion_viewed_mono _ i h
  | loadCurrentQuestion => exact loadCurrentQuestion_viewed_mono s i h
  | selectOption v => exact selectOption_viewed_mono v s i h
  | selectMultipleOption v => exact selectMultipleOption_viewed_mono v s i h
  | autoSaveAnswer =>
    simp only [Op.apply, autoSaveAnswer]
    split_ifs
    · exact h
    · exact h
  | submitExam =>
    simp only [Op.apply, submitExam_localViewedAnswers]
    exact h

theorem runOps_viewed_mono (ops : List Op) (s : State) (i : Int)
    (h : s.localViewedAnswers i = some true) :
    (runOps ops s).localViewedAnswers i = some true := by
  induction ops generalizing s with
  | nil => exact h
  | cons op rest ih => exact ih (op.apply s) (apply_viewed_mono op s i h)

theorem setKey_setKey {α : Type} (m : Int → Option α) (k : Int) (v : Option α) :
    setKey (setKey m k v) k v = setKey m k v := by
  funext j
  unfold setKey
  split_ifs <;> rfl

theorem viewAnswer_idem (s : State) : viewAnswer (viewAnswer s) = viewAnswer s := by
  by_cases hv : indexValid s
  · have hv2 : 0 ≤ s.currentIndex ∧ s.currentIndex < (s.localQuestions.length : Int) := hv
    cases hq : s.currentQuestion with
    | none => simp [viewAnswer, indexValid, hv2, hq, setKey_setKey]
    | some j => simp [viewAnswer, indexValid, hv2, hq, setKey_setKey]
  · have hv2 : ¬ (0 ≤ s.currentIndex ∧ s.currentIndex < (s.localQuestions.length : Int)) := hv
    simp [viewAnswer, indexValid, hv2]

/-- C11: once `localViewedAnswers[i]` is true it is true after every finite
sequence of the operations `viewAnswer`, `prevQuestion`, `nextQuestion`,
`jumpToQuestion`, `loadCurrentQuestion`, `selectOption`, `selectMultipleOption`,
`autoSaveAnswer` and `_submitExam`; on a valid index `viewAnswer` sets it to
true; and calling `viewAnswer` twice in a row gives the same state as calling
it once, in particular the same viewed map, `isAnswerViewed` and
`correctAnswer`. -/
theorem C11_viewed_stays_true_and_viewAnswer_idempotent :
    (∀ (s : State) (i : Int) (ops : List Op), s.localViewedAnswers i = some true →
      (runOps ops s).localViewedAnswers i = some true) ∧
    (∀ (s : State) (ops : List Op), indexValid s →
      (viewAnswer s).localViewedAnswers s.currentIndex = some true ∧
      (runOps ops (viewAnswer s)).localViewedAnswers s.currentIndex = some true) ∧
    (∀ s : State, indexValid s →
      viewAnswer (viewAnswer s) = viewAnswer s ∧
      (viewAnswer (viewAnswer s)).localViewedAnswers = (viewAnswer s).localViewedAnswers ∧
      (viewAnswer (viewAnswer s)).isAnswerViewed = (viewAnswer s).isAnswerViewed ∧
      correctAnswerValue (viewAnswer (viewAnswer s)) = correctAnswerValue (viewAnswer s)) := by
  refine ⟨fun s i ops h => runOps_viewed_mono ops s i h, ?_, ?_⟩
  · intro s ops hv
    have h1 : (viewAnswer s).localViewedAnswers s.currentIndex = some true := by
      rw [viewAnswer_localViewedAnswers]
      simp [hv, setKey]
    exact ⟨h1, runOps_viewed_mono ops _ _ h1⟩
  · intro s _
    rw [viewAnswer_idem]
    exact ⟨rfl, rfl, rfl, rfl⟩

/-- Witness of C11: in a fresh session of three questions, after `viewAnswer`
on index 0 and then a selection, two moves, a save and a submission, index 0
is still viewed. -/
theorem C11_viewed_stays_true_and_viewAnswer_idempotent_witness :
    (runOps [Op.selectOption (utf16 "B"), Op.nextQuestion, Op.nextQuestion, Op.autoSaveAnswer,
        Op.submitExam] (viewAnswer (freshSession threeQuestions))).localViewedAnswers 0
      = some true :=
  (C11_viewed_stays_true_and_viewAnswer_idempotent.2.1 (freshSession threeQuestions)
    [Op.selectOption (utf16 "B"), Op.nextQuestion, Op.nextQuestion, Op.autoSaveAnswer,
      Op.submitExam] (by decide)).2

/-! ## Keys of the two maps -/

theorem viewAnswer_viewed_step (s : State) :
    (viewAnswer s).localViewedAnswers = s.localViewedAnswers ∨
      ∃ k : Int, 0 ≤ k ∧ k < (s.localQuestions.length : Int) ∧
        (viewAnswer s).localViewedAnswers = setKey s.localViewedAnswers k (some true) := by
  rw [viewAnswer_localViewedAnswers]
  by_cases hv : indexValid s
  · exact Or.inr ⟨s.currentIndex, hv.1, hv.2, by simp [hv]⟩
  · exact Or.inl (by simp [hv])

theorem loadCurrentQuestion_viewed_step (s : State) :
    (loadCurrentQuestion s).localViewedAnswers = s.localViewedAnswers ∨
      ∃ k : Int, 0 ≤ k ∧ k < (s.localQuestions.length : Int) ∧
        (loadCurrentQuestion s).localViewedAnswers = setKey s.localViewedAnswers k (some true) := by
  by_cases hv : indexValid s
  · obtain ⟨q, hq⟩ := exists_question_of_indexValid s hv
    rw [loadCurrentQuestion_eq s hv q hq]
    by_cases hc : s.studyMode = true ∧ ¬ (s.localViewedAnswers s.currentIndex).getD false = true
    · simp only [hc, not_false_eq_true, and_self, if_true]
      exact Or.inr ⟨s.currentIndex, hv.1, hv.2, rfl⟩
    · simp only [hc, if_false]
      exact Or.inl trivial
  · rw [loadCurrentQuestion_invalid s hv]
    exact Or.inl rfl

theorem select_viewed_step (s : State) (l : List JsStr) (hv : s.isAnswerViewed = false) :
    (if (_saveCurrentAnswer (setUserAnswer s l)).autoShowAnswer = true ∧
          ¬ (_saveCurrentAnswer (setUserAnswer s l)).isAnswerViewed = true
        then viewAnswer (_saveCurrentAnswer (setUserAnswer s l))
        else _saveCurrentAnswer (setUserAnswer s l)).localViewedAnswers = s.localViewedAnswers ∨
      ∃ k : Int, 0 ≤ k ∧ k < (s.localQuestions.length : Int) ∧
        (if (_saveCurrentAnswer (setUserAnswer s l)).autoShowAnswer = true ∧
            ¬ (_saveCurrentAnswer (setUserAnswer s l)).isAnswerViewed = true
          then viewAnswer (_saveCurrentAnswer (setUserAnswer s l))
          else _saveCurrentAnswer (setUserAnswer s l)).localViewedAnswers
          = setKey s.localViewedAnswers k (some true) := by
  rw [(select_spec s l hv).2.2]
  by_cases hc : s.autoShowAnswer = true ∧ indexValid s
  · simp only [hc, and_self, if_true]
    exact Or.inr ⟨s.currentIndex, hc.2.1, hc.2.2, rfl⟩
  · simp only [hc, if_false]
    exact Or.inl trivial

theorem apply_viewed_step (op : Op) (s : State) :
    (op.apply s).localViewedAnswers = s.localViewedAnswers ∨
      ∃ k : Int, 0 ≤ k ∧ k < (s.localQuestions.length : Int) ∧
        (op.apply s).localViewedAnswers = setKey s.localViewedAnswers k (some true) := by
  cases op with
  | viewAnswer => exact viewAnswer_viewed_step s
  | prevQuestion =>
    simp only [Op.apply, prevQuestion]
    split_ifs
    · exact loadCurrentQuestion_viewed_step _
    · exact Or.inl rfl
  | nextQuestion =>
    simp only [Op.apply, nextQuestion]
    split_ifs
    · exact loadCurrentQuestion_viewed_step _
    · exact Or.inl rfl
  | jumpToQuestion k => exact loadCurrentQuestion_viewed_step _
  | loadCurrentQuestion => exact loadCurrentQuestion_viewed_step s
  | selectOption v =>
    by_cases hg : s.isAnswerViewed = false ∧ s.studyMode = false
    · simp only [Op.apply]
      rw [selectOption_of_guard v s hg.1 hg.2]
      exact select_viewed_step s _ hg.1
    · have hg2 : ¬ (¬ s.isAnswerViewed = true ∧ ¬ s.studyMode = true) := by simpa using hg
      simp only [Op.apply, selectOption, hg2, if_false]
      exact Or.inl trivial
  | selectMultipleOption v =>
    by_cases hg : s.isAnswerViewed = false ∧ s.studyMode = false
    · simp only [Op.apply]
      rw [selectMultipleOption_of_guard v s hg.1 hg.2]
      exact select_viewed_step s _ hg.1
    · have hg2 : ¬ (¬ s.isAnswerViewed = true ∧ ¬ s.studyMode = true) := by simpa using hg
      simp only [Op.apply, selectMultipleOption, hg2, if_false]
      exact Or.inl trivial
  | autoSaveAnswer =>
    simp only [Op.apply, autoSaveAnswer]
    split_ifs
    · exact Or.inl rfl
    · exact Or.inl rfl
  | submitExam => exact Or.inl (submitExam_localViewedAnswers s)

theorem viewAnswer_localQuestions (s : State) :
    (viewAnswer s).localQuestions = s.localQuestions := by
  unfold viewAnswer
  split_ifs
  · cases s.currentQuestion <;> rfl
  · rfl

theorem select_localQuestions (s : State) (l : List JsStr) :
    (if (_saveCurrentAnswer (setUserAnswer s l)).autoShowAnswer = true ∧
          ¬ (_saveCurrentAnswer (setUserAnswer s l)).isAnswerViewed = true
        then viewAnswer (_saveCurrentAnswer (setUserAnswer s l))
        else _saveCurrentAnswer (setUserAnswer s l)).localQuestions = s.localQuestions := by
  have h1 : (_saveCurrentAnswer (setUserAnswer s l)).localQuestions = s.localQuestions :=
    (setUserAnswer_frame s l).2.1
  split_ifs
  · rw [viewAnswer_localQuestions, h1]
  · exact h1

theorem apply_localQuestions_length (op : Op) (s : State) :
    (op.apply s).localQuestions.length = s.localQuestions.length := by
  cases op with
  | viewAnswer => simp only [Op.apply, viewAnswer_localQuestions]
  | prevQuestion =>
    simp only [Op.apply, prevQuestion]
    split_ifs
    · rw [loadCurrentQuestion_localQuestions]
    · rfl
  | nextQuestion =>
    simp only [Op.apply, nextQuestion]
    split_ifs
    · rw [loadCurrentQuestion_localQuestions]
    · rfl
  | jumpToQuestion k => simp only [Op.apply, jumpToQuestion, loadCurrentQuestion_localQuestions]
  | loadCurrentQuestion => simp only [Op.apply, loadCurrentQuestion_localQuestions]
  | selectOption v =>
    simp only [Op.apply, selectOption]
    split_ifs
    · rw [viewAnswer_localQuestions]; exact congrArg _ (setUserAnswer_frame s _).2.1
    · exact congrArg _ (setUserAnswer_frame s _).2.1
    · rfl
  | selectMultipleOption v =>
    simp only [Op.apply, selectMultipleOption]
    split_ifs
    · rw [viewAnswer_localQuestions]; exact congrArg _ (setUserAnswer_frame s _).2.1
    · exact congrArg _ (setUserAnswer_frame s _).2.1
    · rfl
  | autoSaveAnswer =>
    simp only [Op.apply, autoSaveAnswer]
    split_ifs
    · rfl
    · rfl
  | submitExam => exact submitExam_localQuestions_length s

/-- The keys of `localViewedAnswers` stay in `[0, len)` along every sequence of
operations. -/
theorem runOps_viewed_keys_in_range (ops : List Op) (s : State)
    (h : ∀ i : Int, s.localViewedAnswers i ≠ none →
      0 ≤ i ∧ i < (s.localQuestions.length : Int)) :
    (runOps ops s).localQuestions.length = s.localQuestions.length ∧
    ∀ i : Int, (runOps ops s).localViewedAnswers i ≠ none →
      0 ≤ i ∧ i < (s.localQuestions.length : Int) := by
  induction ops generalizing s with
  | nil => exact ⟨rfl, h⟩
  | cons op rest ih =>
    have hlen := apply_localQuestions_length op s
    have hstep : ∀ i : Int, (op.apply s).localViewedAnswers i ≠ none →
        0 ≤ i ∧ i < ((op.apply s).localQuestions.length : Int) := by
      intro i hi
      rw [hlen]
      rcases apply_viewed_step op s with e | ⟨k, hk0, hk1, e⟩
      · rw [e] at hi; exact h i hi
      · rw [e] at hi
        unfold setKey at hi
        split_ifs at hi with hik
        · rw [hik]; exact ⟨hk0, hk1⟩
        · exact h i hi
    obtain ⟨e1, e2⟩ := ih (op.apply s) hstep
    rw [hlen] at e1 e2
    exact ⟨e1, e2⟩

/-- C12 (the code departs from it): from the fresh session of one 单选题
question, `jumpToQuestion(-1)` followed by `autoSaveAnswer()` leaves an entry
under the key `-1` in `localAnswers`, outside `[0, 1)`: `_saveCurrentAnswer`
writes under `currentIndex` without the range test that `viewAnswer` and
`loadCurrentQuestion` make. -/
theorem C12_answer_saved_under_invalid_key :
    (freshSession [sampleQuestion singleChoice [utf16 "A"]]).currentIndex = 0 ∧
    (freshSession [sampleQuestion singleChoice [utf16 "A"]]).localAnswers (-1) = none ∧
    (runOps [Op.jumpToQuestion (-1), Op.autoSaveAnswer]
      (freshSession [sampleQuestion singleChoice [utf16 "A"]])).localAnswers (-1) = some [[]] ∧
    (runOps [Op.jumpToQuestion (-1), Op.autoSaveAnswer]
      (freshSession [sampleQuestion singleChoice [utf16 "A"]])).localQuestions.length = 1 := by
  decide

/-! ## A question without `correct_answer` -/

theorem gradeQuestion_verdict_none (q : Question) (stored : Option (List JsStr))
    (ht : q.type ∈ selectionTypes ∨ q.type ∈ textTypes) (hc : q.correct_answer = none) :
    (gradeQuestion q stored).verdict = none := by
  rcases ht with ht | ht
  · rw [gradeQuestion_selection_missing q stored ht hc]
  · rw [gradeQuestion_text_missing q stored ht hc]

theorem submitLoop_outcome_none (qs : List Question) (i : Nat)
    (answers : Int → Option (List JsStr)) (cc : Nat) (wq : List WrongQuestion)
    (h : ¬ NoMissingAnswer qs) : (submitLoop qs i answers cc wq).outcome = none := by
  induction qs generalizing i answers cc wq with
  | nil =>
    exfalso
    apply h
    intro q hq
    simp at hq
  | cons q rest ih =>
    cases hv : (gradeQuestion q (answers i)).verdict with
    | none => rw [submitLoop_cons_throw q rest i answers cc wq hv]
    | some b =>
      rw [submitLoop_cons_graded q rest i answers cc wq b hv]
      simp only
      apply ih
      intro hrest
      apply h
      intro x hx
      rcases List.mem_cons.1 hx with hxq | hxr
      · intro ht
        rw [hxq] at ht ⊢
        cases hc : q.correct_answer with
        | none =>
          rw [gradeQuestion_verdict_none q _ ht hc] at hv
          exact Option.noConfusion hv
        | some ca => rfl
      · exact hrest x hxr

/-- C13 (as amended): when some question of a graded type (单选题, 多选题, 判断题,
选择题, 填空题, 简答题, 释义题) lacks its `correct_answer`, `_submitExam` does not
throw to its caller and builds no Result: the error is set to the message
that starts with `提交失败: `, and `result` and `step` keep the values they had
before the call. -/
theorem C13_missing_correct_answer_reports_failure (s : State)
    (h : ∃ q ∈ s.localQuestions,
      (q.type ∈ selectionTypes ∨ q.type ∈ textTypes) ∧ q.correct_answer = none) :
    (_submitExam s).error = ErrorMsg.submitFailed ∧
    (_submitExam s).result = s.result ∧
    (_submitExam s).step = s.step := by
  have hno : ¬ NoMissingAnswer s.localQuestions := by
    intro hno
    obtain ⟨q, hq, ht, hc⟩ := h
    have := hno q hq ht
    rw [hc] at this
    exact Bool.noConfusion this
  have ho := submitLoop_outcome_none s.localQuestions 0 s.localAnswers 0 [] hno
  simp only [_submitExam, ho]
  exact ⟨trivial, trivial, trivial⟩

/-- Witness of C13: a session whose only question, of type 单选题, has no
`correct_answer`. -/
theorem C13_missing_correct_answer_reports_failure_witness :
    (_submitExam missingAnswerSession).error = ErrorMsg.submitFailed ∧
    (_submitExam missingAnswerSession).result = none ∧
    (_submitExam missingAnswerSession).step = Step.answer :=
  C13_missing_correct_answer_reports_failure missingAnswerSession
    ⟨_, List.mem_singleton.2 rfl, Or.inl (by decide), rfl⟩

/-- C13 as stated fails: on a session whose only question, of type 单选题, has
no `correct_answer`, `_submitExam` produces no Result. -/
theorem C13_missing_correct_answer_counterexample :
    ¬ ∃ r, (_submitExam missingAnswerSession).result = some r := by
  rintro ⟨r, hr⟩
  have h : (_submitExam missingAnswerSession).result = none := by decide
  rw [h] at hr
  exact Option.noConfusion hr

/-! ## The answer sheet -/

theorem numberEntries_append (a b : List QuestionSummary) (n : Nat) :
    numberEntries (a ++ b) n = numberEntries a n ++ numberEntries b (n + a.length) := by
  induction a generalizing n with
  | nil => simp [numberEntries]
  | cons x xs ih =>
    have e : n + 1 + xs.length = n + (xs.length + 1) := by omega
    rw [List.cons_append, numberEntries, numberEntries, ih (n + 1), e, List.length_cons,
      List.cons_append]

theorem numberEntries_map_displayNumber (l : List QuestionSummary) (n : Nat) :
    (numberEntries l n).map (fun e => e.displayNumber) = List.range' n l.length := by
  induction l generalizing n with
  | nil => rfl
  | cons x xs ih => simp only [numberEntries, List.map_cons, ih, List.length_cons, List.range'_succ]

theorem numberEntries_map_index (l : List QuestionSummary) (n : Nat) :
    (numberEntries l n).map (fun e => e.index) = l.map (fun q => q.index) := by
  induction l generalizing n with
  | nil => rfl
  | cons x xs ih => simp only [numberEntries, List.map_cons, ih]

theorem numberEntries_length (l : List QuestionSummary) (n : Nat) :
    (numberEntries l n).length = l.length := by
  have := congrArg List.length (numberEntries_map_index l n)
  simpa using this

theorem buildGroups_entries (questions : List QuestionSummary) (ts : List JsStr) (n : Nat) :
    (buildGroups questions ts n).flatMap (fun g => g.questions) =
      numberEntries (ts.flatMap (fun t => questions.filter (fun q => q.type == t))) n := by
  induction ts generalizing n with
  | nil => rfl
  | cons t rest ih =>
    simp only [buildGroups, List.flatMap_cons]
    split_ifs with hpos
    · rw [List.flatMap_cons, ih, numberEntries_append]
    · have hnil : questions.filter (fun q => q.type == t) = [] := by
        apply List.eq_nil_of_length_eq_zero
        omega
      rw [ih, hnil, List.nil_append]

theorem buildGroups_types (questions : List QuestionSummary) (ts : List JsStr) (n : Nat) :
    (buildGroups questions ts n).map (fun g => g.type) =
      ts.filter (fun t => decide (0 < (questions.filter (fun q => q.type == t)).length)) := by
  induction ts generalizing n with
  | nil => rfl
  | cons t rest ih =>
    simp only [buildGroups, List.filter_cons]
    split_ifs with hpos h2 h2
    · rw [List.map_cons, ih]
    · exact absurd (decide_eq_true hpos) h2
    · exact absurd (of_decide_eq_true h2) hpos
    · exact ih n

theorem buildGroups_group (questions : List QuestionSummary) (ts : List JsStr) (n : Nat)
    (g : SheetGroup) (hg : g ∈ buildGroups questions ts n) :
    g.questions ≠ [] ∧
      ∃ m, g.questions = numberEntries (questions.filter (fun q => q.type == g.type)) m := by
  induction ts generalizing n with
  | nil => simp [buildGroups] at hg
  | cons t rest ih =>
    simp only [buildGroups] at hg
    split_ifs at hg with hpos
    · rcases List.mem_cons.1 hg with h | h
      · subst h
        refine ⟨?_, n, rfl⟩
        intro hnil
        have := congrArg List.length hnil
        simp only [numberEntries_length, List.length_nil] at this
        omega
      · exact ih _ h
    · exact ih _ hg

theorem summariesFrom_filter_length (answers : Int → Option (List JsStr))
    (viewed : Int → Option Bool) (i : Nat) (qs : List Question) (t : JsStr) :
    ((summariesFrom answers viewed i qs).filter (fun x => x.type == t)).length
      = (qs.filter (fun q => q.type == t)).length := by
  induction qs generalizing i with
  | nil => rfl
  | cons q rest ih =>
    simp only [summariesFrom, List.filter_cons]
    split_ifs <;> simp [ih]

theorem summariesFrom_map_index (answers : Int → Option (List JsStr))
    (viewed : Int → Option Bool) (i : Nat) (qs : List Question) :
    (summariesFrom answers viewed i qs).map (fun x => x.index) = List.range' i qs.length := by
  induction qs generalizing i with
  | nil => rfl
  | cons q rest ih => simp only [summariesFrom, List.map_cons, ih, List.length_cons, List.range'_succ]

theorem summariesFrom_type_mem (answers : Int → Option (List JsStr))
    (viewed : Int → Option Bool) (i : Nat) (qs : List Question) (x : QuestionSummary)
    (hx : x ∈ summariesFrom answers viewed i qs) : ∃ q ∈ qs, x.type = q.type := by
  induction qs generalizing i with
  | nil => simp [summariesFrom] at hx
  | cons q rest ih =>
    simp only [summariesFrom, List.mem_cons] at hx
    rcases hx with h | h
    · exact ⟨q, List.mem_cons_self _ _, by rw [h]⟩
    · obtain ⟨q', hq', e⟩ := ih _ h
      exact ⟨q', List.mem_cons_of_mem _ hq', e⟩

theorem summariesFrom_filter_index (all : List Question) (answers : Int → Option (List JsStr))
    (viewed : Int → Option Bool) (t : JsStr) (qs : List Question) (i : Nat)
    (hqs : qs = all.drop i) :
    ((summariesFrom answers viewed i qs).filter (fun x => x.type == t)).map (fun x => x.index)
      = (List.range' i qs.length).filter
          (fun k => decide (all[k]?.map (fun q => q.type) = some t)) := by
  induction qs generalizing i with
  | nil => rfl
  | cons q rest ih =>
    obtain ⟨hget, hrest⟩ := drop_eq_cons hqs
    simp only [summariesFrom, List.length_cons, List.range'_succ, List.filter_cons, hget,
      Option.map_some', Option.some.injEq]
    by_cases ht : q.type = t
    · simp only [ht, beq_self_eq_true, if_true, decide_True, List.map_cons]
      rw [ih (i + 1) hrest]
    · have hb : (q.type == t) = false := by simpa using ht
      simp only [hb, Bool.false_eq_true, if_false, ht, decide_False]
      rw [ih (i + 1) hrest]

theorem filter_append_filter_disjoint_perm (l : List QuestionSummary)
    (p q : QuestionSummary → Bool) (hd : ∀ x, p x = true → q x = false) :
    (l.filter p ++ l.filter q).Perm (l.filter (fun x => p x || q x)) := by
  induction l with
  | nil => exact List.Perm.refl _
  | cons x xs ih =>
    by_cases hp : p x = true
    · have hq := hd x hp
      simp only [List.filter_cons, hp, hq, if_true, Bool.true_or, Bool.false_eq_true, if_false,
        List.cons_append]
      exact List.Perm.cons x ih
    · have hp2 : p x = false := by simpa using hp
      by_cases hq : q x = true
      · simp only [List.filter_cons, hp2, hq, Bool.false_eq_true, if_false, if_true,
          Bool.false_or]
        exact List.perm_middle.trans (List.Perm.cons x ih)
      · have hq2 : q x = false := by simpa using hq
        simp only [List.filter_cons, hp2, hq2, Bool.false_eq_true, if_false, Bool.or_self]
        exact ih

theorem flatMap_filter_type_perm (l : List QuestionSummary) (ts : List JsStr)
    (hnd : ts.Nodup) :
    (ts.flatMap (fun t => l.filter (fun x => x.type == t))).Perm
      (l.filter (fun x => decide (x.type ∈ ts))) := by
  induction ts with
  | nil => simp
  | cons t rest ih =>
    have hnot : t ∉ rest := (List.nodup_cons.1 hnd).1
    have hrest := ih (List.nodup_cons.1 hnd).2
    rw [List.flatMap_cons]
    refine (List.Perm.append_left _ hrest).trans ?_
    refine (filter_append_filter_disjoint_perm l _ _ ?_).trans ?_
    · intro x hx
      have hxt : x.type = t := by simpa using hx
      simp [hxt, hnot]
    · apply List.Perm.of_eq
      apply List.filter_congr
      intro x _
      by_cases hxt : x.type = t
      · simp [hxt]
      · have hb : (x.type == t) = false := by simpa using hxt
        simp [hxt, hb]

/-- C16: `loadAnswerSheet` builds the groups in the order 单选题, 多选题, 判断题,
填空题, 简答题, 释义题, one for each of these types that some question has; each
group is not empty and lists the indices of the questions of its type in
ascending order; read group after group, the display numbers are
`1, 2, ..., k`; when every question has one of the six types, `k = N` and the
indices are a rearrangement of `0, ..., N-1`; and for the types
[单选题, 填空题, 单选题] indices 0 and 2 get numbers 1 and 2, index 1 gets 3. -/
theorem C16_answer_sheet_groups_and_numbers :
    (∀ s : State,
      (loadAnswerSheet s).answerSheet.questions.map (fun g => g.type)
        = typeOrder.filter (fun t => s.localQuestions.any (fun q => q.type == t)) ∧
      (∀ g ∈ (loadAnswerSheet s).answerSheet.questions,
        g.questions ≠ [] ∧
        g.questions.map (fun e => e.index)
          = (List.range s.localQuestions.length).filter
              (fun i => decide (s.localQuestions[i]?.map (fun q => q.type) = some g.type))) ∧
      ((loadAnswerSheet s).answerSheet.questions.flatMap (fun g => g.questions)).map
          (fun e => e.displayNumber)
        = List.range' 1
            ((loadAnswerSheet s).answerSheet.questions.flatMap (fun g => g.questions)).length ∧
      ((∀ q ∈ s.localQuestions, q.type ∈ typeOrder) →
        ((loadAnswerSheet s).answerSheet.questions.flatMap (fun g => g.questions)).length
          = s.localQuestions.length ∧
        (((loadAnswerSheet s).answerSheet.questions.flatMap (fun g => g.questions)).map
          (fun e => e.index)).Perm (List.range s.localQuestions.length))) ∧
    ((loadAnswerSheet (sampleSession threeQuestions [])).answerSheet.questions.flatMap
        (fun g => g.questions)).map (fun e => (e.index, e.displayNumber))
      = [(0, 1), (2, 2), (1, 3)] := by
  refine ⟨fun s => ⟨?_, ?_, ?_, ?_⟩, by decide⟩
  · simp only [loadAnswerSheet, buildGroups_types]
    apply List.filter_congr
    intro t _
    rw [summariesFrom_filter_length]
    by_cases h : 0 < (s.localQuestions.filter (fun q => q.type == t)).length
    · rw [decide_eq_true h]
      obtain ⟨x, hx⟩ := List.exists_mem_of_ne_nil _ (List.length_pos.1 h)
      rw [List.mem_filter] at hx
      exact (List.any_eq_true.2 ⟨x, hx.1, hx.2⟩).symm
    · rw [decide_eq_false h]
      symm
      rw [Bool.eq_false_iff]
      intro hany
      obtain ⟨x, hx1, hx2⟩ := List.any_eq_true.1 hany
      apply h
      exact List.length_pos.2 (List.ne_nil_of_mem (List.mem_filter.2 ⟨hx1, hx2⟩))
  · intro g hg
    simp only [loadAnswerSheet] at hg
    obtain ⟨hne, m, hm⟩ := buildGroups_group _ _ _ g hg
    refine ⟨hne, ?_⟩
    rw [hm, numberEntries_map_index,
      summariesFrom_filter_index s.localQuestions _ _ g.type s.localQuestions 0 (by simp),
      List.range_eq_range']
  · simp only [loadAnswerSheet, buildGroups_entries, numberEntries_map_displayNumber,
      numberEntries_length]
  · intro hall
    simp only [loadAnswerSheet, buildGroups_entries, numberEntries_length,
      numberEntries_map_index]
    have hnd : typeOrder.Nodup := by decide
    have hperm := flatMap_filter_type_perm
      (summariesFrom s.localAnswers s.localViewedAnswers 0 s.localQuestions) typeOrder hnd
    have hself : (summariesFrom s.localAnswers s.localViewedAnswers 0 s.localQuestions).filter
        (fun x => decide (x.type ∈ typeOrder))
        = summariesFrom s.localAnswers s.localViewedAnswers 0 s.localQuestions := by
      rw [List.filter_eq_self]
      intro x hx
      obtain ⟨q, hq, e⟩ := summariesFrom_type_mem _ _ _ _ x hx
      rw [e]
      exact decide_eq_true (hall q hq)
    rw [hself] at hperm
    have hidx := summariesFrom_map_index s.localAnswers s.localViewedAnswers 0 s.localQuestions
    refine ⟨?_, ?_⟩
    · have := hperm.length_eq
      rw [this]
      have := congrArg List.length hidx
      simpa using this
    · rw [List.range_eq_range', ← hidx]
      exact hperm.map _

/-- Witness of C16: the three questions of types 单选题, 填空题, 单选题 all have
one of the six types, so the sheet lists three entries. -/
theorem C16_answer_sheet_groups_and_numbers_witness :
    (∀ q ∈ (sampleSession threeQuestions []).localQuestions, q.type ∈ typeOrder) ∧
    ((loadAnswerSheet (sampleSession threeQuestions [])).answerSheet.questions.flatMap
      (fun g => g.questions)).length = 3 :=
  ⟨by decide,
    ((C16_answer_sheet_groups_and_numbers.1 (sampleSession threeQuestions [])).2.2.2
      (by decide)).1⟩

/-! ## The statistics -/

theorem statGrade_eq_gradeQuestion (q : Question) (stored : Option (List JsStr)) :
    statGrade q stored = gradeQuestion q stored := rfl

theorem isAnswered_iff (l : List JsStr) : isAnswered l = true ↔ AttemptedSpec l := by
  unfold isAnswered AttemptedSpec
  simp only [Bool.and_eq_true, decide_eq_true_eq, List.any_eq_true, bne_iff_ne, ne_eq]
  constructor
  · rintro ⟨hlen, x, hx, hne⟩
    exact ⟨fun h => by rw [h] at hlen; simp at hlen, x, hx, hne⟩
  · rintro ⟨hne, x, hx, hx2⟩
    exact ⟨List.length_pos.2 hne, x, hx, hx2⟩

theorem statLoop_cons_skip (wanted : Bool) (q : Question) (rest : List Question) (i : Nat)
    (answers : Int → Option (List JsStr)) (count : Nat)
    (h : isAnswered ((answers i).getD []) = false) :
    statLoop wanted (q :: rest) i answers count =
      ⟨q :: (statLoop wanted rest (i + 1) answers count).questions,
        (statLoop wanted rest (i + 1) answers count).answers,
        (statLoop wanted rest (i + 1) answers count).count⟩ := by
  simp [statLoop, h]

theorem statLoop_cons_graded (wanted : Bool) (q : Question) (rest : List Question) (i : Nat)
    (answers : Int → Option (List JsStr)) (count : Nat) (b : Bool)
    (h : isAnswered ((answers i).getD []) = true)
    (hv : (gradeQuestion q (answers i)).verdict = some b) :
    (statLoop wanted (q :: rest) i answers count).count =
      (statLoop wanted rest (i + 1) (setKey answers i (gradeQuestion q (answers i)).stored)
        (if (b == wanted) = true then count + 1 else count)).count := by
  simp [statLoop, h, statGrade_eq_gradeQuestion, hv]

theorem statLoop_count (wanted : Bool) (all : List Question)
    (answers0 : Int → Option (List JsStr)) (qs : List Question) (i : Nat)
    (answers : Int → Option (List JsStr)) (count : Nat) (hqs : qs = all.drop i)
    (hagree : ∀ k : Nat, i ≤ k → answers k = answers0 k) (hno : NoMissingAnswer qs) :
    (statLoop wanted qs i answers count).count =
      some (count + ((List.range' i qs.length).filter
        (fun (k : Nat) => isAnswered ((answers0 k).getD []) &&
          (correctAt all answers0 k == wanted))).length) := by
  induction qs generalizing i answers count with
  | nil => rfl
  | cons q rest ih =>
    obtain ⟨hget, hrest⟩ := drop_eq_cons hqs
    have hi : answers i = answers0 i := hagree i (le_refl _)
    simp only [List.length_cons, List.range'_succ, List.filter_cons]
    by_cases ha : isAnswered ((answers i).getD []) = true
    · obtain ⟨b, hv⟩ :=
        gradeQuestion_verdict_isSome q (answers i) (hno q (List.mem_cons_self _ _))
      have hgrade : gradeAt all answers0 i = some (gradeQuestion q (answers i)) := by
        simp [gradeAt, hget, hi]
      have hcorrect : correctAt all answers0 i = b := by
        simp only [correctAt, hgrade, hv]
        cases b <;> rfl
      rw [statLoop_cons_graded wanted q rest i answers count b ha hv]
      rw [ih (i + 1) _ _ hrest
        (fun k hk => by
          have hne : ¬ ((k : Int) = (i : Int)) := by omega
          simp only [setKey, hne, if_false]
          exact hagree k (by omega)) hno.tail]
      rw [← hi, ha, hcorrect]
      by_cases hb : (b == wanted) = true
      · simp [hb, Nat.add_assoc, Nat.add_comm 1]
      · simp [hb]
    · have ha2 : isAnswered ((answers i).getD []) = false := by simpa using ha
      rw [statLoop_cons_skip wanted q rest i answers count ha2]
      simp only
      rw [ih (i + 1) _ _ hrest (fun k hk => hagree k (by omega)) hno.tail]
      rw [← hi, ha2]
      simp

theorem filter_and_length_add (l : List Nat) (a c : Nat → Bool) :
    (l.filter (fun k => a k && c k)).length + (l.filter (fun k => a k && !c k)).length
      = (l.filter a).length := by
  induction l with
  | nil => rfl
  | cons x xs ih =>
    simp only [List.filter_cons]
    cases ha : a x <;> cases hc : c x <;> simp <;> omega

theorem filter_and_length_le (l : List Nat) (a c : Nat → Bool) :
    (l.filter (fun k => a k && c k)).length ≤ (l.filter c).length := by
  induction l with
  | nil => exact Nat.le_refl _
  | cons x xs ih =>
    simp only [List.filter_cons]
    cases ha : a x <;> cases hc : c x <;> simp <;> omega

/-- C21: when no graded question lacks its `correct_answer`, `totalCorrect` is
the number of attempted indices graded correct by the comparison rule of
`_submitExam`, and `totalWrong` the number of attempted indices graded not
correct, where an index is attempted if and only if its stored answer is not
empty and has an element that is not empty after trimming; so
`totalCorrect + totalWrong` is the number of attempted indices, and
`totalCorrect` is at most the `correct_count` of `_submitExam`. -/
theorem C21_statistics_count_attempted (s : State) (hno : NoMissingAnswer s.localQuestions) :
    ∃ c w r, (totalCorrect s).count = some c ∧ (totalWrong s).count = some w ∧
      (_submitExam s).result = some r ∧
      c = ((List.range s.localQuestions.length).filter
        (fun i => attemptedAt s i && gradedCorrect s i)).length ∧
      w = ((List.range s.localQuestions.length).filter
        (fun i => attemptedAt s i && !gradedCorrect s i)).length ∧
      c + w = ((List.range s.localQuestions.length).filter (attemptedAt s)).length ∧
      c ≤ r.correct_count := by
  have hatt : ∀ k : Nat, isAnswered ((s.localAnswers k).getD []) = attemptedAt s k := by
    intro k
    unfold attemptedAt
    by_cases h : AttemptedSpec ((s.localAnswers k).getD [])
    · rw [decide_eq_true h]; exact (isAnswered_iff _).2 h
    · rw [decide_eq_false h]
      rw [Bool.eq_false_iff]
      exact fun h2 => h ((isAnswered_iff _).1 h2)
  have hc := statLoop_count true s.localQuestions s.localAnswers s.localQuestions 0
    s.localAnswers 0 (by simp) (fun _ _ => rfl) hno
  have hw := statLoop_count false s.localQuestions s.localAnswers s.localQuestions 0
    s.localAnswers 0 (by simp) (fun _ _ => rfl) hno
  simp only [Nat.zero_add, ← List.range_eq_range', hatt] at hc hw
  have e1 : (fun (k : Nat) => attemptedAt s k && (correctAt s.localQuestions s.localAnswers k == true))
      = (fun i => attemptedAt s i && gradedCorrect s i) := by
    funext k
    simp [gradedCorrect]
  have e2 : (fun (k : Nat) => attemptedAt s k && (correctAt s.localQuestions s.localAnswers k == false))
      = (fun i => attemptedAt s i && !gradedCorrect s i) := by
    funext k
    cases h : correctAt s.localQuestions s.localAnswers k <;> simp [gradedCorrect, h]
  rw [e1] at hc
  rw [e2] at hw
  refine ⟨_, _, _, hc, hw, (submitExam_of_noMissing s hno).1, rfl, rfl, ?_, ?_⟩
  · exact filter_and_length_add _ _ _
  · exact filter_and_length_le _ _ _

/-- Witness of C21: in scenario one both questions are attempted, one is
graded correct and one is not. -/
theorem C21_statistics_count_attempted_witness :
    NoMissingAnswer scenarioOne.localQuestions ∧
    (totalCorrect scenarioOne).count = some 1 ∧ (totalWrong scenarioOne).count = some 1 := by
  refine ⟨by decide, ?_⟩
  obtain ⟨c, w, r, hc, hw, _, ec, ew, _, _⟩ :=
    C21_statistics_count_attempted scenarioOne (by decide)
  rw [hc, hw, ec, ew]
  exact ⟨by decide, by decide⟩


/-! ## A full score -/

theorem tie_product :
    toDouble (toDouble (toDouble ((1999 : ℚ) / 2000) * 100) * 10) = 1999 / 2 := by
  have h1 : toDouble ((1999 : ℚ) / 2000) = 4501347827556811 / 4503599627370496 := by
    rw [toDouble_eq _ (-1) 9002695655113622 (by norm_num) (by norm_num) (by norm_num)
      (by norm_num) (by norm_num)]
    norm_num
  have h2 : toDouble ((4501347827556811 : ℚ) / 4503599627370496 * 100)
      = 7033355980557517 / 70368744177664 := by
    rw [toDouble_eq _ 6 7033355980557517 (by norm_num) (by norm_num) (by norm_num)
      (by norm_num) (by norm_num)]
    norm_num
  have h3 : toDouble ((7033355980557517 : ℚ) / 70368744177664 * 10) = 1999 / 2 := by
    rw [toDouble_eq _ 9 8791694975696896 (by norm_num) (by norm_num) (by norm_num)
      (by norm_num) (by norm_num)]
    norm_num
  rw [h1, h2, h3]

theorem floor_eq_thousand_iff (c n : Nat) (hn : 0 < n) (hc : c ≤ n) :
    ⌊1000 * (c : ℚ) / (n : ℚ) + 1 / 2⌋ = 1000 ↔ 2000 * (n - c) ≤ n := by
  have hnq : (0 : ℚ) < (n : ℚ) := by exact_mod_cast hn
  have hcq : (c : ℚ) ≤ (n : ℚ) := by exact_mod_cast hc
  have hle : 1000 * (c : ℚ) / (n : ℚ) ≤ 1000 := by
    rw [div_le_iff₀ hnq]
    nlinarith
  constructor
  · intro h2
    have h3 := (Int.floor_eq_iff.1 h2).1
    have h4 : (1000 : ℚ) - 1 / 2 ≤ 1000 * (c : ℚ) / (n : ℚ) := by
      push_cast at h3
      linarith
    rw [le_div_iff₀ hnq] at h4
    have h5 : (2000 : ℚ) * (n : ℚ) ≤ 2000 * (c : ℚ) + (n : ℚ) := by linarith
    have h6 : 2000 * n ≤ 2000 * c + n := by exact_mod_cast h5
    omega
  · intro h
    have h6 : 2000 * n ≤ 2000 * c + n := by omega
    have h5 : (2000 : ℚ) * (n : ℚ) ≤ 2000 * (c : ℚ) + (n : ℚ) := by exact_mod_cast h6
    have h4 : (1000 : ℚ) - 1 / 2 ≤ 1000 * (c : ℚ) / (n : ℚ) := by
      rw [le_div_iff₀ hnq]
      linarith
    rw [Int.floor_eq_iff]
    constructor
    · push_cast
      linarith
    · push_cast
      linarith

theorem floor_le_thousand (c n : Nat) (hn : 0 < n) (hc : c ≤ n) :
    ⌊1000 * (c : ℚ) / (n : ℚ) + 1 / 2⌋ ≤ 1000 := by
  have hnq : (0 : ℚ) < (n : ℚ) := by exact_mod_cast hn
  have hcq : (c : ℚ) ≤ (n : ℚ) := by exact_mod_cast hc
  have hle : 1000 * (c : ℚ) / (n : ℚ) ≤ 1000 := by
    rw [div_le_iff₀ hnq]
    nlinarith
  have : ⌊1000 * (c : ℚ) / (n : ℚ) + 1 / 2⌋ < 1000 + 1 := by
    rw [Int.floor_lt]
    push_cast
    linarith
  omega

theorem computeScore_eq_hundred_iff (c n : Nat) (hn : 0 < n) (hc : c ≤ n) (hb : n < 2 ^ 32) :
    computeScore c n = 100 ↔ 2000 * (n - c) ≤ n := by
  have hnq : (0 : ℚ) < (n : ℚ) := by exact_mod_cast hn
  have hK0 : 0 ≤ ⌊1000 * (c : ℚ) / (n : ℚ) + 1 / 2⌋ := Int.floor_nonneg.2 (by positivity)
  have hK := floor_le_thousand c n hn hc
  rw [← floor_eq_thousand_iff c n hn hc]
  constructor
  · intro h
    by_contra hne
    have hlt : ⌊1000 * (c : ℚ) / (n : ℚ) + 1 / 2⌋ ≤ 999 := by omega
    rcases computeScore_cases c n hn hc hb with h1 | ⟨ht, h1⟩
    · have := toDouble_tenth_lt _ hK0 hlt
      rw [← h1, h] at this
      exact lt_irrefl _ this
    · have hK1 : 1 ≤ ⌊1000 * (c : ℚ) / (n : ℚ) + 1 / 2⌋ := by
        by_contra hz
        have hz0 : ⌊1000 * (c : ℚ) / (n : ℚ) + 1 / 2⌋ = 0 := by omega
        rw [hz0] at ht
        omega
      have := toDouble_tenth_lt (⌊1000 * (c : ℚ) / (n : ℚ) + 1 / 2⌋ - 1) (by omega) (by omega)
      rw [← h1, h] at this
      exact lt_irrefl _ this
  · intro hK1000
    have hhundred : toDouble (((1000 : ℤ) : ℚ) / 10) = 100 := by
      rw [show ((1000 : ℤ) : ℚ) / 10 = 100 by norm_num]
      exact toDouble_hundred
    rcases computeScore_cases c n hn hc hb with h1 | ⟨ht, _⟩
    · rw [h1, hK1000]
      exact hhundred
    · rw [hK1000] at ht
      have hratio : (c : ℚ) / (n : ℚ) = 1999 / 2000 := by
        rw [div_eq_div_iff hnq.ne' (by norm_num)]
        have : ((2000 * (c : ℤ) + (n : ℤ) : ℤ) : ℚ) = ((2 * (n : ℤ) * 1000 : ℤ) : ℚ) := by rw [ht]
        push_cast at this
        linarith
      have hr : mathRound ((1999 : ℚ) / 2) = 1000 := by
        rw [mathRound, Int.floor_eq_iff]; norm_num
      rw [computeScore_pos c n hn, hratio, tie_product, hr]
      exact hhundred

/-- C22 (as amended): when no graded question lacks its `correct_answer` and
there are `N > 0` questions, round-half-up of `1000 * correct_count / N` in exact
arithmetic, divided by 10, equals 100 if and only if
`2000 * (N - correct_count) <= N`, and for `N < 2^32` the score of `_submitExam`,
computed in doubles, equals 100 under the same condition; `wrong_questions` is
empty if and only if `correct_count = N`; so for `N < 2000` the score equals 100
if and only if `wrong_questions` is empty. -/
theorem C22_full_score_iff (s : State) (hno : NoMissingAnswer s.localQuestions)
    (hpos : 0 < s.localQuestions.length) :
    ∃ r, (_submitExam s).result = some r ∧
      (((⌊1000 * (r.correct_count : ℚ) / (s.localQuestions.length : ℚ) + 1 / 2⌋ : ℤ) : ℚ) / 10 = 100
        ↔ 2000 * (s.localQuestions.length - r.correct_count) ≤ s.localQuestions.length) ∧
      (s.localQuestions.length < 2 ^ 32 →
        (r.score = 100 ↔ 2000 * (s.localQuestions.length - r.correct_count)
          ≤ s.localQuestions.length)) ∧
      (r.wrong_questions = [] ↔ r.correct_count = s.localQuestions.length) ∧
      (s.localQuestions.length < 2000 → (r.score = 100 ↔ r.wrong_questions = [])) := by
  obtain ⟨r, hr, hscore, _, hsum, _⟩ := submitExam_counts s hno
  have hle : r.correct_count ≤ s.localQuestions.length := by omega
  have h0 : ((⌊1000 * (r.correct_count : ℚ) / (s.localQuestions.length : ℚ) + 1 / 2⌋ : ℤ) : ℚ) / 10
      = 100 ↔ 2000 * (s.localQuestions.length - r.correct_count) ≤ s.localQuestions.length := by
    rw [← floor_eq_thousand_iff r.correct_count s.localQuestions.length hpos hle]
    constructor
    · intro h
      have h1 : ((⌊1000 * (r.correct_count : ℚ) / (s.localQuestions.length : ℚ) + 1 / 2⌋ : ℤ) : ℚ)
          = ((1000 : ℤ) : ℚ) := by
        push_cast
        linarith
      exact_mod_cast h1
    · intro h
      rw [h]
      norm_num
  have h1 : s.localQuestions.length < 2 ^ 32 →
      (r.score = 100 ↔ 2000 * (s.localQuestions.length - r.correct_count)
        ≤ s.localQuestions.length) := by
    intro hb
    rw [hscore]
    exact computeScore_eq_hundred_iff r.correct_count s.localQuestions.length hpos hle hb
  have h2 : r.wrong_questions = [] ↔ r.correct_count = s.localQuestions.length := by
    rw [← List.length_eq_zero]
    omega
  refine ⟨r, hr, h0, h1, h2, ?_⟩
  intro hsmall
  rw [h1 (by omega), h2]
  omega

/-- Witness of C22: scenario one has two questions and one wrong answer, and
its score is not 100. -/
theorem C22_full_score_iff_witness :
    ∃ r, (_submitExam scenarioOne).result = some r ∧ ¬ r.score = 100 ∧
      ¬ r.wrong_questions = [] := by
  obtain ⟨r, hr, _, _, _, h3⟩ := C22_full_score_iff scenarioOne (by decide) (by decide)
  have hw : ¬ r.wrong_questions = [] := by
    rw [submitExam_scenarioOne] at hr
    injection hr with hr
    rw [← hr]
    simp
  exact ⟨r, hr, fun hs => hw ((h3 (by decide)).1 hs), hw⟩

theorem largeSession_noMissing : NoMissingAnswer largeSession.localQuestions := by
  intro q hq _
  have : q = sampleQuestion singleChoice [utf16 "A"] := List.eq_of_mem_replicate hq
  rw [this]
  rfl

theorem largeSession_length : largeSession.localQuestions.length = 2000 :=
  List.length_replicate _ _

theorem largeSession_gradedCorrect (i : Nat) (hi : i < 2000) :
    gradedCorrect largeSession i = decide (i ≠ 1999) := by
  have hq : largeSession.localQuestions[i]? = some (sampleQuestion singleChoice [utf16 "A"]) := by
    show (List.replicate 2000 (sampleQuestion singleChoice [utf16 "A"]))[i]? = _
    rw [List.getElem?_replicate]
    simp [hi]
  have hg : gradedCorrect largeSession i
      = ((gradeQuestion (sampleQuestion singleChoice [utf16 "A"])
          (largeSession.localAnswers (i : Int))).verdict == some true) := by
    simp only [gradedCorrect, correctAt, gradeAt, hq, Option.map_some']
  rw [hg]
  by_cases h : i = 1999
  · have ha : largeSession.localAnswers (i : Int) = some [utf16 "B"] := by
      show (if (i : Int) = 1999 then some [utf16 "B"] else some [utf16 "A"]) = _
      rw [h]; rfl
    have hv : (gradeQuestion (sampleQuestion singleChoice [utf16 "A"])
        (some [utf16 "B"])).verdict = some false := by decide
    rw [ha, hv]
    simp [h]
  · have hne : ¬ ((i : Int) = 1999) := by omega
    have ha : largeSession.localAnswers (i : Int) = some [utf16 "A"] := by
      show (if (i : Int) = 1999 then some [utf16 "B"] else some [utf16 "A"]) = _
      rw [if_neg hne]
    have hv : (gradeQuestion (sampleQuestion singleChoice [utf16 "A"])
        (some [utf16 "A"])).verdict = some true := by decide
    rw [ha, hv]
    simp [h]

theorem largeSession_correct_count :
    ((List.range 2000).filter (gradedCorrect largeSession)).length = 1999 := by
  have hfilter : (List.range 2000).filter (gradedCorrect largeSession)
      = (List.range 2000).filter (fun i => decide (i ≠ 1999)) := by
    apply List.filter_congr
    intro i hi
    exact largeSession_gradedCorrect i (List.mem_range.1 hi)
  rw [hfilter, show (2000 : Nat) = 1999 + 1 from rfl, List.range_succ, List.filter_append]
  have hall : (List.range 1999).filter (fun i => decide (i ≠ 1999)) = List.range 1999 := by
    rw [List.filter_eq_self]
    intro i hi
    have := List.mem_range.1 hi
    exact decide_eq_true (by omega)
  rw [hall]
  simp

/-- C22 as stated fails: in a session of 2000 questions with 1999 correct
answers and one wrong answer, the score is 100 although `wrong_questions` is
not empty. -/
theorem C22_full_score_counterexample :
    ∃ r, (_submitExam largeSession).result = some r ∧ r.total_questions = 2000 ∧
      r.correct_count = 1999 ∧ r.wrong_questions.length = 1 ∧
      ¬ (r.score = 100 ↔ r.wrong_questions = []) := by
  obtain ⟨r, hr, hscore, hcount, hsum, htotal⟩ :=
    submitExam_counts largeSession largeSession_noMissing
  rw [largeSession_length] at hscore hcount hsum htotal
  rw [largeSession_correct_count] at hcount
  have hlen : r.wrong_questions.length = 1 := by omega
  have hs : r.score = 100 := by
    rw [hscore, hcount]
    exact (computeScore_eq_hundred_iff 1999 2000 (by decide) (by decide) (by decide)).2
      (by decide)
  refine ⟨r, hr, htotal, hcount, hlen, ?_⟩
  intro hiff
  have hnil := hiff.1 hs
  rw [hnil] at hlen
  simp at hlen

end TGHelper
